import Mathlib

/-!
Shallow embedding of the paq Aseprite loader (`paq_aseprite.h`) and of the
bundled stb zlib decompressor, together with theorems settling the claims
about the decoder.  Byte sources are modelled as a `List Nat` of byte values
plus a cursor position, following the memory-interface callbacks
(`ASE__mem_read`, `ASE__mem_skip`, `ASE__mem_seek`, `ASE__mem_tell`).
-/

namespace PaqAse

/-- Byte fetched at an absolute position; out-of-range positions give 0 and
stored values are reduced to their low 8 bits (the C side reads `uint8_t`). -/
def byteAt (buf : List Nat) (p : Nat) : Nat := buf.getD p 0 % 256

/-- Little-endian 16-bit value assembled from two bytes of the buffer. -/
def u16At (buf : List Nat) (p : Nat) : Nat :=
  byteAt buf p + 256 * byteAt buf (p + 1)

/-- Little-endian 32-bit value assembled from four bytes of the buffer. -/
def u32At (buf : List Nat) (p : Nat) : Nat :=
  byteAt buf p + 256 * byteAt buf (p + 1) + 65536 * byteAt buf (p + 2) +
    16777216 * byteAt buf (p + 3)

/-- Reinterpret an unsigned 16-bit value as the signed `int16_t` it stores. -/
def i16 (v : Nat) : Int :=
  if v % 65536 < 32768 then (v % 65536 : Int) else (v % 65536 : Int) - 65536

/-- Decode context: the byte source and the cursor, as in `ASE__ctx` backed by
the memory callbacks (`buf_orig` is position 0, `buf` is `pos`). -/
structure ASE__ctx where
  buf : List Nat
  pos : Nat
deriving Repr, DecidableEq, Inhabited

/-- Source `ASE__mem_read`: copy up to `n` bytes from the cursor, stopping at the end
of the buffer, and advance the cursor by the number of bytes obtained. -/
def ASE__mem_read (c : ASE__ctx) (n : Nat) : List Nat × ASE__ctx :=
  let k := min n (c.buf.length - c.pos)
  ((c.buf.drop c.pos).take k, ⟨c.buf, c.pos + k⟩)

/-- Source `ASE__mem_skip`: advance the cursor, stopping at the end of the buffer. -/
def ASE__mem_skip (c : ASE__ctx) (n : Nat) : ASE__ctx :=
  ⟨c.buf, min (c.pos + n) c.buf.length⟩

/-- Source `ASE__mem_seek`: absolute reposition of the cursor (unchecked). -/
def ASE__mem_seek (c : ASE__ctx) (p : Nat) : ASE__ctx := ⟨c.buf, p⟩

/-- Source `ASE__read8`: one byte (stored through `uint8_t`, hence the low 8 bits),
or 0 when the read comes up short. -/
def ASE__read8 (c : ASE__ctx) : Nat × ASE__ctx :=
  let r := ASE__mem_read c 1
  (if r.1.length = 1 then r.1.getD 0 0 % 256 else 0, r.2)

/-- Source `ASE__read16`: two bytes little-endian, or 0 when the read comes up short
(the cursor still advances by however many bytes were available). -/
def ASE__read16 (c : ASE__ctx) : Nat × ASE__ctx :=
  let r := ASE__mem_read c 2
  (if r.1.length = 2 then r.1.getD 0 0 % 256 + 256 * (r.1.getD 1 0 % 256) else 0, r.2)

/-- Source `ASE__read32`: four bytes little-endian, or 0 when the read comes up
short. -/
def ASE__read32 (c : ASE__ctx) : Nat × ASE__ctx :=
  let r := ASE__mem_read c 4
  (if r.1.length = 4 then
    r.1.getD 0 0 % 256 + 256 * (r.1.getD 1 0 % 256) + 65536 * (r.1.getD 2 0 % 256) +
      16777216 * (r.1.getD 3 0 % 256)
   else 0, r.2)

/-- A run of `n` consecutive `ASE__read8` calls, as used by the string, raw
image and compressed-payload readers. -/
def ASE__read8Loop : ASE__ctx → Nat → List Nat × ASE__ctx
  | c, 0 => ([], c)
  | c, n + 1 =>
    let r := ASE__read8 c
    let rs := ASE__read8Loop r.2 n
    (r.1 :: rs.1, rs.2)

/-- Source `ASE_DOC_read_string`: u16 length prefix followed by that many raw bytes
(the `Length != EOF` test in the source is vacuous for a `uint16_t`). -/
def ASE_DOC_read_string (c : ASE__ctx) : List Nat × ASE__ctx :=
  let r := ASE__read16 c
  ASE__read8Loop r.2 r.1

/-! ## Document data model (`ASE_Palette`, `ASE_Layer`, `ASE_Cel`, `ASE_Frame`,
`ASE_Tag`, `ASE_Sprite`), with zero values standing for `memset(p, 0, ...)`. -/

/-- Source `ASE_Pixel32`: one RGBA color (byte channels). -/
structure ASE_Pixel32 where
  r : Nat
  g : Nat
  b : Nat
  a : Nat
deriving Repr, DecidableEq, Inhabited

def ASE_Pixel32.zero : ASE_Pixel32 := ⟨0, 0, 0, 0⟩

/-- Source `ASE_Palette`: `uint8_t ncolors` plus a fixed table of 256 colors. -/
structure ASE_Palette where
  ncolors : Nat
  colors : List ASE_Pixel32
deriving Repr, DecidableEq, Inhabited

def ASE_Palette.zero : ASE_Palette := ⟨0, List.replicate 256 ASE_Pixel32.zero⟩

/-- Source `ASE_Layer`. Field `visible` keeps the masked flag value the source
stores (`H.flags & ASE_LAYER_VISIBLE`). -/
structure ASE_Layer where
  name : List Nat
  flags : Nat
  type : Nat
  blendmode : Nat
  opacity : Nat
  child_level : Nat
  parent : Int
  visible : Nat
deriving Repr, DecidableEq, Inhabited

def ASE_Layer.zero : ASE_Layer := ⟨[], 0, 0, 0, 0, 0, 0, 0⟩

/-- Source `ASE_Cel`. `w`/`h` are stored through `int16_t` fields; `data` is the
owned pixel buffer or `none` for the null pointer. -/
structure ASE_Cel where
  layer : Nat
  x : Int
  y : Int
  w : Int
  h : Int
  opacity : Nat
  data : Option (List Nat)
  is_linked : Bool
  frame : Nat
deriving Repr, DecidableEq, Inhabited

def ASE_Cel.zero : ASE_Cel := ⟨0, 0, 0, 0, 0, 0, none, false, 0⟩

/-- Source `ASE_Frame`: duration plus the cels appended while parsing. -/
structure ASE_Frame where
  duration : Nat
  cels : List ASE_Cel
deriving Repr, DecidableEq, Inhabited

/-- Source `ASE_Tag`. Source field names are `from`/`to` (Lean keywords), kept here
as `tfrom`/`tto`; both are `int16_t` values. -/
structure ASE_Tag where
  tfrom : Int
  tto : Int
  dir : Int
  name : List Nat
deriving Repr, DecidableEq, Inhabited

/-- Source `ASE_Sprite`: the root aggregate.  `nlayers`/`nframes`/`ntags` are the
list lengths. -/
structure ASE_Sprite where
  width : Nat
  height : Nat
  depth : Nat
  palette : ASE_Palette
  layers : List ASE_Layer
  frames : List ASE_Frame
  tags : List ASE_Tag
deriving Repr, DecidableEq, Inhabited

/-- A sprite whose bytes are all zero (`ASE_Sprite out = {0}` / after
`memset(Sprite, 0, sizeof(ASE_Sprite))`). -/
def ASE_Sprite.zero : ASE_Sprite :=
  ⟨0, 0, 0, ASE_Palette.zero, [], [], []⟩

/-! ## Document and chunk headers -/

/-- Source `ASE_DOC_Header`. -/
structure ASE_DOC_Header where
  size : Nat
  magic : Nat
  frames : Nat
  width : Nat
  height : Nat
  depth : Nat
  flags : Nat
  speed : Nat
  next : Nat
  frit : Nat
  transparent_index : Nat
  ncolors : Nat
  pixel_w : Nat
  pixel_h : Nat
deriving Repr, DecidableEq, Inhabited

def ASE_FILE_MAGIC : Nat := 0xA5E0
def ASE_FILE_FRAME_MAGIC : Nat := 0xF1FA
def ASE_DEPTH_RGBA : Nat := 32
def ASE_DEPTH_GRAYSCALE : Nat := 16
def ASE_DEPTH_INDEXED : Nat := 8
def ASE_LAYER_BACKGROUND : Nat := 8
def ASE_LAYER_VISIBLE : Nat := 1
def ASE_PALETTE_FLAG_HAS_NAME : Nat := 1

/-- Source `ASE_DOC_Header_read`: reads every field, then validates magic and depth
(failing returns 0 with the cursor where the reads left it), then applies the
`ncolors == 0 -> 256` and pixel-aspect quirks and seeks to `Pos + 128`. -/
def ASE_DOC_Header_read (c : ASE__ctx) : Bool × ASE_DOC_Header × ASE__ctx :=
  let pos0 := c.pos
  let rsize := ASE__read32 c
  let rmagic := ASE__read16 rsize.2
  let rframes := ASE__read16 rmagic.2
  let rwidth := ASE__read16 rframes.2
  let rheight := ASE__read16 rwidth.2
  let rdepth := ASE__read16 rheight.2
  let rflags := ASE__read32 rdepth.2
  let rspeed := ASE__read16 rflags.2
  let rnext := ASE__read32 rspeed.2
  let rfrit := ASE__read32 rnext.2
  let rtransp := ASE__read8 rfrit.2
  let cskip := ASE__mem_skip rtransp.2 3
  let rncolors := ASE__read16 cskip
  let rpixelh := ASE__read8 rncolors.2
  let rpixelw := ASE__read8 rpixelh.2
  let O : ASE_DOC_Header :=
    ⟨rsize.1, rmagic.1, rframes.1, rwidth.1, rheight.1, rdepth.1, rflags.1,
     rspeed.1, rnext.1, rfrit.1, rtransp.1, rncolors.1, rpixelw.1, rpixelh.1⟩
  if O.magic ≠ ASE_FILE_MAGIC then
    (false, O, rpixelw.2)
  else if O.depth ≠ ASE_DEPTH_RGBA ∧ O.depth ≠ ASE_DEPTH_GRAYSCALE ∧
      O.depth ≠ ASE_DEPTH_INDEXED then
    (false, O, rpixelw.2)
  else
    let O := if O.ncolors = 0 then { O with ncolors := 256 } else O
    let O := if O.pixel_w = 0 ∨ O.pixel_h = 0 then
      { O with pixel_w := 1, pixel_h := 1 } else O
    (true, O, ASE__mem_seek rpixelw.2 (pos0 + 128))

/-- Source `ASE_FrameHeader`. -/
structure ASE_FrameHeader where
  size : Nat
  magic : Nat
  chunks : Nat
  duration : Nat
deriving Repr, DecidableEq, Inhabited

/-- Source `ASE_FrameHeader_read`: size, magic, chunk count, duration, then six
reserved bytes are skipped. -/
def ASE_FrameHeader_read (c : ASE__ctx) : ASE_FrameHeader × ASE__ctx :=
  let rsize := ASE__read32 c
  let rmagic := ASE__read16 rsize.2
  let rchunks := ASE__read16 rmagic.2
  let rduration := ASE__read16 rchunks.2
  (⟨rsize.1, rmagic.1, rchunks.1, rduration.1⟩, ASE__mem_skip rduration.2 6)

/-! ## Palette chunk (`ASE_Palette_read`) -/

/-- The byte-order fixup applied after reading one palette color: the 32-bit
value is split little-endian into `(r,g,b,a)` and then red/blue are swapped. -/
def ASE_paletteColorOf (v : Nat) : ASE_Pixel32 :=
  ⟨v / 65536 % 256, v / 256 % 256, v % 256, v / 16777216 % 256⟩

/-- One iteration of the palette entry loop: flags, color (stored at index
`ncolors`, which then increments through `uint8_t`), optional skipped name. -/
def ASE_Palette_readEntry (c : ASE__ctx) (R : ASE_Palette) : ASE_Palette × ASE__ctx :=
  let rflags := ASE__read16 c
  let rrgba := ASE__read32 rflags.2
  let R' : ASE_Palette :=
    ⟨(R.ncolors + 1) % 256, R.colors.set R.ncolors (ASE_paletteColorOf rrgba.1)⟩
  if rflags.1 &&& ASE_PALETTE_FLAG_HAS_NAME ≠ 0 then
    (R', (ASE_DOC_read_string rrgba.2).2)
  else
    (R', rrgba.2)

/-- The palette entry loop, iterated once per index in `From..To`. -/
def ASE_Palette_readLoop : Nat → ASE__ctx → ASE_Palette → ASE_Palette × ASE__ctx
  | 0, c, R => (R, c)
  | n + 1, c, R =>
    let r := ASE_Palette_readEntry c R
    ASE_Palette_readLoop n r.2 r.1

/-- Source `ASE_Palette_read`: copies the previous palette, reads the (ignored) new
size and the `From`/`To` range, skips 8 reserved bytes, then runs the entry
loop `To + 1 - From` times (no iterations when `To < From`). -/
def ASE_Palette_read (c : ASE__ctx) (Prev : ASE_Palette) : ASE_Palette × ASE__ctx :=
  let rnewsize := ASE__read32 c
  let rfrom := ASE__read32 rnewsize.2
  let rto := ASE__read32 rfrom.2
  let cskip := ASE__mem_skip rto.2 8
  ASE_Palette_readLoop (rto.1 + 1 - rfrom.1) cskip Prev

/-! ## Layer chunk (`ASE_Layer_read`) -/

def ASE_FILE_LAYER_IMAGE : Nat := 0
def ASE_FILE_LAYER_GROUP : Nat := 1

/-- The parent-chain walk in the `child_level < *CurrentLevel` branch of
`ASE_Layer_read`.  The source computes this value into a local variable and
then never assigns it to the layer. -/
def ASE_Layer_walkBack (layers : List ASE_Layer) : Nat → Int → Int
  | 0, parent => parent
  | levels + 1, parent =>
    let PL := layers.getD parent.toNat ASE_Layer.zero
    if PL.parent = -1 then parent
    else ASE_Layer_walkBack layers levels PL.parent

/-- Result of `ASE_Layer_read`: the created layer (if the chunk kind was
Image or Group), the updated sprite, and the updated running state
`(*PrevLayer, *CurrentLevel)`. -/
structure ASE_LayerReadResult where
  layer : Option ASE_Layer
  sprite : ASE_Sprite
  prevLayer : Option ASE_Layer
  currentLevel : Int
  ctx : ASE__ctx
deriving Repr, DecidableEq, Inhabited

/-- Source `ASE_Layer_read`.  The new layer starts zeroed (`ASE_DOC_AddLayer`
memsets it); for an Image layer that is not a background layer the blend
mode and opacity are copied; then name/flags/type/child level/visibility are
set and the parent is assigned per the depth-transition policy.  In the
`child_level < *CurrentLevel` branch the source computes the walk-back
ancestor but never stores it, so the parent keeps the zeroed value 0.
`*PrevLayer` is modelled by the value of the last created layer (the source
keeps a pointer into the layer array). -/
def ASE_Layer_read (c : ASE__ctx) (Sprite : ASE_Sprite)
    (PrevLayer : Option ASE_Layer) (CurrentLevel : Int) : ASE_LayerReadResult :=
  let rflags := ASE__read16 c
  let rtype := ASE__read16 rflags.2
  let rchild := ASE__read16 rtype.2
  let rdefw := ASE__read16 rchild.2
  let rdefh := ASE__read16 rdefw.2
  let rblend := ASE__read16 rdefh.2
  let ropacity := ASE__read8 rblend.2
  let cskip := ASE__mem_skip ropacity.2 3
  let rname := ASE_DOC_read_string cskip
  let c' := rname.2
  if rtype.1 = ASE_FILE_LAYER_IMAGE ∨ rtype.1 = ASE_FILE_LAYER_GROUP then
    let L0 := ASE_Layer.zero
    let L1 := if rtype.1 = ASE_FILE_LAYER_IMAGE ∧
        rflags.1 &&& ASE_LAYER_BACKGROUND = 0 then
      { L0 with blendmode := rblend.1, opacity := ropacity.1 }
    else L0
    let L2 := { L1 with
      name := rname.1
      flags := rflags.1
      type := rtype.1
      child_level := rchild.1
      visible := rflags.1 &&& ASE_LAYER_VISIBLE }
    let nlayers : Int := (Sprite.layers.length : Int) + 1
    let prev := PrevLayer.getD ASE_Layer.zero
    let parent : Int :=
      if rchild.1 = 0 then -1
      else if CurrentLevel = (rchild.1 : Int) then prev.parent
      else if (rchild.1 : Int) > CurrentLevel then nlayers - 2
      else
        -- walk-back branch: the computed ancestor is discarded by the source
        let _Parent :=
          if prev.parent ≥ 0 then
            ASE_Layer_walkBack (Sprite.layers ++ [L2]) (CurrentLevel - (rchild.1 : Int)).toNat prev.parent
          else prev.parent
        L2.parent
    let L3 := { L2 with parent := parent }
    ⟨some L3, { Sprite with layers := Sprite.layers ++ [L3] }, some L3, (rchild.1 : Int), c'⟩
  else
    ⟨none, Sprite, PrevLayer, CurrentLevel, c'⟩

/-! ## Frame tags chunk (`ASE_Tags_read`) -/

def ASE_LOOP_FORWARD : Nat := 0
def ASE_LOOP_REVERSE : Nat := 1
def ASE_LOOP_PINGPONG : Nat := 2

/-- One iteration of the tag loop: from/to/direction (normalized to Forward
when out of range), 8 reserved bytes, 4 skipped color bytes, name. -/
def ASE_Tags_readOne (c : ASE__ctx) (S : ASE_Sprite) : ASE_Sprite × ASE__ctx :=
  let rfrom := ASE__read16 c
  let rto := ASE__read16 rfrom.2
  let rdir := ASE__read8 rto.2
  let dir := if rdir.1 ≠ ASE_LOOP_FORWARD ∧ rdir.1 ≠ ASE_LOOP_REVERSE ∧
      rdir.1 ≠ ASE_LOOP_PINGPONG then ASE_LOOP_FORWARD else rdir.1
  let rres1 := ASE__read32 rdir.2
  let rres2 := ASE__read32 rres1.2
  let cskip := ASE__mem_skip rres2.2 4
  let rname := ASE_DOC_read_string cskip
  let Tag : ASE_Tag := ⟨i16 rfrom.1, i16 rto.1, (dir : Int), rname.1⟩
  ({ S with tags := S.tags ++ [Tag] }, rname.2)

def ASE_Tags_readLoop : Nat → ASE__ctx → ASE_Sprite → ASE_Sprite × ASE__ctx
  | 0, c, S => (S, c)
  | n + 1, c, S =>
    let r := ASE_Tags_readOne c S
    ASE_Tags_readLoop n r.2 r.1

/-- Source `ASE_Tags_read`: tag count, 8 reserved bytes, then the per-tag loop. -/
def ASE_Tags_read (c : ASE__ctx) (S : ASE_Sprite) : ASE_Sprite × ASE__ctx :=
  let rcount := ASE__read16 c
  let rres1 := ASE__read32 rcount.2
  let rres2 := ASE__read32 rres1.2
  ASE_Tags_readLoop rcount.1 rres2.2 S

/-! ## The bundled stb zlib decompressor.

Loops that are unbounded in the C source are given explicit fuel; the fuel
supplied by `stbi_zlib_decode_buffer` dominates the step count of every
terminating C run on the same input (each block consumes at least three bits
and each symbol either errors, ends the block, consumes input bits, or
produces output, all of which the fuel formulas over-count). -/

/-- Source `stbi__bitreverse16`: reverse the low 16 bits. -/
def stbi__bitreverse16 (n : Nat) : Nat :=
  let n := ((n &&& 0xAAAA) >>> 1) ||| ((n &&& 0x5555) <<< 1)
  let n := ((n &&& 0xCCCC) >>> 2) ||| ((n &&& 0x3333) <<< 2)
  let n := ((n &&& 0xF0F0) >>> 4) ||| ((n &&& 0x0F0F) <<< 4)
  ((n &&& 0xFF00) >>> 8) ||| ((n &&& 0x00FF) <<< 8)

/-- Source `stbi__bit_reverse`: reverse the low `bits` bits (`bits ≤ 16`). -/
def stbi__bit_reverse (v bits : Nat) : Nat :=
  stbi__bitreverse16 v >>> (16 - bits)

/-- Source `stbi__zhuffman`: canonical-code tables.  `size`/`value` entries never
written by `stbi__zbuild_huffman` are uninitialized in C; they are 0 here. -/
structure stbi__zhuffman where
  fast : Array Nat
  firstcode : Array Nat
  maxcode : Array Nat
  firstsymbol : Array Nat
  size : Array Nat
  value : Array Nat
deriving Repr, DecidableEq, Inhabited

/-- The inner `while (j < (1 << STBI__ZFAST_BITS))` fast-table fill; the step
is `1 <<< s ≥ 2`, so 512 iterations of fuel always suffice. -/
def stbi__fillFast : Array Nat → Nat → Nat → Nat → Nat → Array Nat
  | fast, _, _, 0, _ => fast
  | fast, fastv, step, fuel + 1, j =>
    if j < 512 then stbi__fillFast (fast.setD j fastv) fastv step fuel (j + step)
    else fast

/-- State threaded through the first code-assignment loop of
`stbi__zbuild_huffman`. -/
structure ZBuildState where
  code : Nat
  k : Nat
  next_code : Array Nat
  firstcode : Array Nat
  firstsymbol : Array Nat
  maxcode : Array Nat
  ok : Bool
deriving Repr, DecidableEq, Inhabited

/-- Source `stbi__zbuild_huffman`: histogram of code lengths, per-length canonical
code assignment (with the over-subscribed and bad-codelength checks), then
the per-symbol `size`/`value`/`fast` table fill. -/
def stbi__zbuild_huffman (sizelist : Array Nat) (num : Nat) : Option stbi__zhuffman :=
  let sizes :=
    ((List.range num).foldl
      (fun (a : Array Nat) i =>
        let s := sizelist.getD i 0
        a.setD s (a.getD s 0 + 1))
      (Array.mkArray 17 0)).setD 0 0
  if (List.range' 1 15).any (fun i => sizes.getD i 0 > (1 <<< i)) then none
  else
    let st0 : ZBuildState :=
      ⟨0, 0, Array.mkArray 16 0, Array.mkArray 16 0, Array.mkArray 16 0,
        Array.mkArray 17 0, true⟩
    let st :=
      (List.range' 1 15).foldl
        (fun (st : ZBuildState) i =>
          if ¬st.ok then st
          else
            let si := sizes.getD i 0
            let nc := st.next_code.setD i st.code
            let fc := st.firstcode.setD i st.code
            let fs := st.firstsymbol.setD i st.k
            let code1 := st.code + si
            let bad := si ≠ 0 ∧ code1 - 1 ≥ (1 <<< i)
            let mc := st.maxcode.setD i (code1 <<< (16 - i))
            ⟨code1 <<< 1, st.k + si, nc, fc, fs, mc, st.ok ∧ ¬bad⟩)
        st0
    if ¬st.ok then none
    else
      let maxc := st.maxcode.setD 16 0x10000
      let z0 : stbi__zhuffman :=
        ⟨Array.mkArray 512 0, st.firstcode, maxc, st.firstsymbol,
          Array.mkArray 288 0, Array.mkArray 288 0⟩
      let final :=
        (List.range num).foldl
          (fun (p : Array Nat × stbi__zhuffman) i =>
            let nc := p.1
            let z := p.2
            let s := sizelist.getD i 0
            if s = 0 then p
            else
              let cidx := nc.getD s 0 - z.firstcode.getD s 0 + z.firstsymbol.getD s 0
              let fastv := (s <<< 9) ||| i
              let z := { z with size := z.size.setD cidx s, value := z.value.setD cidx i }
              let fast' := stbi__fillFast z.fast fastv (1 <<< s) 512
                (stbi__bit_reverse (nc.getD s 0) s)
              let z := if s ≤ 9 then { z with fast := fast' } else z
              (nc.setD s (nc.getD s 0 + 1), z))
          (st.next_code, z0)
      some final.2

/-- The `sizes` local of `stbi__zbuild_huffman` (code-length histogram). -/
def zbSizes (sizelist : Array Nat) (num : Nat) : Array Nat :=
  ((List.range num).foldl
    (fun (a : Array Nat) i =>
      let s := sizelist.getD i 0
      a.setD s (a.getD s 0 + 1))
    (Array.mkArray 17 0)).setD 0 0

/-- The `st` local of `stbi__zbuild_huffman` after the per-length loop. -/
def zbSt (sizelist : Array Nat) (num : Nat) : ZBuildState :=
  (List.range' 1 15).foldl
    (fun (st : ZBuildState) i =>
      if ¬st.ok then st
      else
        let si := (zbSizes sizelist num).getD i 0
        let nc := st.next_code.setD i st.code
        let fc := st.firstcode.setD i st.code
        let fs := st.firstsymbol.setD i st.k
        let code1 := st.code + si
        let bad := si ≠ 0 ∧ code1 - 1 ≥ (1 <<< i)
        let mc := st.maxcode.setD i (code1 <<< (16 - i))
        ⟨code1 <<< 1, st.k + si, nc, fc, fs, mc, st.ok ∧ ¬bad⟩)
    ⟨0, 0, Array.mkArray 16 0, Array.mkArray 16 0, Array.mkArray 16 0,
      Array.mkArray 17 0, true⟩

/-- The `z` local of `stbi__zbuild_huffman` before the per-symbol loop. -/
def zbZ0 (sizelist : Array Nat) (num : Nat) : stbi__zhuffman :=
  ⟨Array.mkArray 512 0, (zbSt sizelist num).firstcode,
    (zbSt sizelist num).maxcode.setD 16 0x10000,
    (zbSt sizelist num).firstsymbol, Array.mkArray 288 0, Array.mkArray 288 0⟩

/-- The state of `stbi__zbuild_huffman` after the per-symbol loop. -/
def zbFinal (sizelist : Array Nat) (num : Nat) : Array Nat × stbi__zhuffman :=
  (List.range num).foldl
    (fun (p : Array Nat × stbi__zhuffman) i =>
      let nc := p.1
      let z := p.2
      let s := sizelist.getD i 0
      if s = 0 then p
      else
        let cidx := nc.getD s 0 - z.firstcode.getD s 0 + z.firstsymbol.getD s 0
        let fastv := (s <<< 9) ||| i
        let z := { z with size := z.size.setD cidx s, value := z.value.setD cidx i }
        let fast' := stbi__fillFast z.fast fastv (1 <<< s) 512
          (stbi__bit_reverse (nc.getD s 0) s)
        let z := if s ≤ 9 then { z with fast := fast' } else z
        (nc.setD s (nc.getD s 0 + 1), z))
    ((zbSt sizelist num).next_code, zbZ0 sizelist num)

/-- Source `stbi__zbuf`: bit reader plus output-buffer state.  The output is the
list of bytes written so far, with `zout_limit` the allocated capacity. -/
structure stbi__zbuf where
  zbuffer : List Nat
  zpos : Nat
  num_bits : Nat
  code_buffer : Nat
  zout : List Nat
  zout_limit : Nat
  z_expandable : Bool
  z_length : stbi__zhuffman
  z_distance : stbi__zhuffman
deriving Repr, DecidableEq, Inhabited

/-- Source `stbi__zget8`: next input byte, 0 past the end (the cursor stays put). -/
def stbi__zget8 (z : stbi__zbuf) : Nat × stbi__zbuf :=
  if z.zpos ≥ z.zbuffer.length then (0, z)
  else (byteAt z.zbuffer z.zpos, { z with zpos := z.zpos + 1 })

/-- The do/while body of `stbi__fill_bits`; at most four refill steps run
from any reachable `num_bits`, so fuel 5 is exact. -/
def stbi__fill_bits_go : Nat → stbi__zbuf → stbi__zbuf
  | 0, z => z
  | fuel + 1, z =>
    let r := stbi__zget8 z
    let z' : stbi__zbuf := { r.2 with
      code_buffer := r.2.code_buffer ||| (r.1 <<< r.2.num_bits),
      num_bits := r.2.num_bits + 8 }
    if z'.num_bits ≤ 24 then stbi__fill_bits_go fuel z' else z'

def stbi__fill_bits (z : stbi__zbuf) : stbi__zbuf := stbi__fill_bits_go 5 z

/-- Source `stbi__zreceive`: take `n` bits LSB-first from the accumulator. -/
def stbi__zreceive (z : stbi__zbuf) (n : Nat) : Nat × stbi__zbuf :=
  let z := if z.num_bits < n then stbi__fill_bits z else z
  (z.code_buffer &&& ((1 <<< n) - 1),
   { z with code_buffer := z.code_buffer >>> n, num_bits := z.num_bits - n })

/-- The `for (s=STBI__ZFAST_BITS+1;;++s)` search of the slow path; the
`maxcode[16] = 0x10000` sentinel stops it at 16, so fuel 7 covers 10..16. -/
def stbi__slowpathFind (mc : Array Nat) (k : Nat) : Nat → Nat → Nat
  | 0, s => s
  | fuel + 1, s => if k < mc.getD s 0 then s else stbi__slowpathFind mc k fuel (s + 1)

/-- Source `stbi__zhuffman_decode_slowpath`.  A negative symbol index `b` (possible
only on corrupt tables, where C reads out of bounds) yields entry 0 here. -/
def stbi__zhuffman_decode_slowpath (a : stbi__zbuf) (z : stbi__zhuffman) :
    Int × stbi__zbuf :=
  let k := stbi__bitreverse16 a.code_buffer
  let s := stbi__slowpathFind z.maxcode k 7 10
  if s = 16 then (-1, a)
  else
    let b : Int := ((k >>> (16 - s) : Nat) : Int) - (z.firstcode.getD s 0 : Int) +
      (z.firstsymbol.getD s 0 : Int)
    ((z.value.getD b.toNat 0 : Int),
     { a with code_buffer := a.code_buffer >>> s, num_bits := a.num_bits - s })

/-- Source `stbi__zhuffman_decode`: fast-table hit or slow path. -/
def stbi__zhuffman_decode (a : stbi__zbuf) (z : stbi__zhuffman) : Int × stbi__zbuf :=
  let a := if a.num_bits < 16 then stbi__fill_bits a else a
  let b := z.fast.getD (a.code_buffer &&& 511) 0
  if b ≠ 0 then
    let s := b >>> 9
    (((b &&& 511 : Nat) : Int),
     { a with code_buffer := a.code_buffer >>> s, num_bits := a.num_bits - s })
  else stbi__zhuffman_decode_slowpath a z

/-- The doubling loop of `stbi__zexpand`; fuel 64 exceeds any doubling chain
from a positive limit on inputs of interest. -/
def stbi__growLimit : Nat → Nat → Nat → Nat
  | _, limit, 0 => limit
  | need, limit, fuel + 1 =>
    if need > limit then stbi__growLimit need (limit * 2) fuel else limit

/-- Source `stbi__zexpand`: grow the output capacity (reallocation is modelled as
always succeeding); fails when the buffer is not expandable. -/
def stbi__zexpand (z : stbi__zbuf) (n : Nat) : Option stbi__zbuf :=
  if ¬z.z_expandable then none
  else some { z with zout_limit := stbi__growLimit (z.zout.length + n) z.zout_limit 64 }

def stbi__zlength_base : List Nat :=
  [3,4,5,6,7,8,9,10,11,13,15,17] ++
    [19,23,27,31,35,43,51,59] ++ [67,83,99,115,131,163,195,227,258,0,0]

def stbi__zlength_extra : List Nat :=
  [0,0,0,0,0,0,0,0,1,1,1,1,2,2,2,2] ++ [3,3,3,3,4,4,4,4,5,5,5,5,0,0,0]

def stbi__zdist_base : List Nat :=
  [1,2,3,4,5,7,9,13,17,25,33,49] ++ [65,97,129,193,257,385,513,769] ++
    [1025,1537,2049,3073,4097,6145] ++ [8193,12289,16385,24577,0,0]

def stbi__zdist_extra : List Nat :=
  [0,0,0,0,1,1,2,2,3,3,4,4,5,5,6,6] ++ [7,7,8,8,9,9,10,10,11,11,12,12,13,13]

/-- The back-reference copy `do *zout++ = *p++; while (--len);` for
`dist ≠ 1`: each step appends the byte `dist` positions behind the cursor. -/
def stbi__copyBack : Nat → Nat → List Nat → List Nat
  | 0, _, out => out
  | n + 1, dist, out => stbi__copyBack n dist (out ++ [out.getD (out.length - dist) 0])

/-- Source `stbi__parse_huffman_block` with explicit fuel for the symbol loop. -/
def stbi__parse_huffman_block : Nat → stbi__zbuf → Option stbi__zbuf
  | 0, _ => none
  | fuel + 1, a =>
    let r := stbi__zhuffman_decode a a.z_length
    let z := r.1
    let a := r.2
    if z < 256 then
      if z < 0 then none
      else
        if a.zout.length ≥ a.zout_limit then
          match stbi__zexpand a 1 with
          | none => none
          | some a' => stbi__parse_huffman_block fuel { a' with zout := a'.zout ++ [z.toNat] }
        else stbi__parse_huffman_block fuel { a with zout := a.zout ++ [z.toNat] }
    else if z = 256 then some a
    else
      let zi := (z - 257).toNat
      let rl := if stbi__zlength_extra.getD zi 0 ≠ 0 then
          stbi__zreceive a (stbi__zlength_extra.getD zi 0) else (0, a)
      let len := stbi__zlength_base.getD zi 0 + rl.1
      let rd := stbi__zhuffman_decode rl.2 rl.2.z_distance
      if rd.1 < 0 then none
      else
        let di := rd.1.toNat
        let rde := if stbi__zdist_extra.getD di 0 ≠ 0 then
            stbi__zreceive rd.2 (stbi__zdist_extra.getD di 0) else (0, rd.2)
        let dist := stbi__zdist_base.getD di 0 + rde.1
        let a := rde.2
        if a.zout.length < dist then none
        else
          let cont : stbi__zbuf → Option stbi__zbuf := fun a =>
            let out :=
              if dist = 1 then
                let v := a.zout.getD (a.zout.length - dist) 0
                if len ≠ 0 then a.zout ++ List.replicate len v else a.zout
              else
                if len ≠ 0 then stbi__copyBack len dist a.zout else a.zout
            stbi__parse_huffman_block fuel { a with zout := out }
          if a.zout.length + len > a.zout_limit then
            match stbi__zexpand a len with
            | none => none
            | some a' => cont a'
          else cont a

def stbi__length_dezigzag : List Nat :=
  [16,17,18,0,8,7,9,6,10] ++ [5,11,4,12,3,13,2,14,1,15]

/-- Source `memset(lencodes + start, v, cnt)` on the code-length scratch array. -/
def stbi__memsetArr (a : Array Nat) (start cnt v : Nat) : Array Nat :=
  (List.range cnt).foldl (fun arr j => arr.setD (start + j) v) a

/-- The `while (n < hlit + hdist)` code-length decode loop of
`stbi__compute_huffman_codes`; every step grows `n` by at least one, and the
final `n != hlit + hdist` check rejects overshoot, so fuel 512 suffices. -/
def stbi__computeCLLoop : Nat → Nat → Array Nat → stbi__zbuf → stbi__zhuffman →
    Nat → Option (Array Nat × stbi__zbuf)
  | 0, _, _, _, _, _ => none
  | fuel + 1, n, lencodes, a, zc, total =>
    if n < total then
      let r := stbi__zhuffman_decode a zc
      if r.1 < 0 ∨ r.1 ≥ 19 then none
      else
        let c := r.1.toNat
        let a := r.2
        if c < 16 then
          stbi__computeCLLoop fuel (n + 1) (lencodes.setD n c) a zc total
        else if c = 16 then
          let rc := stbi__zreceive a 2
          let cnt := rc.1 + 3
          stbi__computeCLLoop fuel (n + cnt)
            (stbi__memsetArr lencodes n cnt (lencodes.getD (n - 1) 0)) rc.2 zc total
        else if c = 17 then
          let rc := stbi__zreceive a 3
          let cnt := rc.1 + 3
          stbi__computeCLLoop fuel (n + cnt) (stbi__memsetArr lencodes n cnt 0) rc.2 zc total
        else
          let rc := stbi__zreceive a 7
          let cnt := rc.1 + 11
          stbi__computeCLLoop fuel (n + cnt) (stbi__memsetArr lencodes n cnt 0) rc.2 zc total
    else if n = total then some (lencodes, a)
    else none

/-- Source `stbi__compute_huffman_codes`: dynamic-block table construction. -/
def stbi__compute_huffman_codes (a : stbi__zbuf) : Option stbi__zbuf :=
  let rhlit := stbi__zreceive a 5
  let hlit := rhlit.1 + 257
  let rhdist := stbi__zreceive rhlit.2 5
  let hdist := rhdist.1 + 1
  let rhclen := stbi__zreceive rhdist.2 4
  let hclen := rhclen.1 + 4
  let cls :=
    (List.range hclen).foldl
      (fun (p : Array Nat × stbi__zbuf) i =>
        let rs := stbi__zreceive p.2 3
        (p.1.setD (stbi__length_dezigzag.getD i 0) rs.1, rs.2))
      (Array.mkArray 19 0, rhclen.2)
  match stbi__zbuild_huffman cls.1 19 with
  | none => none
  | some z_codelength =>
    match stbi__computeCLLoop 512 0 (Array.mkArray 455 0) cls.2 z_codelength (hlit + hdist) with
    | none => none
    | some la =>
      match stbi__zbuild_huffman la.1 hlit with
      | none => none
      | some zl =>
        match stbi__zbuild_huffman (la.1.extract hlit (hlit + hdist)) hdist with
        | none => none
        | some zd => some { la.2 with z_length := zl, z_distance := zd }

/-- Drain whole bytes left in the bit accumulator into the stored-block
header (at most four, matching the C assertion). -/
def stbi__drainHeader : Nat → List Nat → stbi__zbuf → List Nat × stbi__zbuf
  | 0, hdr, a => (hdr, a)
  | fuel + 1, hdr, a =>
    if a.num_bits > 0 then
      stbi__drainHeader fuel (hdr ++ [a.code_buffer &&& 255])
        { a with code_buffer := a.code_buffer >>> 8, num_bits := a.num_bits - 8 }
    else (hdr, a)

/-- Fill the stored-block header up to four bytes from the input. -/
def stbi__fillHeader : Nat → List Nat → stbi__zbuf → List Nat × stbi__zbuf
  | 0, hdr, a => (hdr, a)
  | fuel + 1, hdr, a =>
    if hdr.length < 4 then
      let r := stbi__zget8 a
      stbi__fillHeader fuel (hdr ++ [r.1]) r.2
    else (hdr, a)

/-- Source `stbi__parse_uncompressed_block`: align to a byte boundary, read
`len`/`nlen`, verify the one's complement, and copy `len` raw bytes. -/
def stbi__parse_uncompressed_block (a : stbi__zbuf) : Option stbi__zbuf :=
  let a := if a.num_bits &&& 7 ≠ 0 then (stbi__zreceive a (a.num_bits &&& 7)).2 else a
  let dh := stbi__drainHeader 4 [] a
  let fh := stbi__fillHeader 4 dh.1 dh.2
  let hdr := fh.1
  let a := fh.2
  let len := hdr.getD 1 0 * 256 + hdr.getD 0 0
  let nlen := hdr.getD 3 0 * 256 + hdr.getD 2 0
  if nlen ≠ len ^^^ 0xFFFF then none
  else if a.zpos + len > a.zbuffer.length then none
  else
    let copy : stbi__zbuf → stbi__zbuf := fun a =>
      { a with zout := a.zout ++ ((a.zbuffer.drop a.zpos).take len).map (· % 256),
               zpos := a.zpos + len }
    if a.zout.length + len > a.zout_limit then
      match stbi__zexpand a len with
      | none => none
      | some a' => some (copy a')
    else some (copy a)

/-- Source `stbi__parse_zlib_header`: method must be DEFLATE, the 16-bit header
must be divisible by 31, and no preset dictionary is allowed. -/
def stbi__parse_zlib_header (a : stbi__zbuf) : Option stbi__zbuf :=
  let rcmf := stbi__zget8 a
  let cm := rcmf.1 &&& 15
  let rflg := stbi__zget8 rcmf.2
  if (rcmf.1 * 256 + rflg.1) % 31 ≠ 0 then none
  else if rflg.1 &&& 32 ≠ 0 then none
  else if cm ≠ 8 then none
  else some rflg.2

/-- Fixed-block literal/length code lengths (`stbi__init_zdefaults`). -/
def stbi__zdefault_length : Array Nat :=
  Array.ofFn (fun i : Fin 288 =>
    if i.1 ≤ 143 then 8 else if i.1 ≤ 255 then 9 else if i.1 ≤ 279 then 7 else 8)

/-- Fixed-block distance code lengths. -/
def stbi__zdefault_distance : Array Nat := Array.mkArray 32 5

/-- The block loop of `stbi__parse_zlib`, with per-symbol fuel `sfuel`. -/
def stbi__parse_zlib_go : Nat → Nat → stbi__zbuf → Option stbi__zbuf
  | 0, _, _ => none
  | bfuel + 1, sfuel, a =>
    let rfinal := stbi__zreceive a 1
    let rtype := stbi__zreceive rfinal.2 2
    let step : Option stbi__zbuf :=
      if rtype.1 = 0 then stbi__parse_uncompressed_block rtype.2
      else if rtype.1 = 3 then none
      else
        let tbl : Option stbi__zbuf :=
          if rtype.1 = 1 then
            match stbi__zbuild_huffman stbi__zdefault_length 288 with
            | none => none
            | some zl =>
              match stbi__zbuild_huffman stbi__zdefault_distance 32 with
              | none => none
              | some zd => some { rtype.2 with z_length := zl, z_distance := zd }
          else stbi__compute_huffman_codes rtype.2
        match tbl with
        | none => none
        | some a' => stbi__parse_huffman_block sfuel a'
    match step with
    | none => none
    | some a' => if rfinal.1 ≠ 0 then some a' else stbi__parse_zlib_go bfuel sfuel a'

/-- Source `stbi__parse_zlib`: optional zlib header, then the block loop with a
freshly cleared bit accumulator. -/
def stbi__parse_zlib (a : stbi__zbuf) (ph : Bool) (bfuel sfuel : Nat) :
    Option stbi__zbuf :=
  match (if ph then stbi__parse_zlib_header a else some a) with
  | none => none
  | some a => stbi__parse_zlib_go bfuel sfuel { a with num_bits := 0, code_buffer := 0 }

/-- Source `stbi__do_zlib`: set up the output window and run the parser. -/
def stbi__do_zlib (a : stbi__zbuf) (olen : Nat) (exp ph : Bool)
    (bfuel sfuel : Nat) : Option stbi__zbuf :=
  stbi__parse_zlib { a with zout := [], zout_limit := olen, z_expandable := exp }
    ph bfuel sfuel

/-- Source `stbi_zlib_decode_buffer` on a caller-provided exact-size buffer: zlib
header required, output not expandable.  Returns the written bytes, or
`none` for the C return value -1. -/
def stbi_zlib_decode_buffer (olen : Nat) (ibuffer : List Nat) : Option (List Nat) :=
  let a : stbi__zbuf :=
    ⟨ibuffer, 0, 0, 0, [], olen, false, default, default⟩
  match stbi__do_zlib a olen false true (8 * ibuffer.length + 66)
      (olen + 8 * ibuffer.length + 330) with
  | none => none
  | some a' => some a'.zout

/-! ## Cel chunks -/

def ASE_FILE_RAW_CEL : Nat := 0
def ASE_FILE_LINK_CEL : Nat := 1
def ASE_FILE_COMPRESSED_CEL : Nat := 2

/-- Source `ASE_DOC_read_raw_image_rgba`: `w*h` pixels of four bytes each, read in
stream order into an owned buffer. -/
def ASE_DOC_read_raw_image_rgba (c : ASE__ctx) (Cel : ASE_Cel) : ASE_Cel × ASE__ctx :=
  let r := ASE__read8Loop c ((Cel.w * Cel.h).toNat * 4)
  ({ Cel with data := some r.1 }, r.2)

/-- Source `ASE_DOC_read_raw_image_grayscale`: two bytes per pixel. -/
def ASE_DOC_read_raw_image_grayscale (c : ASE__ctx) (Cel : ASE_Cel) : ASE_Cel × ASE__ctx :=
  let r := ASE__read8Loop c ((Cel.w * Cel.h).toNat * 2)
  ({ Cel with data := some r.1 }, r.2)

/-- Source `ASE_DOC_read_raw_image_indexed`: one byte per pixel. -/
def ASE_DOC_read_raw_image_indexed (c : ASE__ctx) (Cel : ASE_Cel) : ASE_Cel × ASE__ctx :=
  let r := ASE__read8Loop c ((Cel.w * Cel.h).toNat)
  ({ Cel with data := some r.1 }, r.2)

/-- Source `ASE_DOC_read_compressed_rgba`: read the rest of the chunk as the zlib
stream, decode into a `w*h*4` buffer; on failure the buffer is freed and the
cel keeps no data. -/
def ASE_DOC_read_compressed_rgba (c : ASE__ctx) (Cel : ASE_Cel) (EndPos : Nat) :
    ASE_Cel × ASE__ctx :=
  let isize := EndPos - c.pos
  let r := ASE__read8Loop c isize
  match stbi_zlib_decode_buffer ((Cel.w * Cel.h * 4).toNat) r.1 with
  | none => (Cel, r.2)
  | some out => ({ Cel with data := some out }, r.2)

/-- Source `ASE_DOC_read_compressed_grayscale`: as above with two bytes per pixel. -/
def ASE_DOC_read_compressed_grayscale (c : ASE__ctx) (Cel : ASE_Cel) (EndPos : Nat) :
    ASE_Cel × ASE__ctx :=
  let isize := EndPos - c.pos
  let r := ASE__read8Loop c isize
  match stbi_zlib_decode_buffer ((Cel.w * Cel.h * 2).toNat) r.1 with
  | none => (Cel, r.2)
  | some out => ({ Cel with data := some out }, r.2)

/-- Source `ASE_DOC_read_compressed_indexed`: as above with one byte per pixel. -/
def ASE_DOC_read_compressed_indexed (c : ASE__ctx) (Cel : ASE_Cel) (EndPos : Nat) :
    ASE_Cel × ASE__ctx :=
  let isize := EndPos - c.pos
  let r := ASE__read8Loop c isize
  match stbi_zlib_decode_buffer ((Cel.w * Cel.h).toNat) r.1 with
  | none => (Cel, r.2)
  | some out => ({ Cel with data := some out }, r.2)

/-- Source `ASE_Cel_read`: header fields, layer validation (index in range and of
Image kind, otherwise this cel alone fails), then the cel is appended to the
frame (zero-filled by `ASE_DOC_AddCel`) and filled per the cel kind. -/
def ASE_Cel_read (c : ASE__ctx) (S : ASE_Sprite) (Frame : ASE_Frame) (EndPos : Nat) :
    Option ASE_Cel × ASE_Frame × ASE__ctx :=
  let rlayer := ASE__read16 c
  let rx := ASE__read16 rlayer.2
  let ry := ASE__read16 rx.2
  let ropacity := ASE__read8 ry.2
  let rtype := ASE__read16 ropacity.2
  let c0 := ASE__mem_skip rtype.2 7
  if rlayer.1 ≥ S.layers.length then (none, Frame, c0)
  else if (S.layers.getD rlayer.1 ASE_Layer.zero).type ≠ ASE_FILE_LAYER_IMAGE then
    (none, Frame, c0)
  else
    let Cel0 : ASE_Cel := { ASE_Cel.zero with
      layer := rlayer.1, x := i16 rx.1, y := i16 ry.1, opacity := ropacity.1 }
    let rcel : ASE_Cel × ASE__ctx :=
      if rtype.1 = ASE_FILE_RAW_CEL then
        let rw := ASE__read16 c0
        let rh := ASE__read16 rw.2
        let Cel1 := { Cel0 with w := i16 rw.1, h := i16 rh.1 }
        if rw.1 > 0 ∧ rh.1 > 0 then
          if S.depth = ASE_DEPTH_RGBA then ASE_DOC_read_raw_image_rgba rh.2 Cel1
          else if S.depth = ASE_DEPTH_GRAYSCALE then
            ASE_DOC_read_raw_image_grayscale rh.2 Cel1
          else if S.depth = ASE_DEPTH_INDEXED then
            ASE_DOC_read_raw_image_indexed rh.2 Cel1
          else (Cel1, rh.2)
        else (Cel1, rh.2)
      else if rtype.1 = ASE_FILE_LINK_CEL then
        let rframe := ASE__read16 c0
        ({ Cel0 with is_linked := true, frame := rframe.1 }, rframe.2)
      else if rtype.1 = ASE_FILE_COMPRESSED_CEL then
        let rw := ASE__read16 c0
        let rh := ASE__read16 rw.2
        let Cel1 := { Cel0 with w := i16 rw.1, h := i16 rh.1 }
        if rw.1 > 0 ∧ rh.1 > 0 then
          if S.depth = ASE_DEPTH_RGBA then ASE_DOC_read_compressed_rgba rh.2 Cel1 EndPos
          else if S.depth = ASE_DEPTH_GRAYSCALE then
            ASE_DOC_read_compressed_grayscale rh.2 Cel1 EndPos
          else if S.depth = ASE_DEPTH_INDEXED then
            ASE_DOC_read_compressed_indexed rh.2 Cel1 EndPos
          else (Cel1, rh.2)
        else (Cel1, rh.2)
      else (Cel0, c0)
    (some rcel.1, { Frame with cels := Frame.cels ++ [rcel.1] }, rcel.2)

/-! ## Decoder main loop (`ASE__decode_main`) -/

def ASE_FILE_CHUNK_FLI_COLOR2 : Nat := 4
def ASE_FILE_CHUNK_FLI_COLOR : Nat := 11
def ASE_FILE_CHUNK_LAYER : Nat := 0x2004
def ASE_FILE_CHUNK_CEL : Nat := 0x2005
def ASE_FILE_CHUNK_FRAME_TAGS : Nat := 0x2018
def ASE_FILE_CHUNK_PALETTE : Nat := 0x2019

/-- Running state of the frame/chunk walk: cursor position, the document
under construction, and the `LastLayer`/`CurrentLevel` layer-tree state.
(The `LastCel`/`LastWithUserData` locals of the source are dead without the
user-data compile options and are not modelled.) -/
structure ASE__DecodeState where
  pos : Nat
  sprite : ASE_Sprite
  lastLayer : Option ASE_Layer
  currentLevel : Int
  ignoreOldColorChunks : Bool
deriving Repr, DecidableEq, Inhabited

/-- One chunk of the per-frame loop: read the chunk header at the current
position, dispatch on the chunk type (unknown and ignored kinds are no-ops),
then seek unconditionally to `ChunkHeaderStart + size`.  Cel chunks build
into the current frame, which is the last one appended by the frame loop. -/
def ASE__doChunk (buf : List Nat) (st : ASE__DecodeState) : ASE__DecodeState :=
  let ChunkHeaderStart := st.pos
  let rsize := ASE__read32 ⟨buf, ChunkHeaderStart⟩
  let rtype := ASE__read16 rsize.2
  let c := rtype.2
  let st1 : ASE__DecodeState :=
    if rtype.1 = ASE_FILE_CHUNK_PALETTE then
      let r := ASE_Palette_read c st.sprite.palette
      { st with sprite := { st.sprite with palette := r.1 }, ignoreOldColorChunks := true }
    else if rtype.1 = ASE_FILE_CHUNK_LAYER then
      let r := ASE_Layer_read c st.sprite st.lastLayer st.currentLevel
      { st with
        sprite := r.sprite
        lastLayer := r.prevLayer
        currentLevel := r.currentLevel }
    else if rtype.1 = ASE_FILE_CHUNK_CEL then
      let Frame := (st.sprite.frames.getLast?).getD ⟨0, []⟩
      let r := ASE_Cel_read c st.sprite Frame (ChunkHeaderStart + rsize.1)
      { st with sprite :=
        { st.sprite with frames := st.sprite.frames.dropLast ++ [r.2.1] } }
    else if rtype.1 = ASE_FILE_CHUNK_FRAME_TAGS then
      let r := ASE_Tags_read c st.sprite
      { st with sprite := r.1 }
    else st
  { st1 with pos := ChunkHeaderStart + rsize.1 }

def ASE__chunkLoop (buf : List Nat) : Nat → ASE__DecodeState → ASE__DecodeState
  | 0, st => st
  | n + 1, st => ASE__chunkLoop buf n (ASE__doChunk buf st)

/-- One frame of the main loop: read the frame header (its magic is only
`assert`ed in the source), append a fresh frame carrying the duration, run
the chunk loop, then seek unconditionally to `FrameHeaderStart + size`. -/
def ASE__frameStep (buf : List Nat) (st : ASE__DecodeState) : ASE__DecodeState :=
  let FrameHeaderStart := st.pos
  let r := ASE_FrameHeader_read ⟨buf, FrameHeaderStart⟩
  let st1 : ASE__DecodeState := { st with
    sprite := { st.sprite with frames := st.sprite.frames ++ [⟨r.1.duration, []⟩] },
    pos := r.2.pos }
  let st2 := ASE__chunkLoop buf r.1.chunks st1
  { st2 with pos := FrameHeaderStart + r.1.size }

def ASE__frameLoop (buf : List Nat) : Nat → ASE__DecodeState → ASE__DecodeState
  | 0, st => st
  | n + 1, st => ASE__frameLoop buf n (ASE__frameStep buf st)

/-- Source `ASE__decode_main`: read the document header (its result `Ok` is only
`assert`ed, a no-op under `NDEBUG`, so decoding proceeds regardless), copy
width/height/depth into the sprite, run the frame loop, and return `R`,
which the source initializes to 1 and never changes. -/
def ASE__decode_main (buf : List Nat) : ASE_Sprite × Bool :=
  let h := ASE_DOC_Header_read ⟨buf, 0⟩
  let Header := h.2.1
  let S0 : ASE_Sprite := { ASE_Sprite.zero with
    width := Header.width, height := Header.height, depth := Header.depth }
  let st0 : ASE__DecodeState := ⟨h.2.2.pos, S0, none, -1, false⟩
  let st := ASE__frameLoop buf Header.frames st0
  (st.sprite, true)

/-! ## `ASE_free` -/

/-- One deallocation performed by `ASE_free`, recording what was handed to
`ASE_FREE`. -/
inductive ASE_FreeEvent where
  | layerName (name : List Nat)
  | layersArray (layers : List ASE_Layer)
  | celData (data : Option (List Nat))
  | celsArray (cels : List ASE_Cel)
  | framesArray (frames : List ASE_Frame)
  | tagName (name : List Nat)
  | tagsArray (tags : List ASE_Tag)
deriving Repr, DecidableEq

/-- Source `ASE_free`: free every layer name and the layer array, every cel's data
and each frame's cel array, the frame array, every tag name and the tag
array, in source order, then `memset` the sprite to zero.  The returned list
records the deallocations. -/
def ASE_free (Sprite : ASE_Sprite) : List ASE_FreeEvent × ASE_Sprite :=
  let ev :=
    (Sprite.layers.map (fun I => ASE_FreeEvent.layerName I.name)) ++
    [ASE_FreeEvent.layersArray Sprite.layers] ++
    (Sprite.frames.map (fun I =>
      (I.cels.map (fun J => ASE_FreeEvent.celData J.data)) ++
        [ASE_FreeEvent.celsArray I.cels])).flatten ++
    [ASE_FreeEvent.framesArray Sprite.frames] ++
    (Sprite.tags.map (fun I => ASE_FreeEvent.tagName I.name)) ++
    [ASE_FreeEvent.tagsArray Sprite.tags]
  (ev, ASE_Sprite.zero)

/-! ## `ASE_get_next_frame` -/

/-- Source `ASE_get_next_frame`: the next-frame convenience from the source; for a
PingPong tag a negative result encodes an offset from `tag->to`. -/
def ASE_get_next_frame (tag : ASE_Tag) (frame : Int) : Int :=
  if tag.dir = (ASE_LOOP_FORWARD : Int) then
    if frame + 1 > tag.tto then tag.tfrom else frame + 1
  else if tag.dir = (ASE_LOOP_REVERSE : Int) then
    if frame - 1 < tag.tfrom then tag.tto else frame - 1
  else if tag.dir = (ASE_LOOP_PINGPONG : Int) then
    if frame ≥ 0 then
      if frame + 1 > tag.tto then
        (if tag.tto - tag.tfrom = 0 then 0 else -1)
      else frame + 1
    else
      if frame - 1 < tag.tfrom then 0 else frame - 1
  else frame

/-! ## Definitions following the spec's words, for comparison with the
source embedding -/

/-- Modelled from the claim's wording (C4): the next-frame function whose
PingPong branch at a negative index resets to 0 exactly when the
decremented value, reinterpreted as `to + value`, falls below `from`. -/
def specNextFrameClaim (tag : ASE_Tag) (frame : Int) : Int :=
  if tag.dir = 0 then
    if frame + 1 > tag.tto then tag.tfrom else frame + 1
  else if tag.dir = 1 then
    if frame - 1 < tag.tfrom then tag.tto else frame - 1
  else if tag.dir = 2 then
    if frame ≥ 0 then
      if frame + 1 > tag.tto then
        (if tag.tfrom = tag.tto then 0 else -1)
      else frame + 1
    else
      if tag.tto + (frame - 1) < tag.tfrom then 0 else frame - 1
  else frame

/-- The amended spec function (C4): identical except that the negative
PingPong branch compares the decremented value itself against `from`. -/
def specNextFrameAmended (tag : ASE_Tag) (frame : Int) : Int :=
  if tag.dir = 0 then
    if frame + 1 > tag.tto then tag.tfrom else frame + 1
  else if tag.dir = 1 then
    if frame - 1 < tag.tfrom then tag.tto else frame - 1
  else if tag.dir = 2 then
    if frame ≥ 0 then
      if frame + 1 > tag.tto then
        (if tag.tfrom = tag.tto then 0 else -1)
      else frame + 1
    else
      if frame - 1 < tag.tfrom then 0 else frame - 1
  else frame

/-- Modelled from the claim's wording (C1): the ancestor reached by walking
up the parent chain a given number of steps from a starting layer index. -/
def specWalkAncestor (layers : List ASE_Layer) : Int → Nat → Int
  | idx, 0 => idx
  | idx, steps + 1 =>
    specWalkAncestor layers ((layers.getD idx.toNat ASE_Layer.zero).parent) steps

/-! ## The chunk/frame walk with the builder abstracted (C7) -/

/-- The chunk walk of the assembler with the per-chunk builder abstracted as
an arbitrary cursor transformer `builder type start posAfterHeader`: the
header is read at the current position, the builder may move the cursor
anywhere (consume fewer or more bytes than declared, succeed or fail), and
the walk then seeks to `start + size` unconditionally, exactly as
`ASE__decode_main` does.  Returns the positions at which the chunk headers
are read. -/
def ASE__chunkWalkTrace (buf : List Nat) (builder : Nat → Nat → Nat → Nat) :
    Nat → Nat → List Nat
  | 0, _ => []
  | n + 1, pos =>
    let rsize := ASE__read32 ⟨buf, pos⟩
    let rtype := ASE__read16 rsize.2
    let _posAfterBuilder := builder rtype.1 pos rtype.2.pos
    pos :: ASE__chunkWalkTrace buf builder n (pos + rsize.1)

/-- The canonical chunk-header positions determined by the declared sizes
alone: each position is the previous one plus the size read there. -/
def chunkPosIter (buf : List Nat) : Nat → Nat → List Nat
  | 0, _ => []
  | n + 1, p => p :: chunkPosIter buf n (p + (ASE__read32 ⟨buf, p⟩).1)

/-- The frame walk with the builder abstracted, mirroring the outer loop of
`ASE__decode_main`: per frame, read the frame header, run the abstracted
chunk walk over the declared chunk count, then seek to `start + size`. -/
def ASE__frameWalkTrace (buf : List Nat) (builder : Nat → Nat → Nat → Nat) :
    Nat → Nat → List Nat
  | 0, _ => []
  | n + 1, pos =>
    let r := ASE_FrameHeader_read ⟨buf, pos⟩
    let _chunkTrace := ASE__chunkWalkTrace buf builder r.1.chunks r.2.pos
    pos :: ASE__frameWalkTrace buf builder n (pos + r.1.size)

/-- The canonical frame-header positions determined by the declared frame
sizes alone. -/
def framePosIter (buf : List Nat) : Nat → Nat → List Nat
  | 0, _ => []
  | n + 1, p => p :: framePosIter buf n (p + (ASE_FrameHeader_read ⟨buf, p⟩).1.size)

/-! ## Concrete layer-chunk harness for the layer-tree claims -/

/-- An 18-byte Image-kind layer chunk payload whose only nonzero field is
the child level: flags, type, child level, default w/h, blend mode, opacity,
three reserved bytes, and an empty name. -/
def layerChunkBytes (d : Nat) : List Nat :=
  [0, 0, 0, 0, d % 256, d / 256 % 256, 0, 0, 0, 0, 0, 0, 0, 0, 0, 0, 0, 0]

def decodeLayerSeqGo : List Nat → ASE_Sprite → Option ASE_Layer → Int → ASE_Sprite
  | [], S, _, _ => S
  | d :: ds, S, prev, lvl =>
    let r := ASE_Layer_read ⟨layerChunkBytes d, 0⟩ S prev lvl
    decodeLayerSeqGo ds r.sprite r.prevLayer r.currentLevel

/-- Feed a sequence of Image-kind layer chunks with the given child levels
through `ASE_Layer_read`, starting from the assembler's initial running
state (`LastLayer = 0`, `CurrentLevel = -1`). -/
def decodeLayerSeq (depths : List Nat) : ASE_Sprite :=
  decodeLayerSeqGo depths ASE_Sprite.zero none (-1)

/-! ## Bit-level specification layer for the DEFLATE round-trip claim.

The compressed stream is specified as a zero-extended bit function
`s0 : Nat → Bool` over the data bytes that follow the two zlib header
bytes; DEFLATE transmits bits LSB-first within each byte. -/

/-- LSB-first bits of one byte. -/
def byteBits (b : Nat) : List Bool := (List.range 8).map (fun k => b.testBit k)

/-- LSB-first bit stream of a byte list. -/
def bytesBits (bs : List Nat) : List Bool := (bs.map byteBits).flatten

/-- Value of an LSB-first bit list. -/
def bitsVal : List Bool → Nat
  | [] => 0
  | b :: bs => (if b then 1 else 0) + 2 * bitsVal bs

/-- The `n`-bit LSB-first encoding of `v`. -/
def natBits (n v : Nat) : List Bool := (List.range n).map (fun k => v.testBit k)

/-- MSB-first bits of an `len`-bit Huffman code (DEFLATE packs Huffman codes
most-significant bit first). -/
def codeBits (len code : Nat) : List Bool :=
  (List.range len).map (fun k => code.testBit (len - 1 - k))

/-- The zero-extended bit stream of the data bytes of `buf` (the bytes from
index 2 on, after the two zlib header bytes). -/
def dataStream (buf : List Nat) (k : Nat) : Bool :=
  (byteAt buf (2 + k / 8)).testBit (k % 8)

/-- The stream starts with the given bit segment at absolute bit `pos`. -/
def SegAt (s0 : Nat → Bool) (pos : Nat) (bs : List Bool) : Prop :=
  ∀ k, k < bs.length → s0 (pos + k) = bs.getD k false

/-- Value of the `n` stream bits starting at `pos`. -/
def segVal (s0 : Nat → Bool) (pos n : Nat) : Nat :=
  bitsVal ((List.range n).map (fun k => s0 (pos + k)))

/-- The parts of the decompressor state not touched by the bit reader. -/
def SameAux (a b : stbi__zbuf) : Prop :=
  b.zbuffer = a.zbuffer ∧ b.zout = a.zout ∧ b.zout_limit = a.zout_limit ∧
    b.z_expandable = a.z_expandable ∧ b.z_length = a.z_length ∧
    b.z_distance = a.z_distance

/-- Invariant of the bit reader against the stream `s0` with `pos` bits
already consumed: the accumulator holds exactly the stream bits
`pos..pos+num_bits`, and the byte cursor sits `num_bits` loaded bits ahead
of `pos` except that refills past the end of the input load zero bits
without moving the cursor (`zf` counts those; the zero-extended stream is
false there as well). -/
structure ZInv (s0 : Nat → Bool) (a : stbi__zbuf) (pos : Nat) : Prop where
  cb_lt : a.code_buffer < 2 ^ a.num_bits
  nb_le : a.num_bits ≤ 32
  zpos_lb : 2 ≤ a.zpos
  zpos_ub : a.zpos ≤ a.zbuffer.length
  pos_eq : ∃ zf, pos + a.num_bits = 8 * (a.zpos - 2) + 8 * zf ∧
    (zf = 0 ∨ a.zpos = a.zbuffer.length)
  cb_bits : ∀ i, i < a.num_bits → a.code_buffer.testBit i = s0 (pos + i)
  s0_bytes : ∀ k, s0 k = (byteAt a.zbuffer (2 + k / 8)).testBit (k % 8)

/-! ## Specification side: the RFC 1951/1950 encoding relation.

These definitions follow the specification's words (the DEFLATE format),
not the decoder: `ZlibEncodes data ibuffer` says that `ibuffer` is a valid
zlib compression of `data` with stored, fixed-Huffman or dynamic-Huffman
blocks.  They are compared with the source-derived decoder by the
round-trip theorem. -/

/-- MSB-first value of the low `s` bits of `v` read in reverse order (the
bit-reversal underlying DEFLATE's fast-table indexing). -/
def bitRev : Nat → Nat → Nat
  | 0, _ => 0
  | s + 1, v => (if v.testBit s then 1 else 0) + 2 * bitRev s v

/-- Number of symbols below `num` whose code length is exactly `s`. -/
def clCount (lens : List Nat) (num s : Nat) : Nat :=
  ((List.range num).filter (fun i => decide (lens.getD i 0 = s))).length

/-- RFC 1951 canonical first code of each length: `nextCode 1 = 0` and
`nextCode (s+1) = (nextCode s + clCount s) * 2`. -/
def nextCode (lens : List Nat) (num : Nat) : Nat → Nat
  | 0 => 0
  | 1 => 0
  | s + 2 => (nextCode lens num (s + 1) + clCount lens num (s + 1)) * 2

/-- Rank of `sym` among symbols of the same code length (canonical codes are
assigned in symbol order within each length). -/
def clRank (lens : List Nat) (sym : Nat) : Nat :=
  ((List.range sym).filter (fun j => decide (lens.getD j 0 = lens.getD sym 0))).length

/-- Number of coded symbols of length strictly below `s` (the per-length
symbol-table base). -/
def symBase (lens : List Nat) (num s : Nat) : Nat :=
  ((List.range' 1 (s - 1)).map (clCount lens num)).sum

/-- The canonical Huffman code of `sym`. -/
def canonCode (lens : List Nat) (num sym : Nat) : Nat :=
  nextCode lens num (lens.getD sym 0) + clRank lens sym

/-- The code-length multiset is not over-subscribed at any length (the Kraft
inequality, length by length). -/
def KraftOk (lens : List Nat) (num : Nat) : Prop :=
  ∀ s, s < 16 → 1 ≤ s → nextCode lens num s + clCount lens num s ≤ 2 ^ s

/-- Characterization of the tables `stbi__zbuild_huffman` builds from the
code lengths `lens` of `num` symbols, stated against the canonical-code
functions above. -/
structure BuildSpec (lens : List Nat) (num : Nat) (zh : stbi__zhuffman) : Prop where
  fc : ∀ s, 1 ≤ s → s ≤ 15 → zh.firstcode.getD s 0 = nextCode lens num s
  mc : ∀ s, 1 ≤ s → s ≤ 15 → zh.maxcode.getD s 0 =
    (nextCode lens num s + clCount lens num s) <<< (16 - s)
  mc16 : zh.maxcode.getD 16 0 = 65536
  fs : ∀ s, 1 ≤ s → s ≤ 15 → zh.firstsymbol.getD s 0 = symBase lens num s
  val : ∀ j, j < num → lens.getD j 0 ≠ 0 →
    zh.size.getD (symBase lens num (lens.getD j 0) + clRank lens j) 0 = lens.getD j 0 ∧
    zh.value.getD (symBase lens num (lens.getD j 0) + clRank lens j) 0 = j
  fastHit : ∀ j, j < num → lens.getD j 0 ≠ 0 → lens.getD j 0 ≤ 9 → ∀ idx, idx < 512 →
    idx % 2 ^ lens.getD j 0 = bitRev (lens.getD j 0) (canonCode lens num j) →
    zh.fast.getD idx 0 = (lens.getD j 0 <<< 9) ||| j
  fastMiss : ∀ idx, idx < 512 →
    (∀ j, j < num → lens.getD j 0 ≠ 0 → lens.getD j 0 ≤ 9 →
      idx % 2 ^ lens.getD j 0 ≠ bitRev (lens.getD j 0) (canonCode lens num j)) →
    zh.fast.getD idx 0 = 0

/-- Invariant of the per-length code-assignment loop of `stbi__zbuild_huffman`
after the lengths `1..k` have been processed. -/
def StFoldInv (lens : List Nat) (num k : Nat) (st : ZBuildState) : Prop :=
  st.ok = true ∧ st.code = nextCode lens num (k + 1) ∧ st.k = symBase lens num (k + 1) ∧
  st.next_code.size = 16 ∧ st.firstcode.size = 16 ∧ st.firstsymbol.size = 16 ∧
  st.maxcode.size = 17 ∧
  ∀ s, 1 ≤ s → s ≤ k →
    st.next_code.getD s 0 = nextCode lens num s ∧
    st.firstcode.getD s 0 = nextCode lens num s ∧
    st.firstsymbol.getD s 0 = symBase lens num s ∧
    st.maxcode.getD s 0 = (nextCode lens num s + clCount lens num s) <<< (16 - s)

/-- Invariant of the per-symbol table-fill loop of `stbi__zbuild_huffman`
after the symbols `0..i-1` have been processed. -/
def SymFoldInv (lens : List Nat) (num : Nat) (z0 : stbi__zhuffman) (i : Nat)
    (p : Array Nat × stbi__zhuffman) : Prop :=
  p.1.size = 16 ∧
  (∀ s, 1 ≤ s → s ≤ 15 → p.1.getD s 0 =
    nextCode lens num s + (List.range i).countP (fun j => decide (lens.getD j 0 = s))) ∧
  p.2.fast.size = 512 ∧ p.2.size.size = 288 ∧ p.2.value.size = 288 ∧
  p.2.firstcode = z0.firstcode ∧ p.2.firstsymbol = z0.firstsymbol ∧
  p.2.maxcode = z0.maxcode ∧
  (∀ j, j < i → lens.getD j 0 ≠ 0 →
    p.2.size.getD (symBase lens num (lens.getD j 0) + clRank lens j) 0 = lens.getD j 0 ∧
    p.2.value.getD (symBase lens num (lens.getD j 0) + clRank lens j) 0 = j) ∧
  (∀ j, j < i → lens.getD j 0 ≠ 0 → lens.getD j 0 ≤ 9 → ∀ idx, idx < 512 →
    idx % 2 ^ lens.getD j 0 = bitRev (lens.getD j 0) (canonCode lens num j) →
    p.2.fast.getD idx 0 = (lens.getD j 0 <<< 9) ||| j) ∧
  (∀ idx, idx < 512 →
    (∀ j, j < i → lens.getD j 0 ≠ 0 → lens.getD j 0 ≤ 9 →
      idx % 2 ^ lens.getD j 0 ≠ bitRev (lens.getD j 0) (canonCode lens num j)) →
    p.2.fast.getD idx 0 = 0)

/-- Bytes produced by an LZ77 back-reference of length `len` at distance
`dist`, byte by byte (overlapping copies repeat the produced bytes). -/
def matchBytes : List Nat → Nat → Nat → List Nat
  | _, 0, _ => []
  | prior, len + 1, dist =>
    prior.getD (prior.length - dist) 0 ::
      matchBytes (prior ++ [prior.getD (prior.length - dist) 0]) len dist

/-- RFC 1951 base match lengths of symbols 257..285. -/
def rfcLengthBase : List Nat :=
  [3,4,5,6,7,8,9,10,11,13,15,17] ++
    [19,23,27,31,35,43,51,59] ++ [67,83,99,115,131,163,195,227,258,0,0]

/-- RFC 1951 extra length bits of symbols 257..285. -/
def rfcLengthExtra : List Nat :=
  [0,0,0,0,0,0,0,0,1,1,1,1,2,2,2,2] ++ [3,3,3,3,4,4,4,4,5,5,5,5,0,0,0]

/-- RFC 1951 base distances of distance symbols 0..29. -/
def rfcDistBase : List Nat :=
  [1,2,3,4,5,7,9,13,17,25,33,49] ++ [65,97,129,193,257,385,513,769] ++
    [1025,1537,2049,3073,4097,6145] ++ [8193,12289,16385,24577,0,0]

/-- RFC 1951 extra distance bits of distance symbols 0..29. -/
def rfcDistExtra : List Nat :=
  [0,0,0,0,1,1,2,2,3,3,4,4,5,5,6,6] ++ [7,7,8,8,9,9,10,10,11,11,12,12,13,13]

/-- RFC 1951 order of the code-length code lengths in the dynamic header. -/
def rfcDezigzag : List Nat :=
  [16,17,18,0,8,7,9,6,10] ++ [5,11,4,12,3,13,2,14,1,15]

/-- RFC 1951 fixed-block literal/length code lengths. -/
def fixedLitLens : List Nat :=
  (List.range 288).map
    (fun i => if i ≤ 143 then 8 else if i ≤ 255 then 9 else if i ≤ 279 then 7 else 8)

/-- RFC 1951 fixed-block distance code lengths. -/
def fixedDistLens : List Nat := List.replicate 32 5

/-- The LZ77 symbol stream of one compressed block: starting with `prior`
already produced and the stream at bit `pos`, the canonical codes over the
literal/length lengths `F` (with `nF` symbols) and distance lengths `D`
(with `nD` symbols) encode `out` and finish with the end-of-block symbol
at bit `endPos`. -/
inductive LZAt (s0 : Nat → Bool) (F D : List Nat) (nF nD : Nat) :
    List Nat → Nat → List Nat → Nat → Prop
  | eob (prior pos) :
      F.getD 256 0 ≠ 0 →
      SegAt s0 pos (codeBits (F.getD 256 0) (canonCode F nF 256)) →
      LZAt s0 F D nF nD prior pos [] (pos + F.getD 256 0)
  | lit (prior pos b rest endPos) :
      b < 256 → F.getD b 0 ≠ 0 →
      SegAt s0 pos (codeBits (F.getD b 0) (canonCode F nF b)) →
      LZAt s0 F D nF nD (prior ++ [b]) (pos + F.getD b 0) rest endPos →
      LZAt s0 F D nF nD prior pos (b :: rest) endPos
  | mat (prior pos zi di e de rest endPos) :
      zi < 29 → di < 30 → 257 + zi < nF → di < nD →
      F.getD (257 + zi) 0 ≠ 0 → D.getD di 0 ≠ 0 →
      SegAt s0 pos (codeBits (F.getD (257 + zi) 0) (canonCode F nF (257 + zi))) →
      segVal s0 (pos + F.getD (257 + zi) 0) (rfcLengthExtra.getD zi 0) = e →
      SegAt s0 (pos + F.getD (257 + zi) 0 + rfcLengthExtra.getD zi 0)
        (codeBits (D.getD di 0) (canonCode D nD di)) →
      segVal s0 (pos + F.getD (257 + zi) 0 + rfcLengthExtra.getD zi 0 + D.getD di 0)
        (rfcDistExtra.getD di 0) = de →
      rfcDistBase.getD di 0 + de ≤ prior.length →
      rfcDistBase.getD di 0 + de ≤ 32768 →
      LZAt s0 F D nF nD
        (prior ++ matchBytes prior (rfcLengthBase.getD zi 0 + e) (rfcDistBase.getD di 0 + de))
        (pos + F.getD (257 + zi) 0 + rfcLengthExtra.getD zi 0 + D.getD di 0 +
          rfcDistExtra.getD di 0)
        rest endPos →
      LZAt s0 F D nF nD prior pos
        (matchBytes prior (rfcLengthBase.getD zi 0 + e) (rfcDistBase.getD di 0 + de) ++ rest)
        endPos

/-- The code-length symbol stream of a dynamic header: from the already
produced lengths `done` and bit `pos`, the canonical code over the
code-length lengths `C` encodes the further lengths `produced`. -/
inductive CLAt (s0 : Nat → Bool) (C : List Nat) : List Nat → Nat → List Nat → Nat → Prop
  | nil (done pos) : CLAt s0 C done pos [] pos
  | lit (done pos v rest endPos) :
      v < 16 → C.getD v 0 ≠ 0 →
      SegAt s0 pos (codeBits (C.getD v 0) (canonCode C 19 v)) →
      CLAt s0 C (done ++ [v]) (pos + C.getD v 0) rest endPos →
      CLAt s0 C done pos (v :: rest) endPos
  | rep16 (done pos e rest endPos) :
      done ≠ [] → C.getD 16 0 ≠ 0 →
      SegAt s0 pos (codeBits (C.getD 16 0) (canonCode C 19 16)) →
      segVal s0 (pos + C.getD 16 0) 2 = e →
      CLAt s0 C (done ++ List.replicate (e + 3) (done.getD (done.length - 1) 0))
        (pos + C.getD 16 0 + 2) rest endPos →
      CLAt s0 C done pos
        (List.replicate (e + 3) (done.getD (done.length - 1) 0) ++ rest) endPos
  | rep17 (done pos e rest endPos) :
      C.getD 17 0 ≠ 0 →
      SegAt s0 pos (codeBits (C.getD 17 0) (canonCode C 19 17)) →
      segVal s0 (pos + C.getD 17 0) 3 = e →
      CLAt s0 C (done ++ List.replicate (e + 3) 0) (pos + C.getD 17 0 + 3) rest endPos →
      CLAt s0 C done pos (List.replicate (e + 3) 0 ++ rest) endPos
  | rep18 (done pos e rest endPos) :
      C.getD 18 0 ≠ 0 →
      SegAt s0 pos (codeBits (C.getD 18 0) (canonCode C 19 18)) →
      segVal s0 (pos + C.getD 18 0) 7 = e →
      CLAt s0 C (done ++ List.replicate (e + 11) 0) (pos + C.getD 18 0 + 7) rest endPos →
      CLAt s0 C done pos (List.replicate (e + 11) 0 ++ rest) endPos

/-- A dynamic-Huffman block body (after the two block-type bits): the
HLIT/HDIST/HCLEN fields, the code-length code, the code-length-coded
literal and distance code lengths, and the LZ77 stream under those codes. -/
def DynAt (s0 : Nat → Bool) (prior : List Nat) (pos : Nat) (out : List Nat)
    (endPos : Nat) : Prop :=
  ∃ h5 d5 c4 C L p3,
    segVal s0 pos 5 = h5 ∧ segVal s0 (pos + 5) 5 = d5 ∧
    segVal s0 (pos + 10) 4 = c4 ∧
    h5 + 257 ≤ 286 ∧ d5 + 1 ≤ 30 ∧ C.length = 19 ∧
    (∀ i, i < c4 + 4 → C.getD (rfcDezigzag.getD i 0) 0 = segVal s0 (pos + 14 + 3 * i) 3) ∧
    (∀ j, j < 19 → (∀ i, i < c4 + 4 → rfcDezigzag.getD i 0 ≠ j) → C.getD j 0 = 0) ∧
    KraftOk C 19 ∧
    CLAt s0 C [] (pos + 14 + 3 * (c4 + 4)) L p3 ∧
    L.length = (h5 + 257) + (d5 + 1) ∧
    KraftOk (L.take (h5 + 257)) (h5 + 257) ∧
    KraftOk (L.drop (h5 + 257)) (d5 + 1) ∧
    LZAt s0 (L.take (h5 + 257)) (L.drop (h5 + 257)) (h5 + 257) (d5 + 1)
      prior p3 out endPos

/-- One block body, starting at the two block-type bits. -/
inductive BlockBodyAt (s0 : Nat → Bool) : List Nat → Nat → List Nat → Nat → Prop
  | stored (prior pos out) :
      s0 pos = false → s0 (pos + 1) = false →
      out.length ≤ 65535 →
      segVal s0 (8 * ((pos + 9) / 8)) 16 = out.length →
      segVal s0 (8 * ((pos + 9) / 8) + 16) 16 = out.length ^^^ 65535 →
      (∀ j, j < out.length →
        segVal s0 (8 * ((pos + 9) / 8) + 32 + 8 * j) 8 = out.getD j 0) →
      BlockBodyAt s0 prior pos out (8 * ((pos + 9) / 8) + 32 + 8 * out.length)
  | fixed (prior pos out endPos) :
      s0 pos = true → s0 (pos + 1) = false →
      LZAt s0 fixedLitLens fixedDistLens 288 32 prior (pos + 2) out endPos →
      BlockBodyAt s0 prior pos out endPos
  | dyn (prior pos out endPos) :
      s0 pos = false → s0 (pos + 1) = true →
      DynAt s0 prior (pos + 2) out endPos →
      BlockBodyAt s0 prior pos out endPos

/-- A DEFLATE block sequence: each block is one final bit and a body, and
the final bit of the last block is set. -/
inductive BlocksAt (s0 : Nat → Bool) : List Nat → Nat → List Nat → Nat → Prop
  | last (prior pos out endPos) :
      s0 pos = true → BlockBodyAt s0 prior (pos + 1) out endPos →
      BlocksAt s0 prior pos out endPos
  | more (prior pos out p2 out2 endPos) :
      s0 pos = false → BlockBodyAt s0 prior (pos + 1) out p2 →
      BlocksAt s0 (prior ++ out) p2 out2 endPos →
      BlocksAt s0 prior pos (out ++ out2) endPos

/-- Specification relation of the round-trip claim: `ibuffer` is a valid
zlib stream (RFC 1950 header, then a DEFLATE block sequence over the bit
stream of the data bytes) whose decompressed content is `data`. -/
def ZlibEncodes (data ibuffer : List Nat) : Prop :=
  ∃ endPos,
    2 ≤ ibuffer.length ∧
    byteAt ibuffer 0 &&& 15 = 8 ∧
    (byteAt ibuffer 0 * 256 + byteAt ibuffer 1) % 31 = 0 ∧
    byteAt ibuffer 1 &&& 32 = 0 ∧
    BlocksAt (dataStream ibuffer) [] 0 data endPos ∧
    endPos ≤ 8 * (ibuffer.length - 2)

/-! ## Concrete inputs used by the claim theorems and witnesses -/

/-- Palette chunk payload: new size 0, `From = 5`, `To = 7`, 8 reserved
bytes, then three entries with flags 0 and pre-swap colors
`(1,2,3,4), (5,6,7,8), (9,10,11,12)`. -/
def C2bytes : List Nat :=
  [0,0,0,0, 5,0,0,0, 7,0,0,0, 0,0,0,0,0,0,0,0,
   0,0, 1,2,3,4, 0,0, 5,6,7,8, 0,0, 9,10,11,12]

/-- A 52-byte document whose header magic is 0 (not 0xA5E0) and whose frame
count field is 1; everything else is zero. -/
def C3bytes : List Nat := List.replicate 6 0 ++ [1, 0] ++ List.replicate 44 0

/-- A compressed-cel chunk: declared size 28, type 0x2005, layer 0, x = 0,
y = 0, opacity 9, cel kind 2 (compressed), 7 reserved bytes, w = 1, h = 1,
and the two-byte payload `[0, 0]`, which is rejected by the zlib header
check (compression method 0 is not DEFLATE). -/
def C8bytes : List Nat :=
  [28,0,0,0, 5,32] ++ [0,0, 0,0, 0,0, 9, 2,0] ++ List.replicate 7 0 ++
    [1,0, 1,0] ++ [0,0]

/-- A decode state about to read `C8bytes` at position 0: an RGBA document
with one Image layer and one (current) frame of duration 7. -/
def C8state : ASE__DecodeState :=
  ⟨0,
   { ASE_Sprite.zero with
     depth := 32
     layers := [{ ASE_Layer.zero with type := 0 }]
     frames := [⟨7, []⟩] },
   none, -1, false⟩

/-- A 36-byte buffer forming a valid header prefix with magic 0xA5E0, depth
32 and a zero palette color count. -/
def C9bytes : List Nat :=
  [0,0,0,0, 0xE0,0xA5, 0,0, 3,0, 4,0, 32,0] ++ List.replicate 22 0

/-- A one-layer, one-frame, one-cel, one-tag sprite exercising every free
loop of `ASE_free`. -/
def C10sprite : ASE_Sprite :=
  { ASE_Sprite.zero with
    width := 3
    layers := [{ ASE_Layer.zero with name := [65] }]
    frames := [⟨9, [{ ASE_Cel.zero with data := some [1, 2] }]⟩]
    tags := [⟨0, 1, 0, [66]⟩] }

section ReaderLemmas

theorem list_take_getD (l : List Nat) (k i : Nat) (hik : i < k) :
    (l.take k).getD i 0 = l.getD i 0 := by
  simp [List.getD, List.getElem?_take, hik]

theorem drop_getD (l : List Nat) (p i : Nat) :
    (l.drop p).getD i 0 = l.getD (p + i) 0 := by
  simp [List.getD, List.getElem?_drop]

theorem take_drop_getD (l : List Nat) (p k i : Nat) (hik : i < k) :
    ((l.drop p).take k).getD i 0 = l.getD (p + i) 0 := by
  rw [list_take_getD _ _ _ hik, drop_getD]

theorem ASE__mem_read_full (c : ASE__ctx) (n : Nat) (h : c.pos + n ≤ c.buf.length) :
    ASE__mem_read c n = ((c.buf.drop c.pos).take n, ⟨c.buf, c.pos + n⟩) := by
  have havail : min n (c.buf.length - c.pos) = n := by omega
  simp [ASE__mem_read, havail]

theorem take_drop_length (l : List Nat) (p n : Nat) (h : p + n ≤ l.length) :
    ((l.drop p).take n).length = n := by
  simp [List.length_take, List.length_drop]; omega

theorem ASE__read8_full (c : ASE__ctx) (h : c.pos + 1 ≤ c.buf.length) :
    ASE__read8 c = (byteAt c.buf c.pos, ⟨c.buf, c.pos + 1⟩) := by
  rw [ASE__read8, ASE__mem_read_full c 1 h]
  simp only [take_drop_length _ _ _ h, take_drop_getD c.buf c.pos 1 0 (by omega)]
  simp [byteAt]

theorem ASE__read16_full (c : ASE__ctx) (h : c.pos + 2 ≤ c.buf.length) :
    ASE__read16 c = (u16At c.buf c.pos, ⟨c.buf, c.pos + 2⟩) := by
  rw [ASE__read16, ASE__mem_read_full c 2 h]
  simp only [take_drop_length _ _ _ h,
    take_drop_getD c.buf c.pos 2 0 (by omega), take_drop_getD c.buf c.pos 2 1 (by omega)]
  simp [u16At, byteAt]

theorem ASE__read32_full (c : ASE__ctx) (h : c.pos + 4 ≤ c.buf.length) :
    ASE__read32 c = (u32At c.buf c.pos, ⟨c.buf, c.pos + 4⟩) := by
  rw [ASE__read32, ASE__mem_read_full c 4 h]
  simp only [take_drop_length _ _ _ h,
    take_drop_getD c.buf c.pos 4 0 (by omega), take_drop_getD c.buf c.pos 4 1 (by omega),
    take_drop_getD c.buf c.pos 4 2 (by omega), take_drop_getD c.buf c.pos 4 3 (by omega)]
  simp [u32At, byteAt]

theorem ASE__mem_skip_full (c : ASE__ctx) (n : Nat) (h : c.pos + n ≤ c.buf.length) :
    ASE__mem_skip c n = ⟨c.buf, c.pos + n⟩ := by
  simp [ASE__mem_skip]; omega

theorem drop_take_succ (l : List Nat) (p n : Nat) (h : p < l.length) :
    (l.drop p).take (n + 1) = l.getD p 0 :: (l.drop (p + 1)).take n := by
  rw [List.drop_eq_getElem_cons h, List.take_succ_cons]
  simp [List.getD, List.getElem?_eq_getElem h]

theorem ASE__read8Loop_full (n : Nat) : ∀ (c : ASE__ctx), c.pos + n ≤ c.buf.length →
    ASE__read8Loop c n = (((c.buf.drop c.pos).take n).map (· % 256), ⟨c.buf, c.pos + n⟩) := by
  induction n with
  | zero => intro c _; simp [ASE__read8Loop]
  | succ m ih =>
    intro c h
    rw [ASE__read8Loop, ASE__read8_full c (by omega)]
    have h' : (ASE__ctx.mk c.buf (c.pos + 1)).pos + m ≤ (ASE__ctx.mk c.buf (c.pos + 1)).buf.length := by
      simp; omega
    simp only [ih _ h']
    rw [drop_take_succ _ _ _ (by omega)]
    simp [byteAt]
    omega

end ReaderLemmas

section PaletteLemmas

theorem palette_entry_ncolors (c : ASE__ctx) (R : ASE_Palette) :
    (ASE_Palette_readEntry c R).1.ncolors = (R.ncolors + 1) % 256 := by
  simp only [ASE_Palette_readEntry]
  split <;> rfl

theorem palette_loop_ncolors_lt (n : Nat) : ∀ (c : ASE__ctx) (R : ASE_Palette),
    R.ncolors < 256 → (ASE_Palette_readLoop n c R).1.ncolors < 256 := by
  induction n with
  | zero => intro c R h; exact h
  | succ m ih =>
    intro c R h
    rw [ASE_Palette_readLoop]
    refine ih _ _ ?_
    rw [palette_entry_ncolors]
    exact Nat.mod_lt _ (by omega)

theorem palette_read_ncolors_lt (c : ASE__ctx) (P : ASE_Palette)
    (h : P.ncolors < 256) : (ASE_Palette_read c P).1.ncolors < 256 := by
  rw [ASE_Palette_read]
  exact palette_loop_ncolors_lt _ _ _ h

end PaletteLemmas

section BitLemmas

theorem byteAt_lt (buf : List Nat) (p : Nat) : byteAt buf p < 256 :=
  Nat.mod_lt _ (by omega)

theorem map_range_getD {α : Type} (f : Nat → α) (n k : Nat) (d : α) (h : k < n) :
    ((List.range n).map f).getD k d = f k := by
  rw [List.getD_eq_getElem?_getD, List.getElem?_map]
  simp [List.getElem?_range h]

theorem map_range_getD_ge {α : Type} (f : Nat → α) (n k : Nat) (d : α) (h : n ≤ k) :
    ((List.range n).map f).getD k d = d := by
  apply List.getD_eq_default
  simpa using h

theorem bitsVal_lt (bs : List Bool) : bitsVal bs < 2 ^ bs.length := by
  induction bs with
  | nil => simp [bitsVal]
  | cons b bs ih =>
    simp only [bitsVal, List.length_cons, pow_succ]
    rcases b <;> simp <;> omega

theorem bitsVal_append (a b : List Bool) :
    bitsVal (a ++ b) = bitsVal a + 2 ^ a.length * bitsVal b := by
  induction a with
  | nil => simp [bitsVal]
  | cons x a ih =>
    have h : bitsVal ((x :: a) ++ b) = (if x then 1 else 0) + 2 * bitsVal (a ++ b) := rfl
    rw [h, ih, show bitsVal (x :: a) = (if x then 1 else 0) + 2 * bitsVal a from rfl]
    simp only [List.length_cons, pow_succ]
    ring

theorem bitsVal_testBit (bs : List Bool) : ∀ i, (bitsVal bs).testBit i = bs.getD i false := by
  induction bs with
  | nil => intro i; simp [bitsVal]
  | cons b bs ih =>
    intro i
    cases i with
    | zero =>
      simp only [bitsVal, Nat.testBit_zero, List.getD_cons_zero]
      rcases b <;> simp <;> omega
    | succ j =>
      simp only [bitsVal, Nat.testBit_add_one, List.getD_cons_succ]
      rw [show ((if b then 1 else 0) + 2 * bitsVal bs) / 2 = bitsVal bs from by
        rcases b <;> simp <;> omega]
      exact ih j

theorem val_eq_bitsVal : ∀ (n : Nat) (f : Nat → Bool) (x : Nat), x < 2 ^ n →
    (∀ i, i < n → x.testBit i = f i) → x = bitsVal ((List.range n).map f) := by
  intro n
  induction n with
  | zero =>
    intro f x hx _
    interval_cases x
    simp [bitsVal]
  | succ m ih =>
    intro f x hx hf
    rw [List.range_succ_eq_map, List.map_cons, List.map_map]
    have h2 : x / 2 = bitsVal ((List.range m).map (f ∘ Nat.succ)) := by
      refine ih (f ∘ Nat.succ) (x / 2) ?_ ?_
      · rw [pow_succ] at hx
        omega
      · intro i hi
        rw [Function.comp_apply, ← Nat.testBit_add_one]
        exact hf (i + 1) (by omega)
    have h0 : x.testBit 0 = f 0 := hf 0 (by omega)
    rw [Nat.testBit_zero] at h0
    show x = (if f 0 then 1 else 0) + 2 * bitsVal ((List.range m).map (f ∘ Nat.succ))
    rw [← h2]
    cases hb : f 0 with
    | false =>
      rw [hb] at h0
      simp only [decide_eq_false_iff_not] at h0
      rw [if_neg (by simp [hb])]
      omega
    | true =>
      rw [hb] at h0
      simp only [decide_eq_true_eq] at h0
      rw [if_pos (by simp [hb])]
      omega

theorem segVal_lt (s0 : Nat → Bool) (pos n : Nat) : segVal s0 pos n < 2 ^ n := by
  have := bitsVal_lt ((List.range n).map (fun k => s0 (pos + k)))
  simpa [segVal] using this

theorem segVal_testBit (s0 : Nat → Bool) (pos n i : Nat) (h : i < n) :
    (segVal s0 pos n).testBit i = s0 (pos + i) := by
  rw [segVal, bitsVal_testBit, map_range_getD _ _ _ _ h]

theorem segVal_split (s0 : Nat → Bool) (pos m n : Nat) :
    segVal s0 pos (m + n) = segVal s0 pos m + 2 ^ m * segVal s0 (pos + m) n := by
  have h : (List.range n).map ((fun k => s0 (pos + k)) ∘ (fun x => m + x)) =
      (List.range n).map (fun k => s0 (pos + m + k)) := by
    apply List.map_congr_left
    intro k _
    simp only [Function.comp_apply]
    congr 1
    omega
  rw [segVal, List.range_add, List.map_append, bitsVal_append, List.map_map, h]
  simp only [List.length_map, List.length_range]
  rfl

theorem segVal_one (s0 : Nat → Bool) (pos : Nat) :
    segVal s0 pos 1 = if s0 pos then 1 else 0 := by
  simp [segVal, bitsVal, List.range_succ]

theorem bitRev_lt (s v : Nat) : bitRev s v < 2 ^ s := by
  induction s with
  | zero => simp [bitRev]
  | succ m ih =>
    simp only [bitRev, pow_succ]
    split <;> omega

theorem bitRev_testBit (s v : Nat) : ∀ k, (bitRev s v).testBit k =
    if k < s then v.testBit (s - 1 - k) else false := by
  induction s with
  | zero => intro k; simp [bitRev]
  | succ m ih =>
    intro k
    cases k with
    | zero =>
      simp only [bitRev, Nat.testBit_zero, if_pos (Nat.succ_pos m)]
      rcases hb : v.testBit m with _ | _ <;> simp [hb] <;> omega
    | succ j =>
      simp only [bitRev, Nat.testBit_add_one]
      rw [show ((if v.testBit m then 1 else 0) + 2 * bitRev m v) / 2 = bitRev m v from by
        split <;> omega]
      rw [ih j]
      rcases Nat.lt_or_ge j m with hj | hj
      · rw [if_pos hj, if_pos (by omega)]
        congr 1
        omega
      · rw [if_neg (by omega), if_neg (by omega)]

theorem bitRev_mod (s t v : Nat) (h : t ≤ s) :
    bitRev s v % 2 ^ t = bitRev t (v >>> (s - t)) := by
  apply Nat.eq_of_testBit_eq
  intro i
  rw [Nat.testBit_mod_two_pow, bitRev_testBit, bitRev_testBit, Nat.testBit_shiftRight]
  rcases Nat.lt_or_ge i t with hi | hi
  · have h1 : i < s := by omega
    have h2 : s - t + (t - 1 - i) = s - 1 - i := by omega
    simp [hi, h1, h2]
  · simp [show ¬i < t from by omega]

theorem bitRev_inj (s v w : Nat) (hv : v < 2 ^ s) (hw : w < 2 ^ s)
    (h : bitRev s v = bitRev s w) : v = w := by
  apply Nat.eq_of_testBit_eq
  intro i
  rcases Nat.lt_or_ge i s with hi | hi
  · have h1 := bitRev_testBit s v (s - 1 - i)
    have h2 := bitRev_testBit s w (s - 1 - i)
    rw [h] at h1
    rw [h1] at h2
    rw [if_pos (by omega), if_pos (by omega)] at h2
    rw [show s - 1 - (s - 1 - i) = i from by omega] at h2
    exact h2
  · rw [Nat.testBit_lt_two_pow (lt_of_lt_of_le hv (Nat.pow_le_pow_right (by omega) hi)),
      Nat.testBit_lt_two_pow (lt_of_lt_of_le hw (Nat.pow_le_pow_right (by omega) hi))]

theorem stbi__bitreverse16_testBit (n k : Nat) (hk : k < 16) :
    (stbi__bitreverse16 n).testBit k = n.testBit (15 - k) := by
  interval_cases k <;>
  · simp only [stbi__bitreverse16, Nat.testBit_or, Nat.testBit_and, Nat.testBit_shiftLeft,
      Nat.testBit_shiftRight]
    norm_num [Nat.testBit_to_div_mod]

theorem or_lt_65536 (x y : Nat) :
    ((x &&& 0xFF00) >>> 8) ||| ((y &&& 0x00FF) <<< 8) < 2 ^ 16 := by
  apply Nat.or_lt_two_pow
  · have h1 : x &&& 0xFF00 ≤ 0xFF00 := Nat.and_le_right
    have h2 : (x &&& 0xFF00) >>> 8 ≤ x &&& 0xFF00 := by
      rw [Nat.shiftRight_eq_div_pow]
      exact Nat.div_le_self _ _
    omega
  · have h1 : y &&& 0x00FF ≤ 0x00FF := Nat.and_le_right
    rw [Nat.shiftLeft_eq]
    calc (y &&& 0x00FF) * 2 ^ 8 ≤ 0x00FF * 2 ^ 8 := Nat.mul_le_mul_right _ h1
    _ < 2 ^ 16 := by norm_num

theorem stbi__bitreverse16_lt (n : Nat) : stbi__bitreverse16 n < 2 ^ 16 := by
  simp only [stbi__bitreverse16]
  exact or_lt_65536 _ _

theorem stbi__bitreverse16_eq_bitRev (n : Nat) : stbi__bitreverse16 n = bitRev 16 n := by
  apply Nat.eq_of_testBit_eq
  intro i
  rcases Nat.lt_or_ge i 16 with hi | hi
  · rw [stbi__bitreverse16_testBit n i hi, bitRev_testBit, if_pos hi]
  · rw [bitRev_testBit, if_neg (by omega),
      Nat.testBit_lt_two_pow
        (lt_of_lt_of_le (stbi__bitreverse16_lt n) (Nat.pow_le_pow_right (by omega) hi))]

theorem stbi__bit_reverse_eq_bitRev (v s : Nat) (hs : s ≤ 16) :
    stbi__bit_reverse v s = bitRev s v := by
  rw [stbi__bit_reverse, stbi__bitreverse16_eq_bitRev]
  apply Nat.eq_of_testBit_eq
  intro k
  rw [Nat.testBit_shiftRight, bitRev_testBit, bitRev_testBit]
  rcases Nat.lt_or_ge k s with hk | hk
  · rw [if_pos (by omega), if_pos (by omega)]
    congr 1
    omega
  · rw [if_neg (by omega), if_neg (by omega)]

end BitLemmas

section ZReaderLemmas

theorem SameAux_refl (a : stbi__zbuf) : SameAux a a := ⟨rfl, rfl, rfl, rfl, rfl, rfl⟩

theorem SameAux_trans {a b c : stbi__zbuf} (h1 : SameAux a b) (h2 : SameAux b c) :
    SameAux a c := by
  obtain ⟨x1, x2, x3, x4, x5, x6⟩ := h1
  obtain ⟨y1, y2, y3, y4, y5, y6⟩ := h2
  exact ⟨y1.trans x1, y2.trans x2, y3.trans x3, y4.trans x4, y5.trans x5, y6.trans x6⟩

theorem or_shift_testBit (cb b nb : Nat) (hcb : cb < 2 ^ nb) (i : Nat) :
    (cb ||| b <<< nb).testBit i = if i < nb then cb.testBit i else b.testBit (i - nb) := by
  rw [Nat.testBit_or, Nat.testBit_shiftLeft]
  rcases Nat.lt_or_ge i nb with hi | hi
  · rw [if_pos hi]
    simp [show ¬nb ≤ i from by omega]
  · rw [if_neg (by omega),
      Nat.testBit_lt_two_pow (lt_of_lt_of_le hcb (Nat.pow_le_pow_right (by omega) hi))]
    simp [hi]

theorem or_shift_lt (cb b nb : Nat) (hcb : cb < 2 ^ nb) (hb : b < 256) :
    cb ||| b <<< nb < 2 ^ (nb + 8) := by
  apply Nat.or_lt_two_pow
  · exact lt_of_lt_of_le hcb (Nat.pow_le_pow_right (by omega) (by omega))
  · rw [Nat.shiftLeft_eq, pow_add]
    calc b * 2 ^ nb < 256 * 2 ^ nb :=
      mul_lt_mul_of_pos_right hb (Nat.two_pow_pos nb)
    _ = 2 ^ nb * 2 ^ 8 := by ring_nf
    _ ≤ 2 ^ nb * 2 ^ 8 := le_refl _

theorem ZInv_take (s0 : Nat → Bool) (a : stbi__zbuf) (pos n : Nat)
    (h : ZInv s0 a pos) (hn : n ≤ a.num_bits) :
    a.code_buffer &&& (1 <<< n - 1) = segVal s0 pos n := by
  rw [Nat.one_shiftLeft, Nat.and_pow_two_sub_one_eq_mod]
  simp only [segVal]
  refine val_eq_bitsVal n (fun k => s0 (pos + k)) (a.code_buffer % 2 ^ n)
    (Nat.mod_lt _ (Nat.two_pow_pos n)) ?_
  intro i hi
  rw [Nat.testBit_mod_two_pow]
  simp [hi, h.cb_bits i (by omega)]

theorem ZInv_shift (s0 : Nat → Bool) (a : stbi__zbuf) (pos n : Nat)
    (h : ZInv s0 a pos) (hn : n ≤ a.num_bits) :
    ZInv s0 { a with code_buffer := a.code_buffer >>> n, num_bits := a.num_bits - n }
      (pos + n) := by
  refine ⟨?_, ?_, ?_, ?_, ?_, ?_, ?_⟩
  · show a.code_buffer >>> n < 2 ^ (a.num_bits - n)
    rw [Nat.shiftRight_eq_div_pow]
    apply Nat.div_lt_of_lt_mul
    rw [← pow_add, show n + (a.num_bits - n) = a.num_bits from by omega]
    exact h.cb_lt
  · show a.num_bits - n ≤ 32
    have := h.nb_le
    omega
  · exact h.zpos_lb
  · exact h.zpos_ub
  · obtain ⟨zf, hzf, hd⟩ := h.pos_eq
    refine ⟨zf, ?_, hd⟩
    show pos + n + (a.num_bits - n) = 8 * (a.zpos - 2) + 8 * zf
    omega
  · intro i hi
    have hi' : i < a.num_bits - n := hi
    show (a.code_buffer >>> n).testBit i = s0 (pos + n + i)
    rw [Nat.testBit_shiftRight, h.cb_bits (n + i) (by omega)]
    congr 1
    omega
  · exact h.s0_bytes

theorem ZInv_push (s0 : Nat → Bool) (pos : Nat) (a : stbi__zbuf) (b zp : Nat)
    (h : ZInv s0 a pos) (h24 : a.num_bits ≤ 24) (hb : b < 256)
    (hbits : ∀ j, j < 8 → b.testBit j = s0 (pos + a.num_bits + j))
    (hzlb : 2 ≤ zp) (hzub : zp ≤ a.zbuffer.length)
    (hpe : ∃ zf, pos + (a.num_bits + 8) = 8 * (zp - 2) + 8 * zf ∧
      (zf = 0 ∨ zp = a.zbuffer.length)) :
    ZInv s0 { a with
      zpos := zp
      code_buffer := a.code_buffer ||| b <<< a.num_bits
      num_bits := a.num_bits + 8 } pos := by
  refine ⟨?_, ?_, ?_, ?_, ?_, ?_, ?_⟩
  · exact or_shift_lt _ _ _ h.cb_lt hb
  · show a.num_bits + 8 ≤ 32
    omega
  · exact hzlb
  · exact hzub
  · exact hpe
  · intro i hi
    have hi' : i < a.num_bits + 8 := hi
    show (a.code_buffer ||| b <<< a.num_bits).testBit i = s0 (pos + i)
    rw [or_shift_testBit _ _ _ h.cb_lt]
    rcases Nat.lt_or_ge i a.num_bits with hlt | hge
    · rw [if_pos hlt]
      exact h.cb_bits i hlt
    · rw [if_neg (by omega), hbits (i - a.num_bits) (by omega)]
      congr 1
      omega
  · exact h.s0_bytes

theorem stbi__fill_bits_go_spec (s0 : Nat → Bool) (pos : Nat) :
    ∀ (fuel : Nat) (a : stbi__zbuf), ZInv s0 a pos → a.num_bits ≤ 24 →
      25 ≤ a.num_bits + 8 * fuel →
      ZInv s0 (stbi__fill_bits_go fuel a) pos ∧
        25 ≤ (stbi__fill_bits_go fuel a).num_bits ∧
        SameAux a (stbi__fill_bits_go fuel a) := by
  intro fuel
  induction fuel with
  | zero =>
    intro a _ h24 hf
    omega
  | succ f ih =>
    intro a h h24 hf
    by_cases hz : a.zpos ≥ a.zbuffer.length
    · have hg : stbi__zget8 a = (0, a) := by rw [stbi__zget8, if_pos hz]
      have hzl : a.zpos = a.zbuffer.length := le_antisymm h.zpos_ub hz
      obtain ⟨zf, hzf, _⟩ := h.pos_eq
      have hpush : ZInv s0 { a with
          zpos := a.zpos
          code_buffer := a.code_buffer ||| 0 <<< a.num_bits
          num_bits := a.num_bits + 8 } pos := by
        refine ZInv_push s0 pos a 0 a.zpos h h24 (by omega) ?_ h.zpos_lb h.zpos_ub ?_
        · intro j hj
          rw [Nat.zero_testBit, h.s0_bytes]
          have hge : a.zbuffer.length ≤ 2 + (pos + a.num_bits + j) / 8 := by
            have h2 : 2 ≤ a.zpos := h.zpos_lb
            omega
          rw [show byteAt a.zbuffer (2 + (pos + a.num_bits + j) / 8) = 0 from by
            rw [byteAt, List.getD_eq_default _ _ hge]]
          rw [Nat.zero_testBit]
        · exact ⟨zf + 1, by omega, Or.inr hzl⟩
      rw [stbi__fill_bits_go, hg]
      dsimp only
      by_cases h24' : a.num_bits + 8 ≤ 24
      · rw [if_pos h24']
        obtain ⟨i1, i2, i3⟩ := ih _ hpush h24' (by dsimp only; omega)
        exact ⟨i1, i2, SameAux_trans ⟨rfl, rfl, rfl, rfl, rfl, rfl⟩ i3⟩
      · rw [if_neg h24']
        exact ⟨hpush, by dsimp only; omega, ⟨rfl, rfl, rfl, rfl, rfl, rfl⟩⟩
    · push_neg at hz
      have hg : stbi__zget8 a = (byteAt a.zbuffer a.zpos, { a with zpos := a.zpos + 1 }) := by
        rw [stbi__zget8, if_neg (by omega)]
      obtain ⟨zf, hzf, hd⟩ := h.pos_eq
      have hzf0 : zf = 0 := by
        rcases hd with h0 | hlen
        · exact h0
        · omega
      have hpush : ZInv s0 { a with
          zpos := a.zpos + 1
          code_buffer := a.code_buffer ||| byteAt a.zbuffer a.zpos <<< a.num_bits
          num_bits := a.num_bits + 8 } pos := by
        refine ZInv_push s0 pos a (byteAt a.zbuffer a.zpos) (a.zpos + 1) h h24
          (byteAt_lt _ _) ?_ (by have := h.zpos_lb; omega) (by omega) ?_
        · intro j hj
          rw [h.s0_bytes]
          have h2 : 2 ≤ a.zpos := h.zpos_lb
          have hdiv : (pos + a.num_bits + j) / 8 = a.zpos - 2 := by omega
          have hmod : (pos + a.num_bits + j) % 8 = j := by omega
          rw [hdiv, hmod, show 2 + (a.zpos - 2) = a.zpos from by omega]
        · exact ⟨0, by have h2 : 2 ≤ a.zpos := h.zpos_lb; omega, Or.inl rfl⟩
      rw [stbi__fill_bits_go, hg]
      dsimp only
      by_cases h24' : a.num_bits + 8 ≤ 24
      · rw [if_pos h24']
        obtain ⟨i1, i2, i3⟩ := ih _ hpush h24' (by dsimp only; omega)
        exact ⟨i1, i2, SameAux_trans ⟨rfl, rfl, rfl, rfl, rfl, rfl⟩ i3⟩
      · rw [if_neg h24']
        exact ⟨hpush, by dsimp only; omega, ⟨rfl, rfl, rfl, rfl, rfl, rfl⟩⟩

theorem stbi__fill_bits_spec (s0 : Nat → Bool) (pos : Nat) (a : stbi__zbuf)
    (h : ZInv s0 a pos) (h24 : a.num_bits ≤ 24) :
    ZInv s0 (stbi__fill_bits a) pos ∧ 25 ≤ (stbi__fill_bits a).num_bits ∧
      SameAux a (stbi__fill_bits a) :=
  stbi__fill_bits_go_spec s0 pos 5 a h h24 (by omega)

theorem stbi__zreceive_spec (s0 : Nat → Bool) (a : stbi__zbuf) (pos n : Nat)
    (h : ZInv s0 a pos) (hn : n ≤ 24) :
    (stbi__zreceive a n).1 = segVal s0 pos n ∧
      ZInv s0 (stbi__zreceive a n).2 (pos + n) ∧
      SameAux a (stbi__zreceive a n).2 := by
  rw [stbi__zreceive]
  by_cases hlt : a.num_bits < n
  · rw [if_pos hlt]
    obtain ⟨h1, h2, h3⟩ := stbi__fill_bits_spec s0 pos a h (by omega)
    dsimp only
    refine ⟨ZInv_take s0 _ pos n h1 (by omega), ZInv_shift s0 _ pos n h1 (by omega), ?_⟩
    exact SameAux_trans h3 ⟨rfl, rfl, rfl, rfl, rfl, rfl⟩
  · rw [if_neg hlt]
    dsimp only
    refine ⟨ZInv_take s0 a pos n h (by omega), ZInv_shift s0 a pos n h (by omega), ?_⟩
    exact ⟨rfl, rfl, rfl, rfl, rfl, rfl⟩

end ZReaderLemmas

section CanonLemmas

theorem clCount_eq_countP (lens : List Nat) (num s : Nat) :
    clCount lens num s = (List.range num).countP (fun i => decide (lens.getD i 0 = s)) := by
  rw [clCount, List.countP_eq_length_filter]

theorem clRank_eq_countP (lens : List Nat) (sym : Nat) :
    clRank lens sym =
      (List.range sym).countP (fun j => decide (lens.getD j 0 = lens.getD sym 0)) := by
  rw [clRank, List.countP_eq_length_filter]

theorem countP_range_succ (p : Nat → Bool) (n : Nat) :
    (List.range (n + 1)).countP p = (List.range n).countP p + if p n then 1 else 0 := by
  rw [List.range_succ, List.countP_append]
  simp [List.countP_cons]

theorem countP_range_mono (p : Nat → Bool) (m n : Nat) (h : m ≤ n) :
    (List.range m).countP p ≤ (List.range n).countP p := by
  induction n, h using Nat.le_induction with
  | base => exact le_refl _
  | succ k hk ih =>
    rw [countP_range_succ]
    split <;> omega

theorem countP_range_le (p : Nat → Bool) (n : Nat) :
    (List.range n).countP p ≤ n := by
  rw [List.countP_eq_length_filter]
  simpa using List.length_filter_le p (List.range n)

theorem countP_range_lt (p : Nat → Bool) (a : Nat) (hpa : p a = false) :
    ∀ n, a < n → (List.range n).countP p < n := by
  intro n
  induction n with
  | zero => intro h; omega
  | succ k ih =>
    intro h
    rw [countP_range_succ]
    have h2 := countP_range_le p k
    rcases Nat.lt_or_ge a k with h1 | h1
    · have := ih h1
      split <;> omega
    · have hak : a = k := by omega
      subst hak
      rw [hpa]
      simp
      omega

theorem nextCode_succ (lens : List Nat) (num s : Nat) (hs : 1 ≤ s) :
    nextCode lens num (s + 1) = (nextCode lens num s + clCount lens num s) * 2 := by
  obtain ⟨t, rfl⟩ : ∃ t, s = t + 1 := ⟨s - 1, by omega⟩
  rfl

theorem nextCode_mono (lens : List Nat) (num s : Nat) (h1 : 1 ≤ s) :
    ∀ t, s < t → t ≤ 15 →
      (nextCode lens num s + clCount lens num s) * 2 ^ (t - s) ≤ nextCode lens num t := by
  intro t
  induction t with
  | zero => intro h _; omega
  | succ u ih =>
    intro hst ht
    rcases Nat.lt_or_ge s u with hu | hu
    · have ihu := ih hu (by omega)
      rw [nextCode_succ lens num u (by omega)]
      have hp : 2 ^ (u + 1 - s) = 2 ^ (u - s) * 2 := by
        rw [← pow_succ]
        congr 1
        omega
      rw [hp, ← mul_assoc]
      omega
    · have hsu : s = u := by omega
      subst hsu
      rw [nextCode_succ lens num s h1, show s + 1 - s = 1 from by omega, pow_one]

theorem clRank_lt_clCount (lens : List Nat) (num sym : Nat) (h : sym < num) :
    clRank lens sym < clCount lens num (lens.getD sym 0) := by
  rw [clRank_eq_countP, clCount_eq_countP]
  have h1 : (List.range (sym + 1)).countP
        (fun j => decide (lens.getD j 0 = lens.getD sym 0)) =
      (List.range sym).countP (fun j => decide (lens.getD j 0 = lens.getD sym 0)) + 1 := by
    rw [countP_range_succ]
    simp
  have h2 := countP_range_mono
    (fun j => decide (lens.getD j 0 = lens.getD sym 0)) (sym + 1) num h
  omega

theorem canonCode_lt (lens : List Nat) (num sym : Nat) (h : sym < num) :
    canonCode lens num sym <
      nextCode lens num (lens.getD sym 0) + clCount lens num (lens.getD sym 0) := by
  rw [canonCode]
  have := clRank_lt_clCount lens num sym h
  omega

theorem canonCode_lt_pow (lens : List Nat) (num sym : Nat) (hK : KraftOk lens num)
    (h : sym < num) (h15 : lens.getD sym 0 ≤ 15) (hne : lens.getD sym 0 ≠ 0) :
    canonCode lens num sym < 2 ^ lens.getD sym 0 :=
  lt_of_lt_of_le (canonCode_lt lens num sym h) (hK _ (by omega) (by omega))

theorem symBase_succ (lens : List Nat) (num s : Nat) (hs : 1 ≤ s) :
    symBase lens num (s + 1) = symBase lens num s + clCount lens num s := by
  rw [symBase, symBase, show s + 1 - 1 = (s - 1) + 1 from by omega, List.range'_1_concat,
    List.map_append, List.sum_append, show 1 + (s - 1) = s from by omega]
  simp

theorem symBase_mono (lens : List Nat) (num s t : Nat) (h : s ≤ t) :
    symBase lens num s ≤ symBase lens num t := by
  induction t, h using Nat.le_induction with
  | base => exact le_refl _
  | succ k hk ih =>
    rcases Nat.lt_or_ge k 1 with h1 | h1
    · have hk0 : k = 0 := by omega
      have hs0 : s = 0 := by omega
      subst hk0
      subst hs0
      exact le_refl 0
    · rw [symBase_succ lens num k h1]
      omega

theorem clRank_strict_mono (lens : List Nat) (j1 j2 : Nat) (hlt : j1 < j2)
    (heq : lens.getD j1 0 = lens.getD j2 0) :
    clRank lens j1 < clRank lens j2 := by
  rw [clRank_eq_countP, clRank_eq_countP]
  have hpeq : (fun j => decide (lens.getD j 0 = lens.getD j1 0)) =
      (fun j => decide (lens.getD j 0 = lens.getD j2 0)) := by
    funext j
    rw [heq]
  rw [hpeq]
  have h1 : (List.range (j1 + 1)).countP
        (fun j => decide (lens.getD j 0 = lens.getD j2 0)) =
      (List.range j1).countP (fun j => decide (lens.getD j 0 = lens.getD j2 0)) + 1 := by
    rw [countP_range_succ]
    have heq' : lens[j1]?.getD 0 = lens[j2]?.getD 0 := by
      simpa [List.getD] using heq
    simp [heq']
  have h2 := countP_range_mono
    (fun j => decide (lens.getD j 0 = lens.getD j2 0)) (j1 + 1) j2 hlt
  omega

theorem canon_inj_same (lens : List Nat) (num j1 j2 : Nat)
    (heq : lens.getD j1 0 = lens.getD j2 0)
    (hc : canonCode lens num j1 = canonCode lens num j2) : j1 = j2 := by
  rcases Nat.lt_trichotomy j1 j2 with h | h | h
  · have := clRank_strict_mono lens j1 j2 h heq
    rw [canonCode, canonCode, heq] at hc
    omega
  · exact h
  · have := clRank_strict_mono lens j2 j1 h heq.symm
    rw [canonCode, canonCode, heq] at hc
    omega

theorem canon_no_pref (lens : List Nat) (num : Nat) (hK : KraftOk lens num)
    (j1 j2 : Nat) (hj1 : j1 < num) (hj2 : j2 < num)
    (h152 : lens.getD j2 0 ≤ 15)
    (hne1 : lens.getD j1 0 ≠ 0)
    (hlt : lens.getD j1 0 < lens.getD j2 0) :
    canonCode lens num j2 >>> (lens.getD j2 0 - lens.getD j1 0) ≠ canonCode lens num j1 := by
  intro heq
  have hmono := nextCode_mono lens num (lens.getD j1 0) (by omega) (lens.getD j2 0) hlt
    (by omega)
  have hc2 : nextCode lens num (lens.getD j2 0) ≤ canonCode lens num j2 := by
    rw [canonCode]
    omega
  have hdiv : nextCode lens num (lens.getD j1 0) + clCount lens num (lens.getD j1 0) ≤
      canonCode lens num j2 >>> (lens.getD j2 0 - lens.getD j1 0) := by
    rw [Nat.shiftRight_eq_div_pow, Nat.le_div_iff_mul_le (Nat.two_pow_pos _)]
    calc (nextCode lens num (lens.getD j1 0) + clCount lens num (lens.getD j1 0)) *
        2 ^ (lens.getD j2 0 - lens.getD j1 0) ≤ nextCode lens num (lens.getD j2 0) := hmono
    _ ≤ canonCode lens num j2 := hc2
  have hrank := clRank_lt_clCount lens num j1 hj1
  rw [heq, canonCode] at hdiv
  omega

theorem fast_class_unique_le (lens : List Nat) (num : Nat) (hK : KraftOk lens num)
    (j1 j2 idx : Nat) (hj1 : j1 < num) (hj2 : j2 < num)
    (h151 : lens.getD j1 0 ≤ 15) (h152 : lens.getD j2 0 ≤ 15)
    (hne1 : lens.getD j1 0 ≠ 0) (hne2 : lens.getD j2 0 ≠ 0)
    (hle : lens.getD j1 0 ≤ lens.getD j2 0)
    (hm1 : idx % 2 ^ lens.getD j1 0 = bitRev (lens.getD j1 0) (canonCode lens num j1))
    (hm2 : idx % 2 ^ lens.getD j2 0 = bitRev (lens.getD j2 0) (canonCode lens num j2)) :
    j1 = j2 := by
  have hmm : idx % 2 ^ lens.getD j1 0 = (idx % 2 ^ lens.getD j2 0) % 2 ^ lens.getD j1 0 :=
    (Nat.mod_mod_of_dvd idx (pow_dvd_pow 2 hle)).symm
  rw [hm1, hm2, bitRev_mod _ _ _ hle] at hmm
  have hshlt : canonCode lens num j2 >>> (lens.getD j2 0 - lens.getD j1 0) <
      2 ^ lens.getD j1 0 := by
    rw [Nat.shiftRight_eq_div_pow]
    apply Nat.div_lt_of_lt_mul
    rw [← pow_add, show lens.getD j2 0 - lens.getD j1 0 + lens.getD j1 0 = lens.getD j2 0
      from by omega]
    exact canonCode_lt_pow lens num j2 hK hj2 h152 hne2
  have hinj := bitRev_inj (lens.getD j1 0) _ _
    (canonCode_lt_pow lens num j1 hK hj1 h151 hne1) hshlt hmm
  rcases Nat.eq_or_lt_of_le hle with heq | hlt
  · rw [show lens.getD j2 0 - lens.getD j1 0 = 0 from by omega, Nat.shiftRight_zero] at hinj
    exact canon_inj_same lens num j1 j2 heq hinj
  · exact absurd hinj.symm (canon_no_pref lens num hK j1 j2 hj1 hj2 h152 hne1 hlt)

theorem fast_class_unique (lens : List Nat) (num : Nat) (hK : KraftOk lens num)
    (j1 j2 idx : Nat) (hj1 : j1 < num) (hj2 : j2 < num)
    (h151 : lens.getD j1 0 ≤ 15) (h152 : lens.getD j2 0 ≤ 15)
    (hne1 : lens.getD j1 0 ≠ 0) (hne2 : lens.getD j2 0 ≠ 0)
    (hm1 : idx % 2 ^ lens.getD j1 0 = bitRev (lens.getD j1 0) (canonCode lens num j1))
    (hm2 : idx % 2 ^ lens.getD j2 0 = bitRev (lens.getD j2 0) (canonCode lens num j2)) :
    j1 = j2 := by
  rcases le_total (lens.getD j1 0) (lens.getD j2 0) with hle | hle
  · exact fast_class_unique_le lens num hK j1 j2 idx hj1 hj2 h151 h152 hne1 hne2 hle hm1 hm2
  · exact (fast_class_unique_le lens num hK j2 j1 idx hj2 hj1 h152 h151 hne2 hne1 hle
      hm2 hm1).symm

end CanonLemmas

section ArrayLemmas

theorem setD_getD_eq (a : Array Nat) (i v : Nat) (h : i < a.size) :
    (a.setD i v).getD i 0 = v := by
  simp [Array.getD, Array.setD, h]

theorem setD_getD_ne (a : Array Nat) (i j v : Nat) (hne : j ≠ i) :
    (a.setD i v).getD j 0 = a.getD j 0 := by
  unfold Array.setD
  split
  · simp only [Array.getD, Array.size_set]
    split
    · simp [Array.get_eq_getElem, Array.get_set, Ne.symm hne]
    · rfl
  · rfl

theorem setD_oob (a : Array Nat) (i v : Nat) (h : a.size ≤ i) : a.setD i v = a := by
  unfold Array.setD
  rw [dif_neg (by omega)]

theorem mkArray_getD_lt (n i v : Nat) (h : i < n) : (Array.mkArray n v).getD i 0 = v := by
  simp [Array.getD, h]

theorem mkArray_getD_ge (n i v : Nat) (h : n ≤ i) : (Array.mkArray n v).getD i 0 = 0 := by
  simp [Array.getD]
  omega

theorem extract_getD (a : Array Nat) (s e i : Nat) (hi : i < e - s) (he : e ≤ a.size) :
    (a.extract s e).getD i 0 = a.getD (s + i) 0 := by
  have h1 : (a.extract s e).size = e - s := by
    simp [Array.size_extract]
    omega
  simp [Array.getD, h1, hi]
  rw [dif_pos (by omega)]

theorem count_fold_spec (f : Nat → Nat) (g : Array Nat → Nat → Array Nat)
    (hg : ∀ a i, g a i = a.setD (f i) (a.getD (f i) 0 + 1)) :
    ∀ (n : Nat) (a0 : Array Nat),
      ((List.range n).foldl g a0).size = a0.size ∧
      (∀ t, t < a0.size → ((List.range n).foldl g a0).getD t 0 =
        a0.getD t 0 + (List.range n).countP (fun i => decide (f i = t))) := by
  intro n
  induction n with
  | zero =>
    intro a0
    simp
  | succ m ih =>
    intro a0
    obtain ⟨hsz, hget⟩ := ih a0
    rw [List.range_succ, List.foldl_append]
    simp only [List.foldl_cons, List.foldl_nil]
    rw [hg]
    refine ⟨by rw [Array.size_setD, hsz], ?_⟩
    intro t ht
    rw [List.countP_append]
    by_cases hft : f m = t
    · rw [hft, setD_getD_eq _ _ _ (by rw [hsz]; omega), hget t ht]
      simp [List.countP_cons, hft]
      omega
    · rw [setD_getD_ne _ _ _ _ (fun hc => hft hc.symm), hget t ht]
      simp [List.countP_cons, hft]

end ArrayLemmas

section BuildLemmas

theorem st_fold_spec (lens : List Nat) (num : Nat) (sizes : Array Nat)
    (g : ZBuildState → Nat → ZBuildState)
    (hg : ∀ st i, g st i =
      if ¬st.ok then st
      else
        let si := sizes.getD i 0
        let nc := st.next_code.setD i st.code
        let fc := st.firstcode.setD i st.code
        let fs := st.firstsymbol.setD i st.k
        let code1 := st.code + si
        let bad := si ≠ 0 ∧ code1 - 1 ≥ (1 <<< i)
        let mc := st.maxcode.setD i (code1 <<< (16 - i))
        ⟨code1 <<< 1, st.k + si, nc, fc, fs, mc, st.ok ∧ ¬bad⟩)
    (hsize : ∀ t, 1 ≤ t → t ≤ 15 → sizes.getD t 0 = clCount lens num t)
    (hK : KraftOk lens num) :
    ∀ k, k ≤ 15 → StFoldInv lens num k ((List.range' 1 k).foldl g
      ⟨0, 0, Array.mkArray 16 0, Array.mkArray 16 0, Array.mkArray 16 0,
        Array.mkArray 17 0, true⟩) := by
  intro k
  induction k with
  | zero =>
    intro _
    refine ⟨rfl, rfl, rfl, rfl, rfl, rfl, rfl, ?_⟩
    intro s h1 h2
    omega
  | succ m ih =>
    intro hk
    obtain ⟨hok, hcode, hkk, hs1, hs2, hs3, hs4, hget⟩ := ih (by omega)
    rw [List.range'_1_concat, List.foldl_append]
    simp only [List.foldl_cons, List.foldl_nil]
    rw [hg, if_neg (not_not_intro hok)]
    dsimp only
    rw [show 1 + m = m + 1 from Nat.add_comm 1 m]
    have hsi : sizes.getD (m + 1) 0 = clCount lens num (m + 1) :=
      hsize _ (by omega) (by omega)
    have hKm := hK (m + 1) (by omega) (by omega)
    refine ⟨?_, ?_, ?_, ?_, ?_, ?_, ?_, ?_⟩
    · show decide _ = true
      rw [decide_eq_true_eq]
      refine ⟨hok, ?_⟩
      rintro ⟨hne, hge⟩
      rw [hcode, hsi, Nat.one_shiftLeft] at hge
      omega
    · show (_ + _) <<< 1 = _
      rw [hcode, hsi, Nat.shiftLeft_eq, pow_one,
        nextCode_succ lens num (m + 1) (by omega)]
    · show _ + _ = _
      rw [hkk, hsi, symBase_succ lens num (m + 1) (by omega)]
    · show (Array.setD _ _ _).size = 16
      rw [Array.size_setD, hs1]
    · show (Array.setD _ _ _).size = 16
      rw [Array.size_setD, hs2]
    · show (Array.setD _ _ _).size = 16
      rw [Array.size_setD, hs3]
    · show (Array.setD _ _ _).size = 17
      rw [Array.size_setD, hs4]
    · intro s hge1 hlem
      rcases Nat.lt_or_ge s (m + 1) with hs | hs
      · obtain ⟨g1, g2, g3, g4⟩ := hget s hge1 (by omega)
        exact ⟨by rw [setD_getD_ne _ _ _ _ (by omega)]; exact g1,
          by rw [setD_getD_ne _ _ _ _ (by omega)]; exact g2,
          by rw [setD_getD_ne _ _ _ _ (by omega)]; exact g3,
          by rw [setD_getD_ne _ _ _ _ (by omega)]; exact g4⟩
      · have hseq : s = m + 1 := by omega
        subst hseq
        refine ⟨?_, ?_, ?_, ?_⟩
        · rw [setD_getD_eq _ _ _ (by rw [hs1]; omega), hcode]
        · rw [setD_getD_eq _ _ _ (by rw [hs2]; omega), hcode]
        · rw [setD_getD_eq _ _ _ (by rw [hs3]; omega), hkk]
        · rw [setD_getD_eq _ _ _ (by rw [hs4]; omega), hcode, hsi]

theorem countP_congr_mem (l : List Nat) (p q : Nat → Bool) (h : ∀ a ∈ l, p a = q a) :
    l.countP p = l.countP q := by
  induction l with
  | nil => rfl
  | cons x t ih =>
    rw [List.countP_cons, List.countP_cons, h x (List.mem_cons_self x t),
      ih (fun a ha => h a (List.mem_cons_of_mem x ha))]

theorem countP_or_split (l : List Nat) (p q r : Nat → Bool)
    (hpq : ∀ a, p a = (q a || r a)) (hdis : ∀ a, ¬(q a = true ∧ r a = true)) :
    l.countP p = l.countP q + l.countP r := by
  induction l with
  | nil => rfl
  | cons x t ih =>
    rw [List.countP_cons, List.countP_cons, List.countP_cons, ih, hpq x]
    rcases hq : q x with _ | _ <;> rcases hr : r x with _ | _
    · simp [hq, hr]
    · simp [hq, hr]
      omega
    · simp [hq, hr]
      omega
    · exact absurd ⟨hq, hr⟩ (hdis x)

theorem countP_range_restrict (p : Nat → Bool) (i num : Nat) (h : i ≤ num) :
    (List.range num).countP (fun j => p j && decide (j < i)) = (List.range i).countP p := by
  induction num, h using Nat.le_induction with
  | base =>
    apply countP_congr_mem
    intro a ha
    rw [List.mem_range] at ha
    simp [ha]
  | succ k hk ih =>
    rw [countP_range_succ, ih]
    simp [show ¬k < i from by omega]

theorem symBase_eq_countP (lens : List Nat) (num : Nat) :
    ∀ s, 1 ≤ s → s ≤ 16 → symBase lens num s =
      (List.range num).countP
        (fun j => decide (0 < lens.getD j 0) && decide (lens.getD j 0 < s)) := by
  intro s
  induction s with
  | zero => intro h _; omega
  | succ m ih =>
    intro h1 h16
    rcases Nat.lt_or_ge m 1 with hm | hm
    · have hm0 : m = 0 := by omega
      subst hm0
      rw [show symBase lens num 1 = 0 from rfl]
      symm
      rw [List.countP_eq_zero]
      intro a _
      simp
      omega
    · rw [symBase_succ lens num m hm, ih hm (by omega), clCount_eq_countP]
      symm
      apply countP_or_split
      · intro a
        generalize lens.getD a 0 = x
        rcases Nat.lt_trichotomy x m with hlt | heq | hgt
        · simp [hlt, Nat.lt_succ_of_lt hlt, show x ≠ m from by omega]
        · subst heq
          simp [show 0 < x from by omega, show ¬x < x from by omega]
        · simp [show ¬x < m + 1 from by omega, show ¬x < m from by omega,
            show x ≠ m from by omega]
      · intro a hqr
        obtain ⟨hq, hr⟩ := hqr
        simp only [Bool.and_eq_true, decide_eq_true_eq] at hq hr
        omega

theorem clRank_restrict (lens : List Nat) (num i : Nat) (h : i ≤ num) :
    clRank lens i = (List.range num).countP
      (fun j => decide (lens.getD j 0 = lens.getD i 0) && decide (j < i)) := by
  rw [clRank_eq_countP, countP_range_restrict _ i num h]

theorem symIdx_lt (lens : List Nat) (num i : Nat) (hi : i < num)
    (hne : lens.getD i 0 ≠ 0) (h15 : lens.getD i 0 ≤ 15) :
    symBase lens num (lens.getD i 0) + clRank lens i < num := by
  rw [symBase_eq_countP lens num _ (by omega) (by omega), clRank_restrict lens num i (by omega)]
  rw [← countP_or_split (List.range num)
    (fun j => (decide (0 < lens.getD j 0) && decide (lens.getD j 0 < lens.getD i 0)) ||
      (decide (lens.getD j 0 = lens.getD i 0) && decide (j < i)))
    _ _ (fun a => rfl) ?_]
  · apply countP_range_lt _ i ?_ num hi
    simp [show ¬lens.getD i 0 < lens.getD i 0 from by omega, show ¬i < i from by omega]
  · intro a hqr
    obtain ⟨hq, hr⟩ := hqr
    simp only [Bool.and_eq_true, decide_eq_true_eq] at hq hr
    omega

theorem symIdx_inj (lens : List Nat) (num j i : Nat) (hj : j < num) (hi : i < num)
    (hnej : lens.getD j 0 ≠ 0) (hnei : lens.getD i 0 ≠ 0) (hne : j ≠ i) :
    symBase lens num (lens.getD j 0) + clRank lens j ≠
      symBase lens num (lens.getD i 0) + clRank lens i := by
  rcases Nat.lt_trichotomy (lens.getD j 0) (lens.getD i 0) with hlt | heq | hgt
  · have h1 : symBase lens num (lens.getD j 0) + clRank lens j <
        symBase lens num (lens.getD j 0 + 1) := by
      have := clRank_lt_clCount lens num j hj
      rw [symBase_succ lens num _ (by omega)]
      omega
    have h2 := symBase_mono lens num (lens.getD j 0 + 1) (lens.getD i 0) (by omega)
    omega
  · rcases Nat.lt_or_ge j i with hji | hji
    · have := clRank_strict_mono lens j i hji heq
      rw [heq]
      omega
    · have := clRank_strict_mono lens i j (by omega) heq.symm
      rw [heq]
      omega
  · have h1 : symBase lens num (lens.getD i 0) + clRank lens i <
        symBase lens num (lens.getD i 0 + 1) := by
      have := clRank_lt_clCount lens num i hi
      rw [symBase_succ lens num _ (by omega)]
      omega
    have h2 := symBase_mono lens num (lens.getD i 0 + 1) (lens.getD j 0) (by omega)
    omega

theorem mod_class_iff (idx j0 step : Nat) (hj0 : j0 < step) :
    (j0 ≤ idx ∧ (idx - j0) % step = 0) ↔ idx % step = j0 := by
  constructor
  · rintro ⟨h1, h2⟩
    obtain ⟨q, hq⟩ := Nat.dvd_of_mod_eq_zero h2
    rw [show idx = step * q + j0 from by omega, Nat.mul_add_mod, Nat.mod_eq_of_lt hj0]
  · intro h
    have h1 : j0 ≤ idx := h ▸ Nat.mod_le idx step
    refine ⟨h1, ?_⟩
    have hdm := Nat.div_add_mod idx step
    rw [show idx - j0 = step * (idx / step) from by omega, Nat.mul_mod_right]

theorem stbi__fillFast_spec (v step : Nat) (hstep : 1 ≤ step) :
    ∀ (fuel : Nat) (fast : Array Nat) (j : Nat), 512 ≤ j + fuel * step →
      fast.size = 512 →
      (stbi__fillFast fast v step fuel j).size = 512 ∧
      (∀ idx, idx < 512 → (stbi__fillFast fast v step fuel j).getD idx 0 =
        if j ≤ idx ∧ (idx - j) % step = 0 then v else fast.getD idx 0) := by
  intro fuel
  induction fuel with
  | zero =>
    intro fast j hf hsz
    refine ⟨hsz, ?_⟩
    intro idx hidx
    rw [stbi__fillFast, if_neg (by omega)]
  | succ f ih =>
    intro fast j hf hsz
    rw [stbi__fillFast]
    by_cases hj : j < 512
    · rw [if_pos hj]
      obtain ⟨ihs, ihg⟩ := ih (fast.setD j v) (j + step)
        (by have hm : (f + 1) * step = f * step + step := Nat.succ_mul f step; omega)
        (by rw [Array.size_setD, hsz])
      refine ⟨ihs, ?_⟩
      intro idx hidx
      rw [ihg idx hidx]
      by_cases hcl : j + step ≤ idx ∧ (idx - (j + step)) % step = 0
      · have hmod2 : (idx - j) % step = 0 := by
          rw [show idx - j = (idx - (j + step)) + step from by omega, Nat.add_mod_right]
          exact hcl.2
        rw [if_pos hcl, if_pos ⟨by omega, hmod2⟩]
      · rw [if_neg hcl]
        by_cases hij : idx = j
        · rw [hij, setD_getD_eq _ _ _ (by omega), if_pos ⟨le_refl j, by simp⟩]
        · rw [setD_getD_ne _ _ _ _ hij]
          rw [if_neg ?_]
          rintro ⟨hle, hmod⟩
          have hdvd := Nat.dvd_of_mod_eq_zero hmod
          have hsle : step ≤ idx - j := Nat.le_of_dvd (by omega) hdvd
          refine hcl ⟨by omega, ?_⟩
          obtain ⟨q, hq⟩ := hdvd
          have hq1 : 1 ≤ q := by
            rcases Nat.eq_zero_or_pos q with h0 | h0
            · subst h0
              simp at hq
              omega
            · exact h0
          obtain ⟨qq, rfl⟩ : ∃ qq, q = qq + 1 := ⟨q - 1, by omega⟩
          have hms : step * (qq + 1) = step * qq + step := Nat.mul_succ step qq
          rw [show idx - (j + step) = step * qq from by omega]
          exact Nat.mul_mod_right step qq
    · rw [if_neg hj]
      refine ⟨hsz, ?_⟩
      intro idx hidx
      rw [if_neg (by omega)]

set_option maxHeartbeats 1000000 in
theorem sym_fold_spec (lens : List Nat) (num : Nat) (sizelist : Array Nat)
    (z0 : stbi__zhuffman) (nc0 : Array Nat)
    (g : Array Nat × stbi__zhuffman → Nat → Array Nat × stbi__zhuffman)
    (hg : ∀ p i, g p i =
      (let nc := p.1
       let z := p.2
       let s := sizelist.getD i 0
       if s = 0 then p
       else
         let cidx := nc.getD s 0 - z.firstcode.getD s 0 + z.firstsymbol.getD s 0
         let fastv := (s <<< 9) ||| i
         let z := { z with size := z.size.setD cidx s, value := z.value.setD cidx i }
         let fast' := stbi__fillFast z.fast fastv (1 <<< s) 512
           (stbi__bit_reverse (nc.getD s 0) s)
         let z := if s ≤ 9 then { z with fast := fast' } else z
         (nc.setD s (nc.getD s 0 + 1), z)))
    (hcorr : ∀ i, i < num → sizelist.getD i 0 = lens.getD i 0)
    (h15 : ∀ i, i < num → lens.getD i 0 ≤ 15)
    (hnum : num ≤ 288) (hK : KraftOk lens num)
    (hfc : ∀ s, 1 ≤ s → s ≤ 15 → z0.firstcode.getD s 0 = nextCode lens num s)
    (hfs : ∀ s, 1 ≤ s → s ≤ 15 → z0.firstsymbol.getD s 0 = symBase lens num s)
    (hnc0sz : nc0.size = 16)
    (hnc0 : ∀ s, 1 ≤ s → s ≤ 15 → nc0.getD s 0 = nextCode lens num s)
    (hz0fast : z0.fast = Array.mkArray 512 0)
    (hz0size : z0.size = Array.mkArray 288 0)
    (hz0value : z0.value = Array.mkArray 288 0) :
    ∀ i, i ≤ num → SymFoldInv lens num z0 i ((List.range i).foldl g (nc0, z0)) := by
  have hg' : ∀ p i, g p i =
      (if sizelist.getD i 0 = 0 then p
       else
         (p.1.setD (sizelist.getD i 0) (p.1.getD (sizelist.getD i 0) 0 + 1),
          if sizelist.getD i 0 ≤ 9 then
            { fast := stbi__fillFast p.2.fast ((sizelist.getD i 0 <<< 9) ||| i)
                (1 <<< sizelist.getD i 0) 512
                (stbi__bit_reverse (p.1.getD (sizelist.getD i 0) 0) (sizelist.getD i 0))
              firstcode := p.2.firstcode
              maxcode := p.2.maxcode
              firstsymbol := p.2.firstsymbol
              size := p.2.size.setD (p.1.getD (sizelist.getD i 0) 0 -
                p.2.firstcode.getD (sizelist.getD i 0) 0 +
                p.2.firstsymbol.getD (sizelist.getD i 0) 0) (sizelist.getD i 0)
              value := p.2.value.setD (p.1.getD (sizelist.getD i 0) 0 -
                p.2.firstcode.getD (sizelist.getD i 0) 0 +
                p.2.firstsymbol.getD (sizelist.getD i 0) 0) i }
          else
            { fast := p.2.fast
              firstcode := p.2.firstcode
              maxcode := p.2.maxcode
              firstsymbol := p.2.firstsymbol
              size := p.2.size.setD (p.1.getD (sizelist.getD i 0) 0 -
                p.2.firstcode.getD (sizelist.getD i 0) 0 +
                p.2.firstsymbol.getD (sizelist.getD i 0) 0) (sizelist.getD i 0)
              value := p.2.value.setD (p.1.getD (sizelist.getD i 0) 0 -
                p.2.firstcode.getD (sizelist.getD i 0) 0 +
                p.2.firstsymbol.getD (sizelist.getD i 0) 0) i })) := by
    intro p i
    rw [hg]
  intro i
  induction i with
  | zero =>
    intro _
    simp only [List.range_zero, List.foldl_nil]
    refine ⟨hnc0sz, ?_, ?_, ?_, ?_, rfl, rfl, rfl, ?_, ?_, ?_⟩
    · intro s h1 h2
      simp [hnc0 s h1 h2]
    · rw [hz0fast]
      simp
    · rw [hz0size]
      simp
    · rw [hz0value]
      simp
    · intro j hj
      omega
    · intro j hj
      omega
    · intro idx hidx _
      rw [hz0fast]
      exact mkArray_getD_lt 512 idx 0 hidx
  | succ m ih =>
    intro hi
    have hm : m < num := by omega
    obtain ⟨n1, n2, f1, f2, f3, c1, c2, c3, v1, hH, hM⟩ := ih (by omega)
    rw [List.range_succ, List.foldl_append]
    simp only [List.foldl_cons, List.foldl_nil]
    set P := (List.range m).foldl g (nc0, z0) with hP
    rw [hg']
    by_cases hs0 : sizelist.getD m 0 = 0
    · rw [if_pos hs0]
      have hlm0 : lens.getD m 0 = 0 := by
        rw [← hcorr m hm]
        exact hs0
      refine ⟨n1, ?_, f1, f2, f3, c1, c2, c3, ?_, ?_, ?_⟩
      · intro s h1 h2
        rw [countP_range_succ, n2 s h1 h2,
          show decide (lens.getD m 0 = s) = false from by
            rw [hlm0]
            simp
            omega]
        simp
      · intro j hj hne
        rcases Nat.lt_or_ge j m with hjm | hjm
        · exact v1 j hjm hne
        · have hjeq : j = m := by omega
          subst hjeq
          exact absurd hlm0 hne
      · intro j hj hne hle idx hidx hmatch
        rcases Nat.lt_or_ge j m with hjm | hjm
        · exact hH j hjm hne hle idx hidx hmatch
        · have hjeq : j = m := by omega
          subst hjeq
          exact absurd hlm0 hne
      · intro idx hidx hnone
        exact hM idx hidx (fun j hj hne hle => hnone j (by omega) hne hle)
    · rw [if_neg hs0]
      rw [hcorr m hm]
      have hlne : lens.getD m 0 ≠ 0 := by
        rw [← hcorr m hm]
        exact hs0
      have h15m := h15 m hm
      have hKm := hK (lens.getD m 0) (by omega) (by omega)
      have hncv : P.1.getD (lens.getD m 0) 0 = canonCode lens num m := by
        rw [n2 _ (by omega) (by omega), canonCode, clRank_eq_countP]
      have hcidx : P.1.getD (lens.getD m 0) 0 - P.2.firstcode.getD (lens.getD m 0) 0 +
          P.2.firstsymbol.getD (lens.getD m 0) 0 =
          symBase lens num (lens.getD m 0) + clRank lens m := by
        rw [hncv, c1, c2, hfc _ (by omega) (by omega), hfs _ (by omega) (by omega), canonCode]
        omega
      rw [hcidx, hncv, Nat.one_shiftLeft,
        stbi__bit_reverse_eq_bitRev _ _ (by omega)]
      have hidxlt : symBase lens num (lens.getD m 0) + clRank lens m < num :=
        symIdx_lt lens num m hm hlne h15m
      have hj0lt : bitRev (lens.getD m 0) (canonCode lens num m) < 2 ^ lens.getD m 0 :=
        bitRev_lt _ _
      have hcP : canonCode lens num m < 2 ^ lens.getD m 0 :=
        canonCode_lt_pow lens num m hK hm h15m hlne
      by_cases hle9 : lens.getD m 0 ≤ 9
      · rw [if_pos hle9]
        obtain ⟨ffs, ffg⟩ := stbi__fillFast_spec ((lens.getD m 0 <<< 9) ||| m)
          (2 ^ lens.getD m 0) (Nat.two_pow_pos _) 512 P.2.fast
          (bitRev (lens.getD m 0) (canonCode lens num m))
          (by have h1 : 1 ≤ 2 ^ lens.getD m 0 := Nat.two_pow_pos _; omega) f1
        unfold SymFoldInv
        dsimp only
        refine ⟨?_, ?_, ffs, ?_, ?_, c1, c2, c3, ?_, ?_, ?_⟩
        · rw [Array.size_setD, n1]
        · intro s h1 h2
          rw [countP_range_succ]
          by_cases heqs : s = lens.getD m 0
          · subst heqs
            rw [setD_getD_eq _ _ _ (by rw [n1]; omega), canonCode, clRank_eq_countP]
            simp
            omega
          · rw [setD_getD_ne _ _ _ _ heqs, n2 s h1 h2,
              show decide (lens.getD m 0 = s) = false from
                decide_eq_false (fun hc => heqs hc.symm)]
            simp
        · rw [Array.size_setD, f2]
        · rw [Array.size_setD, f3]
        · intro j hj hne
          rcases Nat.lt_or_ge j m with hjm | hjm
          · have hne2 := symIdx_inj lens num j m (by omega) hm hne hlne (by omega)
            obtain ⟨o1, o2⟩ := v1 j hjm hne
            exact ⟨by rw [setD_getD_ne _ _ _ _ hne2]; exact o1,
              by rw [setD_getD_ne _ _ _ _ hne2]; exact o2⟩
          · have hjeq : j = m := by omega
            subst hjeq
            exact ⟨by rw [setD_getD_eq _ _ _ (by rw [f2]; omega)],
              by rw [setD_getD_eq _ _ _ (by rw [f3]; omega)]⟩
        · intro j hj hne hle idx hidx hmatch
          rcases Nat.lt_or_ge j m with hjm | hjm
          · rw [ffg idx hidx, if_neg ?_]
            · exact hH j hjm hne hle idx hidx hmatch
            · intro hcond
              have hmod := (mod_class_iff idx _ _ hj0lt).mp hcond
              have hje := fast_class_unique lens num hK j m idx (by omega) hm
                (h15 j (by omega)) h15m hne hlne hmatch hmod
              omega
          · have hjeq : j = m := by omega
            subst hjeq
            rw [ffg idx hidx, if_pos ((mod_class_iff idx _ _ hj0lt).mpr hmatch)]
        · intro idx hidx hnone
          rw [ffg idx hidx, if_neg ?_]
          · exact hM idx hidx (fun j hj hne hle => hnone j (by omega) hne hle)
          · intro hcond
            have hmod := (mod_class_iff idx _ _ hj0lt).mp hcond
            exact hnone m (by omega) hlne hle9 hmod
      · rw [if_neg hle9]
        unfold SymFoldInv
        dsimp only
        refine ⟨?_, ?_, f1, ?_, ?_, c1, c2, c3, ?_, ?_, ?_⟩
        · rw [Array.size_setD, n1]
        · intro s h1 h2
          rw [countP_range_succ]
          by_cases heqs : s = lens.getD m 0
          · subst heqs
            rw [setD_getD_eq _ _ _ (by rw [n1]; omega), canonCode, clRank_eq_countP]
            simp
            omega
          · rw [setD_getD_ne _ _ _ _ heqs, n2 s h1 h2,
              show decide (lens.getD m 0 = s) = false from
                decide_eq_false (fun hc => heqs hc.symm)]
            simp
        · rw [Array.size_setD, f2]
        · rw [Array.size_setD, f3]
        · intro j hj hne
          rcases Nat.lt_or_ge j m with hjm | hjm
          · have hne2 := symIdx_inj lens num j m (by omega) hm hne hlne (by omega)
            obtain ⟨o1, o2⟩ := v1 j hjm hne
            exact ⟨by rw [setD_getD_ne _ _ _ _ hne2]; exact o1,
              by rw [setD_getD_ne _ _ _ _ hne2]; exact o2⟩
          · have hjeq : j = m := by omega
            subst hjeq
            exact ⟨by rw [setD_getD_eq _ _ _ (by rw [f2]; omega)],
              by rw [setD_getD_eq _ _ _ (by rw [f3]; omega)]⟩
        · intro j hj hne hle idx hidx hmatch
          rcases Nat.lt_or_ge j m with hjm | hjm
          · exact hH j hjm hne hle idx hidx hmatch
          · have hjeq : j = m := by omega
            subst hjeq
            omega
        · intro idx hidx hnone
          exact hM idx hidx (fun j hj hne hle => hnone j (by omega) hne hle)

theorem zbuild_eq (sizelist : Array Nat) (num : Nat) :
    stbi__zbuild_huffman sizelist num =
      (if (List.range' 1 15).any
          (fun i => (zbSizes sizelist num).getD i 0 > (1 <<< i)) then none
       else if ¬(zbSt sizelist num).ok then none
       else some (zbFinal sizelist num).2) := rfl

set_option maxHeartbeats 1000000 in
theorem stbi__zbuild_huffman_spec (lens : List Nat) (num : Nat) (sizelist : Array Nat)
    (hcorr : ∀ i, i < num → sizelist.getD i 0 = lens.getD i 0)
    (h15 : ∀ i, i < num → lens.getD i 0 ≤ 15)
    (hnum : num ≤ 288) (hK : KraftOk lens num) :
    stbi__zbuild_huffman sizelist num = some (zbFinal sizelist num).2 ∧
      BuildSpec lens num (zbFinal sizelist num).2 := by
  obtain ⟨hfs_size, hfs_get⟩ := count_fold_spec (fun i => sizelist.getD i 0)
    (fun (a : Array Nat) i =>
      let s := sizelist.getD i 0
      a.setD s (a.getD s 0 + 1))
    (fun a i => rfl) num (Array.mkArray 17 0)
  have hsizes_get : ∀ t, 1 ≤ t → t ≤ 16 →
      (zbSizes sizelist num).getD t 0 = clCount lens num t := by
    intro t h1 h2
    unfold zbSizes
    rw [setD_getD_ne _ _ _ _ (by omega), hfs_get t (by simp; omega),
      mkArray_getD_lt 17 t 0 (by omega), clCount_eq_countP]
    have hcc := countP_congr_mem (List.range num)
      (fun i => decide (sizelist.getD i 0 = t)) (fun i => decide (lens.getD i 0 = t))
      (fun a ha => by
        rw [List.mem_range] at ha
        show decide (sizelist.getD a 0 = t) = decide (lens.getD a 0 = t)
        rw [hcorr a ha])
    omega
  have hstInv : StFoldInv lens num 15 (zbSt sizelist num) :=
    st_fold_spec lens num (zbSizes sizelist num)
      (fun (st : ZBuildState) i =>
        if ¬st.ok then st
        else
          let si := (zbSizes sizelist num).getD i 0
          let nc := st.next_code.setD i st.code
          let fc := st.firstcode.setD i st.code
          let fs := st.firstsymbol.setD i st.k
          let code1 := st.code + si
          let bad := si ≠ 0 ∧ code1 - 1 ≥ (1 <<< i)
          let mc := st.maxcode.setD i (code1 <<< (16 - i))
          ⟨code1 <<< 1, st.k + si, nc, fc, fs, mc, st.ok ∧ ¬bad⟩)
      (fun st i => rfl)
      (fun t ht1 ht2 => hsizes_get t ht1 (by omega)) hK 15 (le_refl 15)
  obtain ⟨hok, hcode, hkk, hs1, hs2, hs3, hs4, hget⟩ := hstInv
  have hz0fc : (zbZ0 sizelist num).firstcode = (zbSt sizelist num).firstcode := rfl
  have hz0fs : (zbZ0 sizelist num).firstsymbol = (zbSt sizelist num).firstsymbol := rfl
  have hz0mc : (zbZ0 sizelist num).maxcode =
    (zbSt sizelist num).maxcode.setD 16 0x10000 := rfl
  have hzbf : zbFinal sizelist num =
      (List.range num).foldl
        (fun (p : Array Nat × stbi__zhuffman) i =>
          let nc := p.1
          let z := p.2
          let s := sizelist.getD i 0
          if s = 0 then p
          else
            let cidx := nc.getD s 0 - z.firstcode.getD s 0 + z.firstsymbol.getD s 0
            let fastv := (s <<< 9) ||| i
            let z := { z with size := z.size.setD cidx s, value := z.value.setD cidx i }
            let fast' := stbi__fillFast z.fast fastv (1 <<< s) 512
              (stbi__bit_reverse (nc.getD s 0) s)
            let z := if s ≤ 9 then { z with fast := fast' } else z
            (nc.setD s (nc.getD s 0 + 1), z))
        ((zbSt sizelist num).next_code, zbZ0 sizelist num) := rfl
  have hsymInv : SymFoldInv lens num (zbZ0 sizelist num) num (zbFinal sizelist num) := by
    rw [hzbf]
    exact sym_fold_spec lens num sizelist (zbZ0 sizelist num) (zbSt sizelist num).next_code
      (fun (p : Array Nat × stbi__zhuffman) i =>
        let nc := p.1
        let z := p.2
        let s := sizelist.getD i 0
        if s = 0 then p
        else
          let cidx := nc.getD s 0 - z.firstcode.getD s 0 + z.firstsymbol.getD s 0
          let fastv := (s <<< 9) ||| i
          let z := { z with size := z.size.setD cidx s, value := z.value.setD cidx i }
          let fast' := stbi__fillFast z.fast fastv (1 <<< s) 512
            (stbi__bit_reverse (nc.getD s 0) s)
          let z := if s ≤ 9 then { z with fast := fast' } else z
          (nc.setD s (nc.getD s 0 + 1), z))
      (fun p i => rfl) hcorr h15 hnum hK
      (fun s hs1' hs2' => by rw [hz0fc]; exact (hget s hs1' (by omega)).2.1)
      (fun s hs1' hs2' => by rw [hz0fs]; exact (hget s hs1' (by omega)).2.2.1)
      hs1
      (fun s hs1' hs2' => (hget s hs1' (by omega)).1)
      rfl rfl rfl num (le_refl num)
  obtain ⟨n1, n2, f1, f2, f3, c1, c2, c3, v1, hH, hM⟩ := hsymInv
  have hany : (List.range' 1 15).any
      (fun i => (zbSizes sizelist num).getD i 0 > (1 <<< i)) = false := by
    rw [List.any_eq_false]
    intro i hi
    rw [List.mem_range'_1] at hi
    have hgi := hsizes_get i (by omega) (by omega)
    have hKi := hK i (by omega) (by omega)
    show ¬decide ((zbSizes sizelist num).getD i 0 > (1 <<< i)) = true
    rw [decide_eq_true_eq, hgi, Nat.one_shiftLeft]
    omega
  rw [zbuild_eq, hany, if_neg (by simp), if_neg (not_not_intro hok)]
  refine ⟨rfl, ?_⟩
  refine ⟨?_, ?_, ?_, ?_, v1, hH, hM⟩
  · intro s h1 h2
    rw [c1, hz0fc]
    exact (hget s h1 h2).2.1
  · intro s h1 h2
    rw [c3, hz0mc, setD_getD_ne _ _ _ _ (by omega)]
    exact (hget s h1 h2).2.2.2
  · rw [c3, hz0mc, setD_getD_eq _ _ _ (by rw [hs4]; omega)]
  · intro s h1 h2
    rw [c2, hz0fs]
    exact (hget s h1 h2).2.2.1

end BuildLemmas

section DecodeLemmas

theorem cb_mod_eq_bitRev (cb code len t : Nat) (ht : t ≤ len)
    (hbits : ∀ i, i < t → cb.testBit i = code.testBit (len - 1 - i)) :
    cb % 2 ^ t = bitRev t (code >>> (len - t)) := by
  apply Nat.eq_of_testBit_eq
  intro i
  rw [Nat.testBit_mod_two_pow, bitRev_testBit]
  rcases Nat.lt_or_ge i t with hi | hi
  · rw [if_pos hi, Nat.testBit_shiftRight, hbits i hi,
      show len - t + (t - 1 - i) = len - 1 - i from by omega]
    simp [hi]
  · rw [if_neg (by omega)]
    simp [show ¬i < t from by omega]

theorem bitRev16_shift (cb t : Nat) (ht : t ≤ 16) :
    bitRev 16 cb >>> (16 - t) = bitRev t cb := by
  apply Nat.eq_of_testBit_eq
  intro i
  rw [Nat.testBit_shiftRight, bitRev_testBit, bitRev_testBit]
  rcases Nat.lt_or_ge i t with hi | hi
  · rw [if_pos (by omega), if_pos hi, show 16 - 1 - (16 - t + i) = t - 1 - i from by omega]
  · rw [if_neg (by omega), if_neg (by omega)]

theorem fastv_shift (len sym : Nat) (hsym : sym < 512) :
    ((len <<< 9) ||| sym) >>> 9 = len := by
  rw [Nat.or_comm]
  apply Nat.eq_of_testBit_eq
  intro k
  rw [Nat.testBit_shiftRight, or_shift_testBit sym len 9 (by omega),
    if_neg (by omega), show 9 + k - 9 = k from by omega]

theorem fastv_mask (len sym : Nat) (hsym : sym < 512) :
    ((len <<< 9) ||| sym) &&& 511 = sym := by
  rw [Nat.or_comm, show (511 : Nat) = 2 ^ 9 - 1 from rfl,
    Nat.and_pow_two_sub_one_eq_mod]
  apply Nat.eq_of_testBit_eq
  intro k
  rw [Nat.testBit_mod_two_pow, or_shift_testBit sym len 9 (by omega)]
  rcases Nat.lt_or_ge k 9 with hk | hk
  · rw [if_pos hk]
    simp [hk]
  · have hsk : sym < 2 ^ k :=
      lt_of_lt_of_le (show sym < 2 ^ 9 from hsym) (Nat.pow_le_pow_right (by omega) hk)
    rw [if_neg (by omega), Nat.testBit_lt_two_pow hsk]
    simp [show ¬k < 9 from by omega]

theorem stbi__slowpathFind_spec (mc : Array Nat) (k target : Nat) :
    ∀ (fuel s0 : Nat), s0 ≤ target → target < s0 + fuel →
      (∀ s, s0 ≤ s → s < target → ¬k < mc.getD s 0) → k < mc.getD target 0 →
      stbi__slowpathFind mc k fuel s0 = target := by
  intro fuel
  induction fuel with
  | zero =>
    intro s0 h1 h2
    omega
  | succ f ih =>
    intro s0 h1 h2 hlow hhit
    rw [stbi__slowpathFind]
    rcases Nat.eq_or_lt_of_le h1 with heq | hlt
    · rw [if_pos (heq ▸ hhit)]
      exact heq
    · rw [if_neg (hlow s0 (le_refl s0) hlt)]
      exact ih (s0 + 1) hlt (by omega) (fun s hs1 hs2 => hlow s (by omega) hs2) hhit

theorem zhuffman_decode_slowpath_eq (a : stbi__zbuf) (z : stbi__zhuffman) :
    stbi__zhuffman_decode_slowpath a z =
      (if stbi__slowpathFind z.maxcode (stbi__bitreverse16 a.code_buffer) 7 10 = 16 then
        (-1, a)
       else
         ((z.value.getD
             (((stbi__bitreverse16 a.code_buffer >>>
                 (16 - stbi__slowpathFind z.maxcode (stbi__bitreverse16 a.code_buffer) 7 10)
                 : Nat) : Int) -
               (z.firstcode.getD
                 (stbi__slowpathFind z.maxcode (stbi__bitreverse16 a.code_buffer) 7 10) 0
                 : Int) +
               (z.firstsymbol.getD
                 (stbi__slowpathFind z.maxcode (stbi__bitreverse16 a.code_buffer) 7 10) 0
                 : Int)).toNat 0 : Int),
          { a with
            code_buffer := a.code_buffer >>>
              stbi__slowpathFind z.maxcode (stbi__bitreverse16 a.code_buffer) 7 10
            num_bits := a.num_bits -
              stbi__slowpathFind z.maxcode (stbi__bitreverse16 a.code_buffer) 7 10 })) := rfl

theorem zhuffman_decode_eq (a : stbi__zbuf) (zh : stbi__zhuffman) :
    stbi__zhuffman_decode a zh =
      (if zh.fast.getD
          ((if a.num_bits < 16 then stbi__fill_bits a else a).code_buffer &&& 511) 0 ≠ 0 then
        (((zh.fast.getD
            ((if a.num_bits < 16 then stbi__fill_bits a else a).code_buffer &&& 511) 0 &&& 511
            : Nat) : Int),
         { (if a.num_bits < 16 then stbi__fill_bits a else a) with
            code_buffer := (if a.num_bits < 16 then stbi__fill_bits a else a).code_buffer >>>
              (zh.fast.getD
                ((if a.num_bits < 16 then stbi__fill_bits a else a).code_buffer &&& 511) 0 >>> 9)
            num_bits := (if a.num_bits < 16 then stbi__fill_bits a else a).num_bits -
              (zh.fast.getD
                ((if a.num_bits < 16 then stbi__fill_bits a else a).code_buffer &&& 511) 0 >>> 9) })
       else stbi__zhuffman_decode_slowpath
         (if a.num_bits < 16 then stbi__fill_bits a else a) zh) := rfl

set_option maxHeartbeats 2000000 in
theorem stbi__zhuffman_decode_spec (s0 : Nat → Bool) (a : stbi__zbuf) (pos : Nat)
    (lens : List Nat) (num sym : Nat) (zh : stbi__zhuffman)
    (hb : BuildSpec lens num zh)
    (h : ZInv s0 a pos) (hsym : sym < num) (hnum : num ≤ 288)
    (h15 : ∀ i, i < num → lens.getD i 0 ≤ 15) (hK : KraftOk lens num)
    (hlen : lens.getD sym 0 ≠ 0)
    (hseg : SegAt s0 pos (codeBits (lens.getD sym 0) (canonCode lens num sym))) :
    (stbi__zhuffman_decode a zh).1 = (sym : Int) ∧
      ZInv s0 (stbi__zhuffman_decode a zh).2 (pos + lens.getD sym 0) ∧
      SameAux a (stbi__zhuffman_decode a zh).2 := by
  rw [zhuffman_decode_eq]
  set A := if a.num_bits < 16 then stbi__fill_bits a else a with hA
  have hready : ZInv s0 A pos ∧ 16 ≤ A.num_bits ∧ SameAux a A := by
    rw [hA]
    by_cases h16 : a.num_bits < 16
    · rw [if_pos h16]
      obtain ⟨q1, q2, q3⟩ := stbi__fill_bits_spec s0 pos a h (by omega)
      exact ⟨q1, by omega, q3⟩
    · rw [if_neg h16]
      exact ⟨h, by omega, SameAux_refl a⟩
  obtain ⟨hAinv, h16A, hAaux⟩ := hready
  have hL15 : lens.getD sym 0 ≤ 15 := h15 sym hsym
  have hcode_lt : canonCode lens num sym < 2 ^ lens.getD sym 0 :=
    canonCode_lt_pow lens num sym hK hsym hL15 hlen
  have hstream : ∀ k, k < lens.getD sym 0 →
      s0 (pos + k) = (canonCode lens num sym).testBit (lens.getD sym 0 - 1 - k) := by
    intro k hk
    have hx := hseg k (by simpa [codeBits] using hk)
    rw [hx, codeBits, map_range_getD _ _ _ _ hk]
  have hcbcode : ∀ i, i < lens.getD sym 0 →
      A.code_buffer.testBit i =
        (canonCode lens num sym).testBit (lens.getD sym 0 - 1 - i) := by
    intro i hi
    rw [hAinv.cb_bits i (by omega), hstream i hi]
  have hidx : A.code_buffer &&& 511 = A.code_buffer % 2 ^ 9 := by
    rw [show (511 : Nat) = 2 ^ 9 - 1 from rfl, Nat.and_pow_two_sub_one_eq_mod]
  have hidxlt : A.code_buffer &&& 511 < 512 := by
    rw [hidx]
    exact Nat.mod_lt _ (by norm_num)
  have hshl : ∀ t, t ≤ lens.getD sym 0 →
      canonCode lens num sym >>> (lens.getD sym 0 - t) < 2 ^ t := by
    intro t ht
    rw [Nat.shiftRight_eq_div_pow]
    apply Nat.div_lt_of_lt_mul
    rw [← pow_add]
    exact lt_of_lt_of_le hcode_lt (Nat.pow_le_pow_right (by omega) (by omega))
  by_cases hle9 : lens.getD sym 0 ≤ 9
  · have hclass : (A.code_buffer &&& 511) % 2 ^ lens.getD sym 0 =
        bitRev (lens.getD sym 0) (canonCode lens num sym) := by
      rw [hidx, Nat.mod_mod_of_dvd _ (pow_dvd_pow 2 hle9),
        cb_mod_eq_bitRev A.code_buffer (canonCode lens num sym)
          (lens.getD sym 0) (lens.getD sym 0) (le_refl _) hcbcode,
        Nat.sub_self, Nat.shiftRight_zero]
    have hfv := hb.fastHit sym hsym hlen hle9 (A.code_buffer &&& 511) hidxlt hclass
    have hsym512 : sym < 512 := by omega
    rw [hfv, fastv_shift _ _ hsym512, fastv_mask _ _ hsym512]
    have hbne : (lens.getD sym 0 <<< 9) ||| sym ≠ 0 := by
      intro h0
      have hsh := fastv_shift (lens.getD sym 0) sym hsym512
      rw [h0, Nat.zero_shiftRight] at hsh
      exact hlen hsh.symm
    rw [if_pos hbne]
    refine ⟨rfl, ?_, ?_⟩
    · exact ZInv_shift s0 A pos _ hAinv (by omega)
    · exact SameAux_trans hAaux ⟨rfl, rfl, rfl, rfl, rfl, rfl⟩
  · have hmiss : zh.fast.getD (A.code_buffer &&& 511) 0 = 0 := by
      apply hb.fastMiss _ hidxlt
      intro j hj hnej hlej hmatch
      have hclassj : (A.code_buffer &&& 511) % 2 ^ lens.getD j 0 =
          bitRev (lens.getD j 0)
            (canonCode lens num sym >>> (lens.getD sym 0 - lens.getD j 0)) := by
        rw [hidx, Nat.mod_mod_of_dvd _ (pow_dvd_pow 2 hlej)]
        exact cb_mod_eq_bitRev _ _ _ _ (by omega) (fun i hi => hcbcode i (by omega))
      rw [hmatch] at hclassj
      have hjlt : canonCode lens num j < 2 ^ lens.getD j 0 :=
        canonCode_lt_pow lens num j hK hj (h15 j hj) hnej
      have heqc := bitRev_inj _ _ _ hjlt (hshl (lens.getD j 0) (by omega)) hclassj
      exact absurd heqc.symm
        (canon_no_pref lens num hK j sym hj hsym hL15 hnej (by omega))
    rw [hmiss, if_neg (by simp), zhuffman_decode_slowpath_eq]
    have hkt : ∀ t, t ≤ lens.getD sym 0 →
        stbi__bitreverse16 A.code_buffer >>> (16 - t) =
          canonCode lens num sym >>> (lens.getD sym 0 - t) := by
      intro t ht
      rw [stbi__bitreverse16_eq_bitRev, bitRev16_shift _ t (by omega)]
      apply Nat.eq_of_testBit_eq
      intro i
      rw [bitRev_testBit, Nat.testBit_shiftRight]
      rcases Nat.lt_or_ge i t with hi | hi
      · rw [if_pos hi, hcbcode (t - 1 - i) (by omega),
          show lens.getD sym 0 - 1 - (t - 1 - i) = lens.getD sym 0 - t + i from by omega]
      · rw [if_neg (by omega)]
        have hb2 : canonCode lens num sym < 2 ^ (lens.getD sym 0 - t + i) :=
          lt_of_lt_of_le hcode_lt (Nat.pow_le_pow_right (by omega) (by omega))
        rw [Nat.testBit_lt_two_pow hb2]
    have hfind : stbi__slowpathFind zh.maxcode (stbi__bitreverse16 A.code_buffer) 7 10 =
        lens.getD sym 0 := by
      apply stbi__slowpathFind_spec zh.maxcode _ (lens.getD sym 0) 7 10 (by omega) (by omega)
      · intro s hs1 hs2
        rw [hb.mc s (by omega) (by omega), Nat.shiftLeft_eq]
        intro hcon
        have hge : (stbi__bitreverse16 A.code_buffer >>> (16 - s)) * 2 ^ (16 - s) ≤
            stbi__bitreverse16 A.code_buffer := by
          rw [Nat.shiftRight_eq_div_pow]
          exact Nat.div_mul_le_self _ _
        rw [hkt s (by omega)] at hge
        have hmono := nextCode_mono lens num s (by omega) (lens.getD sym 0) hs2 (by omega)
        have hcs : nextCode lens num (lens.getD sym 0) ≤ canonCode lens num sym := by
          rw [canonCode]
          omega
        have hdge : nextCode lens num s + clCount lens num s ≤
            canonCode lens num sym >>> (lens.getD sym 0 - s) := by
          rw [Nat.shiftRight_eq_div_pow, Nat.le_div_iff_mul_le (Nat.two_pow_pos _)]
          calc (nextCode lens num s + clCount lens num s) * 2 ^ (lens.getD sym 0 - s) ≤
              nextCode lens num (lens.getD sym 0) := hmono
          _ ≤ canonCode lens num sym := hcs
        have hmul : (nextCode lens num s + clCount lens num s) * 2 ^ (16 - s) ≤
            (canonCode lens num sym >>> (lens.getD sym 0 - s)) * 2 ^ (16 - s) :=
          Nat.mul_le_mul_right _ hdge
        linarith
      · rw [hb.mc _ (by omega) (by omega), Nat.shiftLeft_eq]
        have hdm := Nat.div_add_mod (stbi__bitreverse16 A.code_buffer)
          (2 ^ (16 - lens.getD sym 0))
        have hmodlt := Nat.mod_lt (stbi__bitreverse16 A.code_buffer)
          (Nat.two_pow_pos (16 - lens.getD sym 0))
        have hdiv : stbi__bitreverse16 A.code_buffer / 2 ^ (16 - lens.getD sym 0) =
            canonCode lens num sym := by
          rw [← Nat.shiftRight_eq_div_pow, hkt (lens.getD sym 0) (le_refl _), Nat.sub_self,
            Nat.shiftRight_zero]
        rw [hdiv] at hdm
        rw [Nat.mul_comm (2 ^ (16 - lens.getD sym 0)) (canonCode lens num sym)] at hdm
        have hcl := canonCode_lt lens num sym hsym
        have h1 : (canonCode lens num sym + 1) * 2 ^ (16 - lens.getD sym 0) ≤
            (nextCode lens num (lens.getD sym 0) + clCount lens num (lens.getD sym 0)) *
              2 ^ (16 - lens.getD sym 0) :=
          Nat.mul_le_mul_right _ (by omega)
        have h2 : stbi__bitreverse16 A.code_buffer <
            (canonCode lens num sym + 1) * 2 ^ (16 - lens.getD sym 0) := by
          rw [Nat.add_mul, one_mul]
          linarith
        exact lt_of_lt_of_le h2 h1
    rw [hfind, if_neg (by omega),
      hkt (lens.getD sym 0) (le_refl _), Nat.sub_self, Nat.shiftRight_zero,
      hb.fc (lens.getD sym 0) (by omega) (by omega),
      hb.fs (lens.getD sym 0) (by omega) (by omega)]
    have hint : (((canonCode lens num sym : Nat) : Int) -
        ((nextCode lens num (lens.getD sym 0) : Nat) : Int) +
        ((symBase lens num (lens.getD sym 0) : Nat) : Int)).toNat =
        symBase lens num (lens.getD sym 0) + clRank lens sym := by
      rw [canonCode]
      push_cast
      omega
    rw [hint, (hb.val sym hsym hlen).2]
    refine ⟨rfl, ?_, ?_⟩
    · exact ZInv_shift s0 A pos _ hAinv (by omega)
    · exact SameAux_trans hAaux ⟨rfl, rfl, rfl, rfl, rfl, rfl⟩

end DecodeLemmas

section LZLemmas

theorem ZInv_zout (s0 : Nat → Bool) (a : stbi__zbuf) (pos : Nat) (X : List Nat)
    (h : ZInv s0 a pos) : ZInv s0 { a with zout := X } pos :=
  ⟨h.cb_lt, h.nb_le, h.zpos_lb, h.zpos_ub, h.pos_eq, h.cb_bits, h.s0_bytes⟩

theorem zreceive_opt_spec (s0 : Nat → Bool) (a : stbi__zbuf) (pos n e : Nat)
    (h : ZInv s0 a pos) (hn : n ≤ 24) (he : segVal s0 pos n = e) :
    (if n ≠ 0 then stbi__zreceive a n else (0, a)).1 = e ∧
      ZInv s0 (if n ≠ 0 then stbi__zreceive a n else (0, a)).2 (pos + n) ∧
      SameAux a (if n ≠ 0 then stbi__zreceive a n else (0, a)).2 := by
  by_cases h0 : n = 0
  · rw [if_neg (by simp [h0])]
    refine ⟨?_, ?_, SameAux_refl a⟩
    · rw [← he, h0]
      simp [segVal, bitsVal]
    · show ZInv s0 a (pos + n)
      rw [h0, Nat.add_zero]
      exact h
  · rw [if_pos h0]
    obtain ⟨r1, r2, r3⟩ := stbi__zreceive_spec s0 a pos n h hn
    exact ⟨by rw [r1, he], r2, r3⟩

theorem getD_concat_length (l : List Nat) (x : Nat) : (l ++ [x]).getD l.length 0 = x := by
  rw [List.getD_eq_getElem?_getD, List.getElem?_concat_length]
  rfl

theorem matchBytes_length : ∀ (len : Nat) (prior : List Nat) (dist : Nat),
    (matchBytes prior len dist).length = len := by
  intro len
  induction len with
  | zero => intro prior dist; rfl
  | succ n ih =>
    intro prior dist
    rw [matchBytes, List.length_cons, ih]

theorem matchBytes_one : ∀ (len : Nat) (prior : List Nat),
    matchBytes prior len 1 = List.replicate len (prior.getD (prior.length - 1) 0) := by
  intro len
  induction len with
  | zero => intro prior; rfl
  | succ n ih =>
    intro prior
    rw [matchBytes, ih, List.replicate_succ]
    congr 2
    rw [List.length_append, List.length_singleton,
      show prior.length + 1 - 1 = prior.length from rfl, getD_concat_length]

theorem copyBack_eq : ∀ (n : Nat) (out : List Nat) (dist : Nat),
    stbi__copyBack n dist out = out ++ matchBytes out n dist := by
  intro n
  induction n with
  | zero =>
    intro out dist
    rw [stbi__copyBack, matchBytes, List.append_nil]
  | succ m ih =>
    intro out dist
    rw [stbi__copyBack, ih, matchBytes]
    simp

theorem LZAt_lt (s0 : Nat → Bool) (F D : List Nat) (nF nD : Nat) :
    ∀ (prior : List Nat) (pos : Nat) (out : List Nat) (endPos : Nat),
      LZAt s0 F D nF nD prior pos out endPos → pos < endPos := by
  intro prior pos out endPos h
  induction h <;> omega

theorem rfcLengthBase_ge3 : ∀ zi, zi < 29 → 3 ≤ rfcLengthBase.getD zi 0 := by decide

theorem rfcLengthExtra_le : ∀ zi, zi < 29 → rfcLengthExtra.getD zi 0 ≤ 5 := by decide

theorem rfcDistExtra_le : ∀ di, di < 30 → rfcDistExtra.getD di 0 ≤ 13 := by decide

theorem rfc_length_base_eq : stbi__zlength_base = rfcLengthBase := rfl

theorem rfc_length_extra_eq : stbi__zlength_extra = rfcLengthExtra := rfl

theorem rfc_dist_base_eq : stbi__zdist_base = rfcDistBase := rfl

theorem rfc_dist_extra_eq : stbi__zdist_extra = rfcDistExtra := rfl

theorem rfc_dezigzag_eq : stbi__length_dezigzag = rfcDezigzag := rfl

theorem parse_block_step (fuel : Nat) (a A : stbi__zbuf) (z : Int)
    (h : stbi__zhuffman_decode a a.z_length = (z, A)) :
    stbi__parse_huffman_block (fuel + 1) a =
      (if z < 256 then
        if z < 0 then none
        else
          if A.zout.length ≥ A.zout_limit then
            match stbi__zexpand A 1 with
            | none => none
            | some a' =>
              stbi__parse_huffman_block fuel { a' with zout := (a'.zout ++ [z.toNat]) }
          else stbi__parse_huffman_block fuel { A with zout := (A.zout ++ [z.toNat]) }
      else if z = 256 then some A
      else
        let zi := (z - 257).toNat
        let rl := if stbi__zlength_extra.getD zi 0 ≠ 0 then
            stbi__zreceive A (stbi__zlength_extra.getD zi 0) else (0, A)
        let len := stbi__zlength_base.getD zi 0 + rl.1
        let rd := stbi__zhuffman_decode rl.2 rl.2.z_distance
        if rd.1 < 0 then none
        else
          let di := rd.1.toNat
          let rde := if stbi__zdist_extra.getD di 0 ≠ 0 then
              stbi__zreceive rd.2 (stbi__zdist_extra.getD di 0) else (0, rd.2)
          let dist := stbi__zdist_base.getD di 0 + rde.1
          let A2 := rde.2
          if A2.zout.length < dist then none
          else
            let cont : stbi__zbuf → Option stbi__zbuf := fun b =>
              let out :=
                if dist = 1 then
                  let v := b.zout.getD (b.zout.length - dist) 0
                  if len ≠ 0 then b.zout ++ List.replicate len v else b.zout
                else
                  if len ≠ 0 then stbi__copyBack len dist b.zout else b.zout
              stbi__parse_huffman_block fuel { b with zout := out }
            if A2.zout.length + len > A2.zout_limit then
              match stbi__zexpand A2 len with
              | none => none
              | some a' => cont a'
            else cont A2) := by
  have hz : z = (stbi__zhuffman_decode a a.z_length).1 := by rw [h]
  have hA : A = (stbi__zhuffman_decode a a.z_length).2 := by rw [h]
  subst hz hA
  rfl

set_option maxHeartbeats 1600000 in
theorem parse_huffman_block_spec (s0 : Nat → Bool) (F D : List Nat) (nF nD : Nat)
    (hnF : nF ≤ 288) (hnD : nD ≤ 288) (hnF257 : 257 ≤ nF)
    (h15F : ∀ i, i < nF → F.getD i 0 ≤ 15) (h15D : ∀ i, i < nD → D.getD i 0 ≤ 15)
    (hKF : KraftOk F nF) (hKD : KraftOk D nD) :
    ∀ (prior : List Nat) (pos : Nat) (out : List Nat) (endPos : Nat),
      LZAt s0 F D nF nD prior pos out endPos →
      ∀ (fuel : Nat) (a : stbi__zbuf),
        ZInv s0 a pos → a.zout = prior →
        BuildSpec F nF a.z_length → BuildSpec D nD a.z_distance →
        prior.length + out.length ≤ a.zout_limit →
        endPos < pos + fuel →
        ∃ a', stbi__parse_huffman_block fuel a = some a' ∧
          a'.zout = prior ++ out ∧ ZInv s0 a' endPos ∧
          a'.zbuffer = a.zbuffer ∧ a'.zout_limit = a.zout_limit ∧
          a'.z_expandable = a.z_expandable := by
  intro prior pos out endPos hlz
  induction hlz with
  | eob prior pos hne hseg =>
    intro fuel a hinv hzout hbF hbD hlim hfuel
    obtain ⟨f, rfl⟩ : ∃ f, fuel = f + 1 := ⟨fuel - 1, by omega⟩
    obtain ⟨hd1, hd2, hd3⟩ := stbi__zhuffman_decode_spec s0 a pos F nF 256 a.z_length
      hbF hinv (by omega) hnF h15F hKF hne hseg
    have hpair : stbi__zhuffman_decode a a.z_length =
        (((256 : Nat) : Int), (stbi__zhuffman_decode a a.z_length).2) := by
      rw [← hd1]
    rw [parse_block_step f a _ _ hpair]
    rw [if_neg (by omega), if_pos (by omega)]
    refine ⟨(stbi__zhuffman_decode a a.z_length).2, rfl, ?_, hd2, hd3.1, hd3.2.2.1,
      hd3.2.2.2.1⟩
    rw [hd3.2.1, hzout, List.append_nil]
  | lit prior pos b rest endPos hb hne hseg hsub ih =>
    intro fuel a hinv hzout hbF hbD hlim hfuel
    have hlt := LZAt_lt s0 F D nF nD _ _ _ _ hsub
    obtain ⟨f, rfl⟩ : ∃ f, fuel = f + 1 := ⟨fuel - 1, by omega⟩
    obtain ⟨hd1, hd2, hd3⟩ := stbi__zhuffman_decode_spec s0 a pos F nF b a.z_length
      hbF hinv (by omega) hnF h15F hKF hne hseg
    have hpair : stbi__zhuffman_decode a a.z_length =
        ((b : Int), (stbi__zhuffman_decode a a.z_length).2) := by
      rw [← hd1]
    set A1 := (stbi__zhuffman_decode a a.z_length).2 with hA1
    rw [parse_block_step f a _ _ hpair]
    rw [if_pos (by omega), if_neg (by omega), if_neg (by
      rw [ge_iff_le, not_le, hd3.2.1, hd3.2.2.1, hzout]
      simp only [List.length_cons] at hlim
      omega)]
    rw [show ((b : Int)).toNat = b from by omega]
    have hinv' : ZInv s0 { A1 with zout := A1.zout ++ [b] } (pos + F.getD b 0) :=
      ZInv_zout s0 A1 _ _ hd2
    have hzout' : ({ A1 with zout := A1.zout ++ [b] } : stbi__zbuf).zout = prior ++ [b] := by
      show A1.zout ++ [b] = prior ++ [b]
      rw [hd3.2.1, hzout]
    have hbF' : BuildSpec F nF A1.z_length := by
      rw [hd3.2.2.2.2.1]; exact hbF
    have hbD' : BuildSpec D nD A1.z_distance := by
      rw [hd3.2.2.2.2.2]; exact hbD
    have hlim' : (prior ++ [b]).length + rest.length ≤ A1.zout_limit := by
      rw [hd3.2.2.1]
      simp only [List.length_cons, List.length_append, List.length_nil] at hlim ⊢
      omega
    obtain ⟨a', k1, k2, k3, k4, k5, k6⟩ := ih f { A1 with zout := A1.zout ++ [b] }
      hinv' hzout' hbF' hbD' hlim' (by omega)
    refine ⟨a', k1, ?_, k3, ?_, ?_, ?_⟩
    · rw [k2]
      simp
    · rw [k4]; exact hd3.1
    · rw [k5]; exact hd3.2.2.1
    · rw [k6]; exact hd3.2.2.2.1
  | mat prior pos zi di e de rest endPos hzi hdi hziF hdiD hneF hneD hsegF hsegE hsegD
      hsegDE hdist hwin hsub ih =>
    intro fuel a hinv hzout hbF hbD hlim hfuel
    have hlt := LZAt_lt s0 F D nF nD _ _ _ _ hsub
    obtain ⟨f, rfl⟩ : ∃ f, fuel = f + 1 := ⟨fuel - 1, by omega⟩
    obtain ⟨hd1, hd2, hd3⟩ := stbi__zhuffman_decode_spec s0 a pos F nF (257 + zi)
      a.z_length hbF hinv hziF hnF h15F hKF hneF hsegF
    have hpair : stbi__zhuffman_decode a a.z_length =
        (((257 + zi : Nat) : Int), (stbi__zhuffman_decode a a.z_length).2) := by
      rw [← hd1]
    set A1 := (stbi__zhuffman_decode a a.z_length).2 with hA1
    rw [parse_block_step f a _ _ hpair]
    rw [if_neg (by omega), if_neg (by omega)]
    dsimp only
    rw [show (((257 + zi : Nat) : Int) - 257).toNat = zi from by omega,
      rfc_length_extra_eq, rfc_length_base_eq]
    obtain ⟨he1, he2, he3⟩ := zreceive_opt_spec s0 A1 (pos + F.getD (257 + zi) 0)
      (rfcLengthExtra.getD zi 0) e hd2 (by have := rfcLengthExtra_le zi hzi; omega) hsegE
    set R1 := if rfcLengthExtra.getD zi 0 ≠ 0 then
      stbi__zreceive A1 (rfcLengthExtra.getD zi 0) else ((0 : Nat), A1) with hR1
    have hR1pair : R1 = (e, R1.2) := by rw [← he1]
    rw [hR1pair]
    dsimp only
    set A2 := R1.2 with hA2
    have hbD2 : BuildSpec D nD A2.z_distance := by
      rw [he3.2.2.2.2.2, hd3.2.2.2.2.2]; exact hbD
    obtain ⟨hg1, hg2, hg3⟩ := stbi__zhuffman_decode_spec s0 A2
      (pos + F.getD (257 + zi) 0 + rfcLengthExtra.getD zi 0) D nD di A2.z_distance
      hbD2 he2 hdiD hnD h15D hKD hneD hsegD
    have hGpair : stbi__zhuffman_decode A2 A2.z_distance =
        (((di : Nat) : Int), (stbi__zhuffman_decode A2 A2.z_distance).2) := by
      rw [← hg1]
    set A3 := (stbi__zhuffman_decode A2 A2.z_distance).2 with hA3
    rw [hGpair]
    dsimp only
    rw [if_neg (by omega), show (((di : Nat) : Int)).toNat = di from by omega,
      rfc_dist_extra_eq, rfc_dist_base_eq]
    obtain ⟨hx1, hx2, hx3⟩ := zreceive_opt_spec s0 A3
      (pos + F.getD (257 + zi) 0 + rfcLengthExtra.getD zi 0 + D.getD di 0)
      (rfcDistExtra.getD di 0) de hg2 (by have := rfcDistExtra_le di hdi; omega) hsegDE
    set R2 := if rfcDistExtra.getD di 0 ≠ 0 then
      stbi__zreceive A3 (rfcDistExtra.getD di 0) else ((0 : Nat), A3) with hR2
    have hR2pair : R2 = (de, R2.2) := by rw [← hx1]
    rw [hR2pair]
    dsimp only
    set A4 := R2.2 with hA4
    have hzout4 : A4.zout = prior := by
      rw [hx3.2.1, hg3.2.1, he3.2.1, hd3.2.1, hzout]
    have hzb4 : A4.zbuffer = a.zbuffer := by
      rw [hx3.1, hg3.1, he3.1, hd3.1]
    have hlimit4 : A4.zout_limit = a.zout_limit := by
      rw [hx3.2.2.1, hg3.2.2.1, he3.2.2.1, hd3.2.2.1]
    have hexp4 : A4.z_expandable = a.z_expandable := by
      rw [hx3.2.2.2.1, hg3.2.2.2.1, he3.2.2.2.1, hd3.2.2.2.1]
    have hzlen4 : A4.z_length = a.z_length := by
      rw [hx3.2.2.2.2.1, hg3.2.2.2.2.1, he3.2.2.2.2.1, hd3.2.2.2.2.1]
    have hzdist4 : A4.z_distance = a.z_distance := by
      rw [hx3.2.2.2.2.2, hg3.2.2.2.2.2, he3.2.2.2.2.2, hd3.2.2.2.2.2]
    have hml := matchBytes_length (rfcLengthBase.getD zi 0 + e) prior
      (rfcDistBase.getD di 0 + de)
    rw [if_neg (by rw [not_lt, hzout4]; omega)]
    rw [if_neg (by
      rw [not_lt, hzout4, hlimit4]
      simp only [List.length_append] at hlim
      omega)]
    have main : ∃ a', stbi__parse_huffman_block f { A4 with zout := (
        prior ++ matchBytes prior (rfcLengthBase.getD zi 0 + e)
          (rfcDistBase.getD di 0 + de)) } = some a' ∧
        a'.zout = prior ++ (matchBytes prior (rfcLengthBase.getD zi 0 + e)
          (rfcDistBase.getD di 0 + de) ++ rest) ∧
        ZInv s0 a' endPos ∧ a'.zbuffer = a.zbuffer ∧ a'.zout_limit = a.zout_limit ∧
        a'.z_expandable = a.z_expandable := by
      have hbF' : BuildSpec F nF A4.z_length := by rw [hzlen4]; exact hbF
      have hbD' : BuildSpec D nD A4.z_distance := by rw [hzdist4]; exact hbD
      have hlim' : (prior ++ matchBytes prior (rfcLengthBase.getD zi 0 + e)
          (rfcDistBase.getD di 0 + de)).length + rest.length ≤ A4.zout_limit := by
        rw [hlimit4]
        simp only [List.length_append] at hlim ⊢
        omega
      obtain ⟨a', k1, k2, k3, k4, k5, k6⟩ := ih f
        { A4 with zout := (prior ++ matchBytes prior (rfcLengthBase.getD zi 0 + e)
            (rfcDistBase.getD di 0 + de)) }
        (ZInv_zout s0 A4 _ _ hx2) rfl hbF' hbD' hlim' (by omega)
      refine ⟨a', k1, ?_, k3, ?_, ?_, ?_⟩
      · rw [k2, List.append_assoc]
      · rw [k4]; exact hzb4
      · rw [k5]; exact hlimit4
      · rw [k6]; exact hexp4
    have hlen0 : rfcLengthBase.getD zi 0 + e ≠ 0 := by
      have := rfcLengthBase_ge3 zi hzi; omega
    by_cases hc : rfcDistBase.getD di 0 + de = 1
    · rw [if_pos hc, if_pos hlen0]
      have houteq : A4.zout ++ List.replicate (rfcLengthBase.getD zi 0 + e)
          (A4.zout.getD (A4.zout.length - (rfcDistBase.getD di 0 + de)) 0) =
          prior ++ matchBytes prior (rfcLengthBase.getD zi 0 + e)
            (rfcDistBase.getD di 0 + de) := by
        rw [hzout4, hc, matchBytes_one]
      rw [houteq]
      exact main
    · rw [if_neg hc, if_pos hlen0]
      have houteq : stbi__copyBack (rfcLengthBase.getD zi 0 + e)
          (rfcDistBase.getD di 0 + de) A4.zout =
          prior ++ matchBytes prior (rfcLengthBase.getD zi 0 + e)
            (rfcDistBase.getD di 0 + de) := by
        rw [copyBack_eq, hzout4]
      rw [houteq]
      exact main

end LZLemmas

section DynHeaderLemmas

theorem getD_take (l : List Nat) (k j : Nat) (h : j < k) :
    (l.take k).getD j 0 = l.getD j 0 := by
  rw [List.getD_eq_getElem?_getD, List.getD_eq_getElem?_getD, List.getElem?_take, if_pos h]

theorem getD_drop (l : List Nat) (k j : Nat) : (l.drop k).getD j 0 = l.getD (k + j) 0 := by
  rw [List.getD_eq_getElem?_getD, List.getD_eq_getElem?_getD, List.getElem?_drop]

theorem getD_replicate (n v k : Nat) (h : k < n) : (List.replicate n v).getD k 0 = v := by
  rw [List.getD_eq_getElem?_getD, List.getElem?_replicate, if_pos h]
  rfl

theorem size_setD (a : Array Nat) (i v : Nat) : (a.setD i v).size = a.size := by
  unfold Array.setD
  split
  · simp
  · rfl

theorem memsetArr_succ (a : Array Nat) (start m v : Nat) :
    stbi__memsetArr a start (m + 1) v = (stbi__memsetArr a start m v).setD (start + m) v := by
  unfold stbi__memsetArr
  rw [List.range_succ, List.foldl_append, List.foldl_cons, List.foldl_nil]

theorem memsetArr_size : ∀ (cnt : Nat) (a : Array Nat) (start v : Nat),
    (stbi__memsetArr a start cnt v).size = a.size := by
  intro cnt
  induction cnt with
  | zero => intro a start v; rfl
  | succ m ih =>
    intro a start v
    rw [memsetArr_succ, size_setD]
    exact ih a start v

theorem memsetArr_getD : ∀ (cnt : Nat) (a : Array Nat) (start v j : Nat),
    (stbi__memsetArr a start cnt v).getD j 0 =
      if start ≤ j ∧ j < start + cnt ∧ j < a.size then v else a.getD j 0 := by
  intro cnt
  induction cnt with
  | zero =>
    intro a start v j
    rw [if_neg (by omega)]
    rfl
  | succ m ih =>
    intro a start v j
    rw [memsetArr_succ]
    by_cases hj : j = start + m
    · subst hj
      by_cases hsz : start + m < a.size
      · rw [setD_getD_eq _ _ _ (by rw [memsetArr_size]; omega),
          if_pos ⟨by omega, by omega, hsz⟩]
      · rw [setD_oob _ _ _ (by rw [memsetArr_size]; omega), ih,
          if_neg (by omega), if_neg (by omega)]
    · rw [setD_getD_ne _ _ _ _ hj, ih]
      by_cases hin : start ≤ j ∧ j < start + m ∧ j < a.size
      · rw [if_pos hin, if_pos ⟨hin.1, by omega, hin.2.2⟩]
      · rw [if_neg hin, if_neg (fun hc => hin ⟨hc.1, by omega, hc.2.2⟩)]

theorem dez_lt : ∀ i, i < 19 → stbi__length_dezigzag.getD i 0 < 19 := by decide

theorem dez_inj : ∀ i, i < 19 → ∀ j, j < 19 →
    stbi__length_dezigzag.getD i 0 = stbi__length_dezigzag.getD j 0 → i = j := by decide

theorem getD_last_mem (l : List Nat) (h : l ≠ []) : l.getD (l.length - 1) 0 ∈ l := by
  have hlt : l.length - 1 < l.length := by
    have := List.length_pos.mpr h
    omega
  rw [List.getD_eq_getElem l 0 hlt]
  exact List.getElem_mem hlt

theorem CLAt_bound (s0 : Nat → Bool) (C : List Nat) :
    ∀ (done : List Nat) (pos : Nat) (produced : List Nat) (endPos : Nat),
      CLAt s0 C done pos produced endPos →
      (∀ x ∈ done, x < 16) → ∀ x ∈ produced, x < 16 := by
  intro done pos produced endPos h
  induction h with
  | nil done pos =>
    intro _ x hx
    exact absurd hx (List.not_mem_nil x)
  | lit done pos v rest endPos hv hne hseg hsub ih =>
    intro hdone x hx
    rcases List.mem_cons.mp hx with rfl | hx'
    · exact hv
    · refine ih (fun y hy => ?_) x hx'
      rcases List.mem_append.mp hy with h1 | h2
      · exact hdone y h1
      · rw [List.mem_singleton.mp h2]
        exact hv
  | rep16 done pos e rest endPos hdne hne hseg hsegE hsub ih =>
    intro hdone x hx
    have hlastmem := getD_last_mem done hdne
    rcases List.mem_append.mp hx with h1 | h2
    · rw [List.eq_of_mem_replicate h1]
      exact hdone _ hlastmem
    · refine ih (fun y hy => ?_) x h2
      rcases List.mem_append.mp hy with h3 | h4
      · exact hdone y h3
      · rw [List.eq_of_mem_replicate h4]
        exact hdone _ hlastmem
  | rep17 done pos e rest endPos hne hseg hsegE hsub ih =>
    intro hdone x hx
    rcases List.mem_append.mp hx with h1 | h2
    · rw [List.eq_of_mem_replicate h1]
      omega
    · refine ih (fun y hy => ?_) x h2
      rcases List.mem_append.mp hy with h3 | h4
      · exact hdone y h3
      · rw [List.eq_of_mem_replicate h4]
        omega
  | rep18 done pos e rest endPos hne hseg hsegE hsub ih =>
    intro hdone x hx
    rcases List.mem_append.mp hx with h1 | h2
    · rw [List.eq_of_mem_replicate h1]
      omega
    · refine ih (fun y hy => ?_) x h2
      rcases List.mem_append.mp hy with h3 | h4
      · exact hdone y h3
      · rw [List.eq_of_mem_replicate h4]
        omega

theorem computeCLLoop_step (fuel n : Nat) (lencodes : Array Nat) (a : stbi__zbuf)
    (zc : stbi__zhuffman) (total : Nat) (z : Int) (A : stbi__zbuf)
    (h : stbi__zhuffman_decode a zc = (z, A)) :
    stbi__computeCLLoop (fuel + 1) n lencodes a zc total =
      (if n < total then
        if z < 0 ∨ z ≥ 19 then none
        else
          if z.toNat < 16 then
            stbi__computeCLLoop fuel (n + 1) (lencodes.setD n z.toNat) A zc total
          else if z.toNat = 16 then
            stbi__computeCLLoop fuel (n + ((stbi__zreceive A 2).1 + 3))
              (stbi__memsetArr lencodes n ((stbi__zreceive A 2).1 + 3)
                (lencodes.getD (n - 1) 0)) (stbi__zreceive A 2).2 zc total
          else if z.toNat = 17 then
            stbi__computeCLLoop fuel (n + ((stbi__zreceive A 3).1 + 3))
              (stbi__memsetArr lencodes n ((stbi__zreceive A 3).1 + 3) 0)
              (stbi__zreceive A 3).2 zc total
          else
            stbi__computeCLLoop fuel (n + ((stbi__zreceive A 7).1 + 11))
              (stbi__memsetArr lencodes n ((stbi__zreceive A 7).1 + 11) 0)
              (stbi__zreceive A 7).2 zc total
      else if n = total then some (lencodes, a) else none) := by
  have hz : z = (stbi__zhuffman_decode a zc).1 := by rw [h]
  have hA : A = (stbi__zhuffman_decode a zc).2 := by rw [h]
  subst hz hA
  rfl

theorem cl_read_fold_spec (s0 : Nat → Bool)
    (g : Array Nat × stbi__zbuf → Nat → Array Nat × stbi__zbuf)
    (hg : ∀ p i, g p i =
      (p.1.setD (stbi__length_dezigzag.getD i 0) (stbi__zreceive p.2 3).1,
        (stbi__zreceive p.2 3).2)) :
    ∀ (n : Nat) (arr : Array Nat) (a : stbi__zbuf) (p : Nat),
      n ≤ 19 → ZInv s0 a p → arr.size = 19 →
      ZInv s0 ((List.range n).foldl g (arr, a)).2 (p + 3 * n) ∧
      SameAux a ((List.range n).foldl g (arr, a)).2 ∧
      ((List.range n).foldl g (arr, a)).1.size = 19 ∧
      (∀ i, i < n → ((List.range n).foldl g (arr, a)).1.getD
        (stbi__length_dezigzag.getD i 0) 0 = segVal s0 (p + 3 * i) 3) ∧
      (∀ j, (∀ i, i < n → stbi__length_dezigzag.getD i 0 ≠ j) →
        ((List.range n).foldl g (arr, a)).1.getD j 0 = arr.getD j 0) := by
  intro n
  induction n with
  | zero =>
    intro arr a p hn hinv hsz
    refine ⟨?_, SameAux_refl a, hsz, fun i hi => absurd hi (by omega), fun j _ => rfl⟩
    show ZInv s0 a (p + 3 * 0)
    rw [Nat.mul_zero, Nat.add_zero]
    exact hinv
  | succ m ih =>
    intro arr a p hn hinv hsz
    obtain ⟨i1, i2, i3, i4, i5⟩ := ih arr a p (by omega) hinv hsz
    rw [List.range_succ, List.foldl_append, List.foldl_cons, List.foldl_nil, hg]
    dsimp only
    set P := (List.range m).foldl g (arr, a) with hP
    obtain ⟨r1, r2, r3⟩ := stbi__zreceive_spec s0 P.2 (p + 3 * m) 3 i1 (by omega)
    refine ⟨?_, SameAux_trans i2 r3, by rw [size_setD]; exact i3, ?_, ?_⟩
    · have harith : p + 3 * (m + 1) = p + 3 * m + 3 := by omega
      rw [harith]
      exact r2
    · intro i hi
      by_cases him : i = m
      · subst him
        rw [setD_getD_eq _ _ _ (by rw [i3]; exact dez_lt i (by omega)), r1]
      · rw [setD_getD_ne _ _ _ _
          (fun hc => him (dez_inj i (by omega) m (by omega) hc))]
        exact i4 i (by omega)
    · intro j hj
      rw [setD_getD_ne _ _ _ _ (fun hc => hj m (by omega) hc.symm)]
      exact i5 j (fun i hi => hj i (by omega))

set_option maxHeartbeats 1600000 in
theorem computeCLLoop_spec (s0 : Nat → Bool) (C : List Nat) (zc : stbi__zhuffman)
    (hbC : BuildSpec C 19 zc) (h15C : ∀ i, i < 19 → C.getD i 0 ≤ 15)
    (hKC : KraftOk C 19) (total : Nat) (htot : total ≤ 455) :
    ∀ (done : List Nat) (pos : Nat) (produced : List Nat) (endPos : Nat),
      CLAt s0 C done pos produced endPos →
      ∀ (fuel : Nat) (lencodes : Array Nat) (a : stbi__zbuf),
        ZInv s0 a pos →
        lencodes.size = 455 →
        done.length + produced.length = total →
        (∀ j, j < done.length → lencodes.getD j 0 = done.getD j 0) →
        produced.length < fuel →
        ∃ lc' a', stbi__computeCLLoop fuel done.length lencodes a zc total =
            some (lc', a') ∧
          lc'.size = 455 ∧
          (∀ j, j < total → lc'.getD j 0 = (done ++ produced).getD j 0) ∧
          ZInv s0 a' endPos ∧ SameAux a a' := by
  intro done pos produced endPos hcl
  induction hcl with
  | nil done pos =>
    intro fuel lencodes a hinv hsz htotal hagree hfuel
    obtain ⟨f, rfl⟩ : ∃ f, fuel = f + 1 := ⟨fuel - 1, by omega⟩
    rw [computeCLLoop_step f done.length lencodes a zc total _ _ rfl,
      if_neg (by simp only [List.length_nil] at htotal; omega),
      if_pos (by simp only [List.length_nil] at htotal; omega)]
    refine ⟨lencodes, a, rfl, hsz, ?_, hinv, SameAux_refl a⟩
    intro j hj
    rw [List.append_nil]
    exact hagree j (by simp only [List.length_nil] at htotal; omega)
  | lit done pos v rest endPos hv hne hseg hsub ih =>
    intro fuel lencodes a hinv hsz htotal hagree hfuel
    obtain ⟨f, rfl⟩ : ∃ f, fuel = f + 1 := ⟨fuel - 1, by omega⟩
    simp only [List.length_cons] at htotal hfuel
    obtain ⟨hd1, hd2, hd3⟩ := stbi__zhuffman_decode_spec s0 a pos C 19 v zc
      hbC hinv (by omega) (by omega) h15C hKC hne hseg
    have hpair : stbi__zhuffman_decode a zc =
        ((v : Int), (stbi__zhuffman_decode a zc).2) := by
      rw [← hd1]
    set A := (stbi__zhuffman_decode a zc).2 with hA
    rw [computeCLLoop_step f done.length lencodes a zc total _ _ hpair,
      if_pos (by omega), if_neg (by omega),
      show ((v : Int)).toNat = v from by omega, if_pos hv]
    have hagree' : ∀ j, j < (done ++ [v]).length →
        (lencodes.setD done.length v).getD j 0 = (done ++ [v]).getD j 0 := by
      intro j hj
      simp only [List.length_append, List.length_singleton] at hj
      by_cases hjn : j = done.length
      · subst hjn
        rw [setD_getD_eq _ _ _ (by omega), getD_concat_length]
      · rw [setD_getD_ne _ _ _ _ hjn, List.getD_append _ _ _ _ (by omega)]
        exact hagree j (by omega)
    obtain ⟨lc', a', k1, k2, k3, k4, k5⟩ := ih f (lencodes.setD done.length v) A
      hd2 (by rw [size_setD]; exact hsz)
      (by simp only [List.length_append, List.length_singleton]; omega) hagree'
      (by omega)
    rw [show done.length + 1 = (done ++ [v]).length from by simp]
    refine ⟨lc', a', k1, k2, ?_, k4, SameAux_trans hd3 k5⟩
    intro j hj
    rw [k3 j hj, List.append_assoc, List.singleton_append]
  | rep16 done pos e rest endPos hdne hne hseg hsegE hsub ih =>
    intro fuel lencodes a hinv hsz htotal hagree hfuel
    have hdpos : 0 < done.length := List.length_pos.mpr hdne
    obtain ⟨f, rfl⟩ : ∃ f, fuel = f + 1 := ⟨fuel - 1, by omega⟩
    simp only [List.length_append, List.length_replicate] at htotal hfuel
    obtain ⟨hd1, hd2, hd3⟩ := stbi__zhuffman_decode_spec s0 a pos C 19 16 zc
      hbC hinv (by omega) (by omega) h15C hKC hne hseg
    have hpair : stbi__zhuffman_decode a zc =
        (((16 : Nat) : Int), (stbi__zhuffman_decode a zc).2) := by
      rw [← hd1]
    set A := (stbi__zhuffman_decode a zc).2 with hA
    rw [computeCLLoop_step f done.length lencodes a zc total _ _ hpair,
      if_pos (by omega), if_neg (by omega),
      show (((16 : Nat) : Int)).toNat = 16 from by omega,
      if_neg (by omega), if_pos rfl]
    obtain ⟨r1, r2, r3⟩ := stbi__zreceive_spec s0 A (pos + C.getD 16 0) 2 hd2 (by omega)
    have hr1 : (stbi__zreceive A 2).1 = e := by rw [r1, hsegE]
    rw [hr1, hagree (done.length - 1) (by omega)]
    have hagree' : ∀ j, j < (done ++ List.replicate (e + 3)
        (done.getD (done.length - 1) 0)).length →
        (stbi__memsetArr lencodes done.length (e + 3)
          (done.getD (done.length - 1) 0)).getD j 0 =
        (done ++ List.replicate (e + 3) (done.getD (done.length - 1) 0)).getD j 0 := by
      intro j hj
      simp only [List.length_append, List.length_replicate] at hj
      rw [memsetArr_getD]
      by_cases hjn : j < done.length
      · rw [if_neg (by omega), List.getD_append _ _ _ _ hjn]
        exact hagree j hjn
      · rw [if_pos ⟨by omega, by omega, by omega⟩,
          List.getD_append_right _ _ _ _ (by omega), getD_replicate _ _ _ (by omega)]
    obtain ⟨lc', a', k1, k2, k3, k4, k5⟩ := ih f
      (stbi__memsetArr lencodes done.length (e + 3) (done.getD (done.length - 1) 0))
      (stbi__zreceive A 2).2 r2 (by rw [memsetArr_size]; exact hsz)
      (by simp only [List.length_append, List.length_replicate]; omega) hagree'
      (by omega)
    rw [show done.length + (e + 3) = (done ++ List.replicate (e + 3)
      (done.getD (done.length - 1) 0)).length from by simp]
    refine ⟨lc', a', k1, k2, ?_, k4, SameAux_trans hd3 (SameAux_trans r3 k5)⟩
    intro j hj
    rw [k3 j hj, List.append_assoc]
  | rep17 done pos e rest endPos hne hseg hsegE hsub ih =>
    intro fuel lencodes a hinv hsz htotal hagree hfuel
    obtain ⟨f, rfl⟩ : ∃ f, fuel = f + 1 := ⟨fuel - 1, by omega⟩
    simp only [List.length_append, List.length_replicate] at htotal hfuel
    obtain ⟨hd1, hd2, hd3⟩ := stbi__zhuffman_decode_spec s0 a pos C 19 17 zc
      hbC hinv (by omega) (by omega) h15C hKC hne hseg
    have hpair : stbi__zhuffman_decode a zc =
        (((17 : Nat) : Int), (stbi__zhuffman_decode a zc).2) := by
      rw [← hd1]
    set A := (stbi__zhuffman_decode a zc).2 with hA
    rw [computeCLLoop_step f done.length lencodes a zc total _ _ hpair,
      if_pos (by omega), if_neg (by omega),
      show (((17 : Nat) : Int)).toNat = 17 from by omega,
      if_neg (by omega), if_neg (by omega), if_pos rfl]
    obtain ⟨r1, r2, r3⟩ := stbi__zreceive_spec s0 A (pos + C.getD 17 0) 3 hd2 (by omega)
    have hr1 : (stbi__zreceive A 3).1 = e := by rw [r1, hsegE]
    rw [hr1]
    have hagree' : ∀ j, j < (done ++ List.replicate (e + 3) 0).length →
        (stbi__memsetArr lencodes done.length (e + 3) 0).getD j 0 =
        (done ++ List.replicate (e + 3) 0).getD j 0 := by
      intro j hj
      simp only [List.length_append, List.length_replicate] at hj
      rw [memsetArr_getD]
      by_cases hjn : j < done.length
      · rw [if_neg (by omega), List.getD_append _ _ _ _ hjn]
        exact hagree j hjn
      · rw [if_pos ⟨by omega, by omega, by omega⟩,
          List.getD_append_right _ _ _ _ (by omega), getD_replicate _ _ _ (by omega)]
    obtain ⟨lc', a', k1, k2, k3, k4, k5⟩ := ih f
      (stbi__memsetArr lencodes done.length (e + 3) 0)
      (stbi__zreceive A 3).2 r2 (by rw [memsetArr_size]; exact hsz)
      (by simp only [List.length_append, List.length_replicate]; omega) hagree'
      (by omega)
    rw [show done.length + (e + 3) = (done ++ List.replicate (e + 3) 0).length
      from by simp]
    refine ⟨lc', a', k1, k2, ?_, k4, SameAux_trans hd3 (SameAux_trans r3 k5)⟩
    intro j hj
    rw [k3 j hj, List.append_assoc]
  | rep18 done pos e rest endPos hne hseg hsegE hsub ih =>
    intro fuel lencodes a hinv hsz htotal hagree hfuel
    obtain ⟨f, rfl⟩ : ∃ f, fuel = f + 1 := ⟨fuel - 1, by omega⟩
    simp only [List.length_append, List.length_replicate] at htotal hfuel
    obtain ⟨hd1, hd2, hd3⟩ := stbi__zhuffman_decode_spec s0 a pos C 19 18 zc
      hbC hinv (by omega) (by omega) h15C hKC hne hseg
    have hpair : stbi__zhuffman_decode a zc =
        (((18 : Nat) : Int), (stbi__zhuffman_decode a zc).2) := by
      rw [← hd1]
    set A := (stbi__zhuffman_decode a zc).2 with hA
    rw [computeCLLoop_step f done.length lencodes a zc total _ _ hpair,
      if_pos (by omega), if_neg (by omega),
      show (((18 : Nat) : Int)).toNat = 18 from by omega,
      if_neg (by omega), if_neg (by omega), if_neg (by omega)]
    obtain ⟨r1, r2, r3⟩ := stbi__zreceive_spec s0 A (pos + C.getD 18 0) 7 hd2 (by omega)
    have hr1 : (stbi__zreceive A 7).1 = e := by rw [r1, hsegE]
    rw [hr1]
    have hagree' : ∀ j, j < (done ++ List.replicate (e + 11) 0).length →
        (stbi__memsetArr lencodes done.length (e + 11) 0).getD j 0 =
        (done ++ List.replicate (e + 11) 0).getD j 0 := by
      intro j hj
      simp only [List.length_append, List.length_replicate] at hj
      rw [memsetArr_getD]
      by_cases hjn : j < done.length
      · rw [if_neg (by omega), List.getD_append _ _ _ _ hjn]
        exact hagree j hjn
      · rw [if_pos ⟨by omega, by omega, by omega⟩,
          List.getD_append_right _ _ _ _ (by omega), getD_replicate _ _ _ (by omega)]
    obtain ⟨lc', a', k1, k2, k3, k4, k5⟩ := ih f
      (stbi__memsetArr lencodes done.length (e + 11) 0)
      (stbi__zreceive A 7).2 r2 (by rw [memsetArr_size]; exact hsz)
      (by simp only [List.length_append, List.length_replicate]; omega) hagree'
      (by omega)
    rw [show done.length + (e + 11) = (done ++ List.replicate (e + 11) 0).length
      from by simp]
    refine ⟨lc', a', k1, k2, ?_, k4, SameAux_trans hd3 (SameAux_trans r3 k5)⟩
    intro j hj
    rw [k3 j hj, List.append_assoc]

theorem ZInv_tables (s0 : Nat → Bool) (a : stbi__zbuf) (pos : Nat)
    (X Y : stbi__zhuffman) (h : ZInv s0 a pos) :
    ZInv s0 { a with z_length := X, z_distance := Y } pos :=
  ⟨h.cb_lt, h.nb_le, h.zpos_lb, h.zpos_ub, h.pos_eq, h.cb_bits, h.s0_bytes⟩

theorem compute_codes_run (a A1 A2 A3 : stbi__zbuf) (h5v d5v c4v : Nat)
    (CLSv : Array Nat × stbi__zbuf) (zc : stbi__zhuffman)
    (lc : Array Nat) (a2 : stbi__zbuf) (zl zd : stbi__zhuffman)
    (h1 : stbi__zreceive a 5 = (h5v, A1))
    (h2 : stbi__zreceive A1 5 = (d5v, A2))
    (h3 : stbi__zreceive A2 4 = (c4v, A3))
    (h4 : (List.range (c4v + 4)).foldl
        (fun (p : Array Nat × stbi__zbuf) i =>
          (p.1.setD (stbi__length_dezigzag.getD i 0) (stbi__zreceive p.2 3).1,
            (stbi__zreceive p.2 3).2))
        (Array.mkArray 19 0, A3) = CLSv)
    (h5 : stbi__zbuild_huffman CLSv.1 19 = some zc)
    (h6 : stbi__computeCLLoop 512 0 (Array.mkArray 455 0) CLSv.2 zc
        (h5v + 257 + (d5v + 1)) = some (lc, a2))
    (h7 : stbi__zbuild_huffman lc (h5v + 257) = some zl)
    (h8 : stbi__zbuild_huffman (lc.extract (h5v + 257) (h5v + 257 + (d5v + 1)))
        (d5v + 1) = some zd) :
    stbi__compute_huffman_codes a =
      some { a2 with z_length := zl, z_distance := zd } := by
  delta stbi__compute_huffman_codes
  rw [h1]
  dsimp only
  rw [h2]
  dsimp only
  rw [h3]
  dsimp only
  rw [h4, h5]
  dsimp only
  rw [h6]
  dsimp only
  rw [h7]
  dsimp only
  rw [h8]

theorem getD_lt_of_mem_lt (l : List Nat) (i : Nat) (hi : i < l.length)
    (hall : ∀ x ∈ l, x < 16) : l.getD i 0 < 16 := by
  rw [List.getD_eq_getElem l 0 hi]
  exact hall _ (List.getElem_mem hi)

set_option maxRecDepth 8000 in
set_option maxHeartbeats 1600000 in
theorem compute_huffman_codes_spec (s0 : Nat → Bool) (pos : Nat)
    (h5 d5 c4 : Nat) (C L : List Nat) (p3 : Nat) (a : stbi__zbuf)
    (hinv : ZInv s0 a pos)
    (hh5 : segVal s0 pos 5 = h5) (hd5 : segVal s0 (pos + 5) 5 = d5)
    (hc4 : segVal s0 (pos + 10) 4 = c4)
    (hlit : h5 + 257 ≤ 286) (hdist : d5 + 1 ≤ 30) (hClen : C.length = 19)
    (hCget : ∀ i, i < c4 + 4 →
      C.getD (rfcDezigzag.getD i 0) 0 = segVal s0 (pos + 14 + 3 * i) 3)
    (hCzero : ∀ j, j < 19 → (∀ i, i < c4 + 4 → rfcDezigzag.getD i 0 ≠ j) →
      C.getD j 0 = 0)
    (hKC : KraftOk C 19)
    (hCL : CLAt s0 C [] (pos + 14 + 3 * (c4 + 4)) L p3)
    (hLlen : L.length = (h5 + 257) + (d5 + 1))
    (hKF : KraftOk (L.take (h5 + 257)) (h5 + 257))
    (hKD : KraftOk (L.drop (h5 + 257)) (d5 + 1)) :
    ∃ a', stbi__compute_huffman_codes a = some a' ∧ ZInv s0 a' p3 ∧
      BuildSpec (L.take (h5 + 257)) (h5 + 257) a'.z_length ∧
      BuildSpec (L.drop (h5 + 257)) (d5 + 1) a'.z_distance ∧
      a'.zbuffer = a.zbuffer ∧ a'.zout = a.zout ∧
      a'.zout_limit = a.zout_limit ∧ a'.z_expandable = a.z_expandable := by
  obtain ⟨q1a, q1b, q1c⟩ := stbi__zreceive_spec s0 a pos 5 hinv (by omega)
  have hp1 : stbi__zreceive a 5 = (h5, (stbi__zreceive a 5).2) := by
    rw [← hh5, ← q1a]
  set R1 := (stbi__zreceive a 5).2 with hR1
  obtain ⟨q2a, q2b, q2c⟩ := stbi__zreceive_spec s0 R1 (pos + 5) 5 q1b (by omega)
  have hp2 : stbi__zreceive R1 5 = (d5, (stbi__zreceive R1 5).2) := by
    rw [← hd5, ← q2a]
  set R2 := (stbi__zreceive R1 5).2 with hR2
  have q2b' : ZInv s0 R2 (pos + 10) := by
    have h := q2b
    rwa [show pos + 5 + 5 = pos + 10 from by omega] at h
  obtain ⟨q3a, q3b, q3c⟩ := stbi__zreceive_spec s0 R2 (pos + 10) 4 q2b' (by omega)
  have hp3 : stbi__zreceive R2 4 = (c4, (stbi__zreceive R2 4).2) := by
    rw [← hc4, ← q3a]
  set R3 := (stbi__zreceive R2 4).2 with hR3
  have q3b' : ZInv s0 R3 (pos + 14) := by
    have h := q3b
    rwa [show pos + 10 + 4 = pos + 14 from by omega] at h
  have hc4lt : c4 < 16 := by
    rw [← hc4]
    exact segVal_lt s0 (pos + 10) 4
  obtain ⟨F1, F2, F3, F4, F5⟩ := cl_read_fold_spec s0
    (fun p i => (p.1.setD (stbi__length_dezigzag.getD i 0) (stbi__zreceive p.2 3).1,
      (stbi__zreceive p.2 3).2))
    (fun p i => rfl) (c4 + 4) (Array.mkArray 19 0) R3 (pos + 14) (by omega) q3b'
    (by simp)
  set CLS := (List.range (c4 + 4)).foldl
    (fun p i => (p.1.setD (stbi__length_dezigzag.getD i 0) (stbi__zreceive p.2 3).1,
      (stbi__zreceive p.2 3).2)) (Array.mkArray 19 0, R3) with hCLS
  have hcorr19 : ∀ j, j < 19 → CLS.1.getD j 0 = C.getD j 0 := by
    intro j hj
    by_cases hex : ∃ i, i < c4 + 4 ∧ stbi__length_dezigzag.getD i 0 = j
    · obtain ⟨i, hi, hij⟩ := hex
      rw [← hij, F4 i hi]
      have hcg := hCget i hi
      rw [← rfc_dezigzag_eq] at hcg
      exact hcg.symm
    · push_neg at hex
      rw [F5 j (fun i hi => hex i hi), mkArray_getD_lt 19 j 0 hj]
      refine (hCzero j hj (fun i hi => ?_)).symm
      rw [← rfc_dezigzag_eq]
      exact hex i hi
  have h15C : ∀ i, i < 19 → C.getD i 0 ≤ 15 := by
    intro i hi
    by_cases hex : ∃ k, k < c4 + 4 ∧ rfcDezigzag.getD k 0 = i
    · obtain ⟨k, hk, hki⟩ := hex
      rw [← hki, hCget k hk]
      have := segVal_lt s0 (pos + 14 + 3 * k) 3
      omega
    · push_neg at hex
      rw [hCzero i hi hex]
      omega
  obtain ⟨hzb1, hbC⟩ := stbi__zbuild_huffman_spec C 19 CLS.1 hcorr19 h15C (by omega) hKC
  have hbound := CLAt_bound s0 C [] (pos + 14 + 3 * (c4 + 4)) L p3 hCL
    (fun x hx => absurd hx (List.not_mem_nil x))
  obtain ⟨lc', a2, hloop, hsz', hvals, hinv2, haux2⟩ :=
    computeCLLoop_spec s0 C (zbFinal CLS.1 19).2 hbC h15C hKC
      (h5 + 257 + (d5 + 1)) (by omega) [] (pos + 14 + 3 * (c4 + 4)) L p3 hCL
      512 (Array.mkArray 455 0) CLS.2 F1 (by simp)
      (by simp only [List.length_nil, Nat.zero_add]; exact hLlen)
      (fun j hj => absurd hj (by simp)) (by rw [hLlen]; omega)
  simp only [List.length_nil] at hloop
  simp only [List.nil_append] at hvals
  have hLget16 : ∀ i, i < L.length → L.getD i 0 < 16 :=
    fun i hi => getD_lt_of_mem_lt L i hi hbound
  obtain ⟨hzb2, hbF⟩ := stbi__zbuild_huffman_spec (L.take (h5 + 257)) (h5 + 257) lc'
    (fun i hi => by rw [hvals i (by omega), getD_take _ _ _ hi])
    (fun i hi => by
      rw [getD_take _ _ _ hi]
      have := hLget16 i (by omega)
      omega)
    (by omega) hKF
  obtain ⟨hzb3, hbD⟩ := stbi__zbuild_huffman_spec (L.drop (h5 + 257)) (d5 + 1)
    (lc'.extract (h5 + 257) (h5 + 257 + (d5 + 1)))
    (fun i hi => by
      rw [extract_getD lc' _ _ i (by omega) (by omega), getD_drop,
        hvals (h5 + 257 + i) (by omega)])
    (fun i hi => by
      rw [getD_drop]
      have := hLget16 (h5 + 257 + i) (by omega)
      omega)
    (by omega) hKD
  rw [compute_codes_run a R1 R2 R3 h5 d5 c4 CLS (zbFinal CLS.1 19).2 lc' a2
    (zbFinal lc' (h5 + 257)).2
    (zbFinal (lc'.extract (h5 + 257) (h5 + 257 + (d5 + 1))) (d5 + 1)).2
    hp1 hp2 hp3 hCLS.symm hzb1 hloop hzb2 hzb3]
  refine ⟨_, rfl, ZInv_tables s0 a2 p3 _ _ hinv2, hbF, hbD, ?_, ?_, ?_, ?_⟩
  · exact (SameAux_trans q1c (SameAux_trans q2c (SameAux_trans q3c
      (SameAux_trans F2 haux2)))).1
  · exact (SameAux_trans q1c (SameAux_trans q2c (SameAux_trans q3c
      (SameAux_trans F2 haux2)))).2.1
  · exact (SameAux_trans q1c (SameAux_trans q2c (SameAux_trans q3c
      (SameAux_trans F2 haux2)))).2.2.1
  · exact (SameAux_trans q1c (SameAux_trans q2c (SameAux_trans q3c
      (SameAux_trans F2 haux2)))).2.2.2.1

end DynHeaderLemmas

section StoredLemmas

theorem segVal_byte (s0 : Nat → Bool) (buf : List Nat) (q : Nat)
    (hs : ∀ k, s0 k = (byteAt buf (2 + k / 8)).testBit (k % 8)) (hq : q % 8 = 0) :
    segVal s0 q 8 = byteAt buf (2 + q / 8) := by
  apply Nat.eq_of_testBit_eq
  intro i
  rcases Nat.lt_or_ge i 8 with hi | hi
  · rw [segVal_testBit s0 q 8 i hi, hs (q + i)]
    congr 1
    · congr 1
      omega
    · omega
  · have h1 : segVal s0 q 8 < 2 ^ i :=
      lt_of_lt_of_le (segVal_lt s0 q 8) (Nat.pow_le_pow_right (by omega) hi)
    have h2 : byteAt buf (2 + q / 8) < 2 ^ i :=
      lt_of_lt_of_le (byteAt_lt buf (2 + q / 8))
        (le_trans (by norm_num) (Nat.pow_le_pow_right (by omega) hi))
    rw [Nat.testBit_eq_false_of_lt h1, Nat.testBit_eq_false_of_lt h2]

theorem ZInv_advance (s0 : Nat → Bool) (a : stbi__zbuf) (p : Nat)
    (h : ZInv s0 a p) (h0 : a.num_bits = 0)
    (hzp : a.zpos < a.zbuffer.length) (heq : p = 8 * (a.zpos - 2)) :
    ZInv s0 { a with zpos := a.zpos + 1 } (p + 8) := by
  refine ⟨h.cb_lt, h.nb_le, ?_, ?_, ?_, ?_, h.s0_bytes⟩
  · show 2 ≤ a.zpos + 1
    have := h.zpos_lb
    omega
  · show a.zpos + 1 ≤ a.zbuffer.length
    omega
  · refine ⟨0, ?_, Or.inl rfl⟩
    show p + 8 + a.num_bits = 8 * (a.zpos + 1 - 2) + 8 * 0
    have := h.zpos_lb
    omega
  · intro i hi
    have hi' : i < a.num_bits := hi
    rw [h0] at hi'
    exact absurd hi' (by omega)

theorem range_map_cons (F : Nat → Nat) (m : Nat) :
    (List.range (m + 1)).map F = F 0 :: (List.range m).map (fun k => F (k + 1)) := by
  rw [List.range_succ_eq_map, List.map_cons, List.map_map]
  rfl

set_option maxHeartbeats 1600000 in
theorem drainHeader_spec (s0 : Nat → Bool) :
    ∀ (fuel : Nat) (hdr : List Nat) (a : stbi__zbuf) (p : Nat),
      ZInv s0 a p → a.num_bits % 8 = 0 → a.num_bits ≤ 8 * fuel →
      (stbi__drainHeader fuel hdr a).1 =
        hdr ++ (List.range (a.num_bits / 8)).map (fun k => segVal s0 (p + 8 * k) 8) ∧
      ZInv s0 (stbi__drainHeader fuel hdr a).2 (p + a.num_bits) ∧
      (stbi__drainHeader fuel hdr a).2.num_bits = 0 ∧
      SameAux a (stbi__drainHeader fuel hdr a).2 := by
  intro fuel
  induction fuel with
  | zero =>
    intro hdr a p hinv h8 hle
    have h0 : a.num_bits = 0 := by omega
    rw [stbi__drainHeader]
    refine ⟨?_, ?_, h0, SameAux_refl a⟩
    · show hdr = hdr ++ (List.range (a.num_bits / 8)).map (fun k => segVal s0 (p + 8 * k) 8)
      rw [h0]
      simp
    · show ZInv s0 a (p + a.num_bits)
      rw [h0, Nat.add_zero]
      exact hinv
  | succ m ih =>
    intro hdr a p hinv h8 hle
    rw [stbi__drainHeader]
    by_cases hpos : a.num_bits > 0
    · rw [if_pos hpos]
      have h8le : 8 ≤ a.num_bits := by omega
      have hbyte : a.code_buffer &&& 255 = segVal s0 p 8 := by
        have h255 : (255 : Nat) = 1 <<< 8 - 1 := by decide
        rw [h255]
        exact ZInv_take s0 a p 8 hinv h8le
      obtain ⟨i1, i2, i3, i4⟩ := ih (hdr ++ [a.code_buffer &&& 255])
        { a with code_buffer := a.code_buffer >>> 8, num_bits := a.num_bits - 8 }
        (p + 8) (ZInv_shift s0 a p 8 hinv h8le)
        (by show (a.num_bits - 8) % 8 = 0; omega)
        (by show a.num_bits - 8 ≤ 8 * m; omega)
      refine ⟨?_, ?_, i3, SameAux_trans ⟨rfl, rfl, rfl, rfl, rfl, rfl⟩ i4⟩
      · rw [i1, hbyte, List.append_assoc, List.singleton_append]
        congr 1
        have hm : a.num_bits / 8 = (a.num_bits - 8) / 8 + 1 := by omega
        rw [hm, range_map_cons]
        congr 1
        apply List.map_congr_left
        intro k _
        have harith : p + 8 * (k + 1) = p + 8 + 8 * k := by omega
        rw [harith]
      · have harith : p + 8 + (a.num_bits - 8) = p + a.num_bits := by omega
        rwa [harith] at i2
    · rw [if_neg hpos]
      have h0 : a.num_bits = 0 := by omega
      refine ⟨?_, ?_, h0, SameAux_refl a⟩
      · show hdr = hdr ++ (List.range (a.num_bits / 8)).map
          (fun k => segVal s0 (p + 8 * k) 8)
        rw [h0]
        simp
      · show ZInv s0 a (p + a.num_bits)
        rw [h0, Nat.add_zero]
        exact hinv

set_option maxHeartbeats 1600000 in
theorem fillHeader_spec (s0 : Nat → Bool) :
    ∀ (fuel : Nat) (hdr : List Nat) (a : stbi__zbuf) (p : Nat),
      ZInv s0 a p → a.num_bits = 0 →
      4 - hdr.length ≤ fuel →
      p + 8 * (4 - hdr.length) ≤ 8 * (a.zbuffer.length - 2) →
      (stbi__fillHeader fuel hdr a).1 =
        hdr ++ (List.range (4 - hdr.length)).map (fun k => segVal s0 (p + 8 * k) 8) ∧
      ZInv s0 (stbi__fillHeader fuel hdr a).2 (p + 8 * (4 - hdr.length)) ∧
      (stbi__fillHeader fuel hdr a).2.num_bits = 0 ∧
      SameAux a (stbi__fillHeader fuel hdr a).2 := by
  intro fuel
  induction fuel with
  | zero =>
    intro hdr a p hinv h0 hfl hext
    have h4 : 4 - hdr.length = 0 := by omega
    rw [stbi__fillHeader]
    refine ⟨?_, ?_, h0, SameAux_refl a⟩
    · show hdr = hdr ++ (List.range (4 - hdr.length)).map
        (fun k => segVal s0 (p + 8 * k) 8)
      rw [h4]
      simp
    · show ZInv s0 a (p + 8 * (4 - hdr.length))
      rw [h4, Nat.mul_zero, Nat.add_zero]
      exact hinv
  | succ m ih =>
    intro hdr a p hinv h0 hfl hext
    rw [stbi__fillHeader]
    by_cases hlen : hdr.length < 4
    · rw [if_pos hlen]
      obtain ⟨zf, hzf, hor⟩ := hinv.pos_eq
      rw [h0, Nat.add_zero] at hzf
      have hz2 := hinv.zpos_lb
      have hzu := hinv.zpos_ub
      have hzf0 : zf = 0 := by
        rcases hor with h | h
        · exact h
        · omega
      rw [hzf0, Nat.mul_zero, Nat.add_zero] at hzf
      have hzplt : a.zpos < a.zbuffer.length := by omega
      have hg : stbi__zget8 a = (segVal s0 p 8, { a with zpos := a.zpos + 1 }) := by
        rw [stbi__zget8, if_neg (by omega)]
        congr 1
        rw [segVal_byte s0 a.zbuffer p hinv.s0_bytes (by omega)]
        congr 1
        omega
      rw [hg]
      dsimp only
      obtain ⟨i1, i2, i3, i4⟩ := ih (hdr ++ [segVal s0 p 8])
        { a with zpos := a.zpos + 1 } (p + 8)
        (ZInv_advance s0 a p hinv h0 hzplt (by omega)) h0
        (by show 4 - (hdr ++ [segVal s0 p 8]).length ≤ m
            simp only [List.length_append, List.length_singleton]
            omega)
        (by show p + 8 + 8 * (4 - (hdr ++ [segVal s0 p 8]).length) ≤
              8 * (a.zbuffer.length - 2)
            simp only [List.length_append, List.length_singleton]
            omega)
      refine ⟨?_, ?_, i3, SameAux_trans ⟨rfl, rfl, rfl, rfl, rfl, rfl⟩ i4⟩
      · rw [i1, List.append_assoc, List.singleton_append]
        congr 1
        have hm : 4 - hdr.length = (4 - (hdr ++ [segVal s0 p 8]).length) + 1 := by
          simp only [List.length_append, List.length_singleton]
          omega
        rw [hm, range_map_cons]
        congr 1
        apply List.map_congr_left
        intro k _
        have harith : p + 8 * (k + 1) = p + 8 + 8 * k := by omega
        rw [harith]
      · have harith : p + 8 + 8 * (4 - (hdr ++ [segVal s0 p 8]).length) =
            p + 8 * (4 - hdr.length) := by
          simp only [List.length_append, List.length_singleton]
          omega
        rwa [harith] at i2
    · rw [if_neg hlen]
      have h4 : 4 - hdr.length = 0 := by omega
      refine ⟨?_, ?_, h0, SameAux_refl a⟩
      · show hdr = hdr ++ (List.range (4 - hdr.length)).map
          (fun k => segVal s0 (p + 8 * k) 8)
        rw [h4]
        simp
      · show ZInv s0 a (p + 8 * (4 - hdr.length))
        rw [h4, Nat.mul_zero, Nat.add_zero]
        exact hinv

theorem ext_getD (l1 l2 : List Nat) (hlen : l1.length = l2.length)
    (h : ∀ j, j < l1.length → l1.getD j 0 = l2.getD j 0) : l1 = l2 := by
  apply List.ext_getElem hlen
  intro j h1 h2
  have hj := h j h1
  rwa [List.getD_eq_getElem l1 0 h1, List.getD_eq_getElem l2 0 h2] at hj

theorem map_range_glue (f g : Nat → Nat) (m r : Nat)
    (hg : ∀ k, k < r → g k = f (m + k)) :
    (List.range m).map f ++ (List.range r).map g = (List.range (m + r)).map f := by
  rw [List.range_add, List.map_append, List.map_map]
  congr 1
  apply List.map_congr_left
  intro k hk
  rw [List.mem_range] at hk
  exact hg k hk

theorem parse_uncompressed_run (a A1 : stbi__zbuf) (H : List Nat) (A2 : stbi__zbuf)
    (h1 : (if a.num_bits &&& 7 ≠ 0 then (stbi__zreceive a (a.num_bits &&& 7)).2 else a)
      = A1)
    (h2 : stbi__fillHeader 4 (stbi__drainHeader 4 [] A1).1 (stbi__drainHeader 4 [] A1).2
      = (H, A2)) :
    stbi__parse_uncompressed_block a =
      (let len := H.getD 1 0 * 256 + H.getD 0 0
       let nlen := H.getD 3 0 * 256 + H.getD 2 0
       if nlen ≠ len ^^^ 0xFFFF then none
       else if A2.zpos + len > A2.zbuffer.length then none
       else
         let copy : stbi__zbuf → stbi__zbuf := fun b =>
           { b with zout := b.zout ++ ((b.zbuffer.drop b.zpos).take len).map (· % 256),
                    zpos := b.zpos + len }
         if A2.zout.length + len > A2.zout_limit then
           match stbi__zexpand A2 len with
           | none => none
           | some a' => some (copy a')
         else some (copy A2)) := by
  delta stbi__parse_uncompressed_block
  rw [h1]
  dsimp only
  rw [h2]

set_option maxHeartbeats 1600000 in
theorem parse_uncompressed_spec (s0 : Nat → Bool) (prior out : List Nat) (pos : Nat)
    (a : stbi__zbuf)
    (hinv : ZInv s0 a (pos + 2))
    (hzout : a.zout = prior)
    (hlen16 : segVal s0 (8 * ((pos + 9) / 8)) 16 = out.length)
    (hnlen16 : segVal s0 (8 * ((pos + 9) / 8) + 16) 16 = out.length ^^^ 65535)
    (hbytes : ∀ j, j < out.length →
      segVal s0 (8 * ((pos + 9) / 8) + 32 + 8 * j) 8 = out.getD j 0)
    (hlim : prior.length + out.length ≤ a.zout_limit)
    (hext : 8 * ((pos + 9) / 8) + 32 + 8 * out.length ≤ 8 * (a.zbuffer.length - 2)) :
    ∃ a', stbi__parse_uncompressed_block a = some a' ∧
      a'.zout = prior ++ out ∧
      ZInv s0 a' (8 * ((pos + 9) / 8) + 32 + 8 * out.length) ∧
      a'.zbuffer = a.zbuffer ∧ a'.zout_limit = a.zout_limit ∧
      a'.z_expandable = a.z_expandable := by
  set P := 8 * ((pos + 9) / 8) with hPdef
  obtain ⟨zf, hzf, hor⟩ := hinv.pos_eq
  have hnb := hinv.nb_le
  have hzplb := hinv.zpos_lb
  have hzpub := hinv.zpos_ub
  have hzf0 : zf = 0 := by
    rcases hor with h | h
    · exact h
    · omega
  rw [hzf0, Nat.mul_zero, Nat.add_zero] at hzf
  have h7 : a.num_bits &&& 7 = a.num_bits % 8 := by
    rw [show (7 : Nat) = 2 ^ 3 - 1 from rfl, Nat.and_pow_two_sub_one_eq_mod]
  obtain ⟨A1, hA1eq, hA1inv, hA1aux⟩ :
      ∃ A1, (if a.num_bits &&& 7 ≠ 0 then
          (stbi__zreceive a (a.num_bits &&& 7)).2 else a) = A1 ∧
        ZInv s0 A1 P ∧ SameAux a A1 := by
    by_cases hc : a.num_bits &&& 7 ≠ 0
    · obtain ⟨r1, r2, r3⟩ := stbi__zreceive_spec s0 a (pos + 2) (a.num_bits &&& 7) hinv
        (by rw [h7]; omega)
      rw [if_pos hc]
      refine ⟨_, rfl, ?_, r3⟩
      rwa [show pos + 2 + (a.num_bits &&& 7) = P from by rw [h7]; omega] at r2
    · rw [if_neg hc]
      refine ⟨a, rfl, ?_, SameAux_refl a⟩
      rw [h7] at hc
      rw [show P = pos + 2 from by omega]
      exact hinv
  have h8A1 : A1.num_bits % 8 = 0 := by
    obtain ⟨zf1, hzf1, _⟩ := hA1inv.pos_eq
    omega
  have h32A1 : A1.num_bits ≤ 32 := hA1inv.nb_le
  obtain ⟨d1, d2, d3, d4⟩ := drainHeader_spec s0 4 [] A1 P hA1inv h8A1 (by omega)
  set DH := stbi__drainHeader 4 [] A1 with hDHdef
  have hd1len : DH.1.length = A1.num_bits / 8 := by
    rw [d1]
    simp
  have hDbuf : DH.2.zbuffer = a.zbuffer := by
    rw [d4.1, hA1aux.1]
  obtain ⟨f1, f2, f3, f4⟩ := fillHeader_spec s0 4 DH.1 DH.2 (P + A1.num_bits) d2 d3
    (by rw [hd1len]; omega)
    (by rw [hd1len, hDbuf]; omega)
  set A2 := (stbi__fillHeader 4 DH.1 DH.2).2 with hA2def
  set H := (stbi__fillHeader 4 DH.1 DH.2).1 with hHdef
  have f2' : ZInv s0 A2 (P + 32) := by
    have h := f2
    rwa [show P + A1.num_bits + 8 * (4 - DH.1.length) = P + 32 from by
      rw [hd1len]; omega] at h
  obtain ⟨zf2, hzf2, hor2⟩ := f2'.pos_eq
  rw [f3, Nat.add_zero] at hzf2
  have hA2buf : A2.zbuffer = a.zbuffer := by
    rw [f4.1, hDbuf]
  have hA2zout : A2.zout = prior := by
    rw [f4.2.1, d4.2.1, hA1aux.2.1, hzout]
  have hA2lim : A2.zout_limit = a.zout_limit := by
    rw [f4.2.2.1, d4.2.2.1, hA1aux.2.2.1]
  have hA2exp : A2.z_expandable = a.z_expandable := by
    rw [f4.2.2.2.1, d4.2.2.2.1, hA1aux.2.2.2.1]
  have hz2lb := f2'.zpos_lb
  have hz2ub := f2'.zpos_ub
  have hzf20 : zf2 = 0 := by
    rcases hor2 with h | h
    · exact h
    · rw [hA2buf] at h
      omega
  rw [hzf20, Nat.mul_zero, Nat.add_zero] at hzf2
  rw [hA2buf] at hz2ub
  have hHfull : H = (List.range 4).map (fun k => segVal s0 (P + 8 * k) 8) := by
    rw [f1, d1]
    simp only [List.nil_append, List.length_map, List.length_range]
    rw [map_range_glue (fun k => segVal s0 (P + 8 * k) 8)
      (fun j => segVal s0 (P + A1.num_bits + 8 * j) 8)
      (A1.num_bits / 8) (4 - A1.num_bits / 8)
      (fun k _ => by
        show segVal s0 (P + A1.num_bits + 8 * k) 8 =
          segVal s0 (P + 8 * (A1.num_bits / 8 + k)) 8
        have harith : P + A1.num_bits + 8 * k = P + 8 * (A1.num_bits / 8 + k) := by
          omega
        rw [harith]),
      show A1.num_bits / 8 + (4 - A1.num_bits / 8) = 4 from by omega]
  have hH : ∀ k, k < 4 → H.getD k 0 = segVal s0 (P + 8 * k) 8 := by
    intro k hk
    rw [hHfull, map_range_getD _ _ _ _ hk]
  have h16a : segVal s0 P 16 = segVal s0 P 8 + 256 * segVal s0 (P + 8) 8 := by
    rw [show (16 : Nat) = 8 + 8 from rfl, segVal_split]
    norm_num
  have h16b : segVal s0 (P + 16) 16 =
      segVal s0 (P + 16) 8 + 256 * segVal s0 (P + 24) 8 := by
    rw [show (16 : Nat) = 8 + 8 from rfl, segVal_split,
      show P + 16 + 8 = P + 24 from by omega]
    norm_num
  have hlenval : H.getD 1 0 * 256 + H.getD 0 0 = out.length := by
    rw [hH 1 (by omega), hH 0 (by omega)]
    rw [h16a] at hlen16
    rw [show P + 8 * 1 = P + 8 from by omega, show P + 8 * 0 = P from by omega]
    omega
  have hnlenval : H.getD 3 0 * 256 + H.getD 2 0 = out.length ^^^ 65535 := by
    rw [hH 3 (by omega), hH 2 (by omega)]
    rw [h16b] at hnlen16
    rw [show P + 8 * 2 = P + 16 from by omega, show P + 8 * 3 = P + 24 from by omega]
    omega
  have hdata : ((a.zbuffer.drop A2.zpos).take out.length).map (· % 256) = out := by
    apply ext_getD
    · simp only [List.length_map, List.length_take, List.length_drop]
      omega
    · intro j hj
      simp only [List.length_map, List.length_take, List.length_drop] at hj
      have hjo : j < out.length := by omega
      have hb := hbytes j hjo
      rw [segVal_byte s0 a.zbuffer (P + 32 + 8 * j) hinv.s0_bytes (by omega)] at hb
      rw [show 2 + (P + 32 + 8 * j) / 8 = A2.zpos + j from by omega] at hb
      rw [← hb, List.getD_eq_getElem _ 0 (by
        simp only [List.length_map, List.length_take, List.length_drop]
        omega)]
      simp only [List.getElem_map, List.getElem_take, List.getElem_drop]
      rw [byteAt, List.getD_eq_getElem a.zbuffer 0 (by omega)]
  rw [parse_uncompressed_run a A1 H A2 hA1eq rfl]
  dsimp only
  rw [hlenval, hnlenval]
  rw [if_neg (fun h => h rfl)]
  rw [if_neg (by rw [hA2buf]; omega)]
  rw [if_neg (by rw [hA2zout, hA2lim]; omega)]
  rw [hA2buf, hdata]
  refine ⟨_, rfl, ?_, ?_, ?_, ?_, ?_⟩
  · show A2.zout ++ out = prior ++ out
    rw [hA2zout]
  · refine ⟨f2'.cb_lt, f2'.nb_le, ?_, ?_, ?_, ?_, ?_⟩
    · show 2 ≤ A2.zpos + out.length
      omega
    · show A2.zpos + out.length ≤ a.zbuffer.length
      omega
    · refine ⟨0, ?_, Or.inl rfl⟩
      show P + 32 + 8 * out.length + A2.num_bits = 8 * (A2.zpos + out.length - 2) + 8 * 0
      rw [f3]
      omega
    · intro i hi
      have hi' : i < A2.num_bits := hi
      rw [f3] at hi'
      exact absurd hi' (by omega)
    · show ∀ k, s0 k = (byteAt a.zbuffer (2 + k / 8)).testBit (k % 8)
      rw [← hA2buf]
      exact f2'.s0_bytes
  · show a.zbuffer = a.zbuffer
    rfl
  · exact hA2lim
  · exact hA2exp

end StoredLemmas

section BlockLoopLemmas

theorem CLAt_le (s0 : Nat → Bool) (C : List Nat) :
    ∀ (done : List Nat) (pos : Nat) (produced : List Nat) (endPos : Nat),
      CLAt s0 C done pos produced endPos → pos ≤ endPos := by
  intro done pos produced endPos h
  induction h <;> omega

theorem BlockBodyAt_lt (s0 : Nat → Bool) :
    ∀ (prior : List Nat) (pos : Nat) (out : List Nat) (endPos : Nat),
      BlockBodyAt s0 prior pos out endPos → pos + 2 < endPos := by
  intro prior pos out endPos h
  cases h with
  | stored hb0 hb1 hol hlen hnlen hbytes => omega
  | fixed endPos hb0 hb1 hlz =>
    have := LZAt_lt s0 fixedLitLens fixedDistLens 288 32 prior (pos + 2) out endPos hlz
    omega
  | dyn endPos hb0 hb1 hd =>
    obtain ⟨h5v, d5v, c4v, C, L, p3, hs1, hs2, hs3, hl286, hd30, hClen, hCget, hCzero,
      hKC, hCL, hLlen, hKF, hKD, hLZ⟩ := hd
    have h1 := CLAt_le s0 C [] (pos + 2 + 14 + 3 * (c4v + 4)) L p3 hCL
    have h2 := LZAt_lt s0 _ _ _ _ _ _ _ _ hLZ
    omega

set_option maxHeartbeats 1600000 in
theorem parse_zlib_go_eq (bfuel sfuel : Nat) (a A : stbi__zbuf) (fb : Nat)
    (h1 : stbi__zreceive a 1 = (fb, A)) :
    stbi__parse_zlib_go (bfuel + 1) sfuel a =
      (let rtype := stbi__zreceive A 2
       let step : Option stbi__zbuf :=
         if rtype.1 = 0 then stbi__parse_uncompressed_block rtype.2
         else if rtype.1 = 3 then none
         else
           let tbl : Option stbi__zbuf :=
             if rtype.1 = 1 then
               match stbi__zbuild_huffman stbi__zdefault_length 288 with
               | none => none
               | some zl =>
                 match stbi__zbuild_huffman stbi__zdefault_distance 32 with
                 | none => none
                 | some zd => some { rtype.2 with z_length := zl, z_distance := zd }
             else stbi__compute_huffman_codes rtype.2
           match tbl with
           | none => none
           | some a2 => stbi__parse_huffman_block sfuel a2
       match step with
       | none => none
       | some a2 => if fb ≠ 0 then some a2 else stbi__parse_zlib_go bfuel sfuel a2) := by
  have hf : fb = (stbi__zreceive a 1).1 := by rw [h1]
  have hA : A = (stbi__zreceive a 1).2 := by rw [h1]
  subst hf hA
  rfl

theorem parse_zlib_go_run0 (bfuel sfuel : Nat) (a A A2 : stbi__zbuf) (fb tv : Nat)
    (r : stbi__zbuf)
    (h1 : stbi__zreceive a 1 = (fb, A))
    (h2 : stbi__zreceive A 2 = (tv, A2))
    (h3 : tv = 0)
    (h4 : stbi__parse_uncompressed_block A2 = some r) :
    stbi__parse_zlib_go (bfuel + 1) sfuel a =
      (if fb ≠ 0 then some r else stbi__parse_zlib_go bfuel sfuel r) := by
  subst h3
  rw [parse_zlib_go_eq bfuel sfuel a A fb h1]
  dsimp only
  rw [h2]
  dsimp only
  rw [if_pos rfl, h4]

theorem parse_zlib_go_run1 (bfuel sfuel : Nat) (a A A2 : stbi__zbuf) (fb tv : Nat)
    (zl zd : stbi__zhuffman) (r : stbi__zbuf)
    (h1 : stbi__zreceive a 1 = (fb, A))
    (h2 : stbi__zreceive A 2 = (tv, A2))
    (h3 : tv = 1)
    (h4 : stbi__zbuild_huffman stbi__zdefault_length 288 = some zl)
    (h5 : stbi__zbuild_huffman stbi__zdefault_distance 32 = some zd)
    (h6 : stbi__parse_huffman_block sfuel
      { A2 with z_length := zl, z_distance := zd } = some r) :
    stbi__parse_zlib_go (bfuel + 1) sfuel a =
      (if fb ≠ 0 then some r else stbi__parse_zlib_go bfuel sfuel r) := by
  subst h3
  rw [parse_zlib_go_eq bfuel sfuel a A fb h1]
  dsimp only
  rw [h2]
  dsimp only
  rw [if_neg (by omega), if_neg (by omega), if_pos rfl, h4]
  dsimp only
  rw [h5]
  dsimp only
  rw [h6]

theorem parse_zlib_go_run2 (bfuel sfuel : Nat) (a A A2 : stbi__zbuf) (fb tv : Nat)
    (c : stbi__zbuf) (r : stbi__zbuf)
    (h1 : stbi__zreceive a 1 = (fb, A))
    (h2 : stbi__zreceive A 2 = (tv, A2))
    (h3 : tv = 2)
    (h4 : stbi__compute_huffman_codes A2 = some c)
    (h5 : stbi__parse_huffman_block sfuel c = some r) :
    stbi__parse_zlib_go (bfuel + 1) sfuel a =
      (if fb ≠ 0 then some r else stbi__parse_zlib_go bfuel sfuel r) := by
  subst h3
  rw [parse_zlib_go_eq bfuel sfuel a A fb h1]
  dsimp only
  rw [h2]
  dsimp only
  rw [if_neg (by omega), if_neg (by omega), if_neg (by omega), h4]
  dsimp only
  rw [h5]

set_option maxRecDepth 16000 in
set_option maxHeartbeats 1600000 in
theorem zdefault_length_corr :
    ∀ i, i < 288 → stbi__zdefault_length.getD i 0 = fixedLitLens.getD i 0 := by decide

set_option maxRecDepth 16000 in
theorem zdefault_distance_corr :
    ∀ i, i < 32 → stbi__zdefault_distance.getD i 0 = fixedDistLens.getD i 0 := by decide

set_option maxRecDepth 16000 in
theorem fixedLitLens_le15 : ∀ i, i < 288 → fixedLitLens.getD i 0 ≤ 15 := by decide

set_option maxRecDepth 16000 in
theorem fixedDistLens_le15 : ∀ i, i < 32 → fixedDistLens.getD i 0 ≤ 15 := by decide

set_option maxRecDepth 16000 in
set_option maxHeartbeats 1600000 in
theorem fixedLitLens_kraft : KraftOk fixedLitLens 288 := by
  show ∀ s, s < 16 → 1 ≤ s →
    nextCode fixedLitLens 288 s + clCount fixedLitLens 288 s ≤ 2 ^ s
  decide

set_option maxRecDepth 16000 in
set_option maxHeartbeats 1600000 in
theorem fixedDistLens_kraft : KraftOk fixedDistLens 32 := by
  show ∀ s, s < 16 → 1 ≤ s →
    nextCode fixedDistLens 32 s + clCount fixedDistLens 32 s ≤ 2 ^ s
  decide

theorem BlocksAt_le (s0 : Nat → Bool) :
    ∀ (prior : List Nat) (pos : Nat) (out : List Nat) (endPos : Nat),
      BlocksAt s0 prior pos out endPos → pos ≤ endPos := by
  intro prior pos out endPos h
  induction h with
  | last prior pos out endPos hf hb =>
    have := BlockBodyAt_lt s0 prior (pos + 1) out endPos hb
    omega
  | more prior pos out p2 out2 endPos hf hb hr ih =>
    have := BlockBodyAt_lt s0 prior (pos + 1) out p2 hb
    omega

set_option maxRecDepth 8000 in
set_option maxHeartbeats 3200000 in
theorem block_core (s0 : Nat → Bool) (prior out : List Nat) (p1 endB : Nat)
    (hbody : BlockBodyAt s0 prior p1 out endB) (sfuel : Nat) (A : stbi__zbuf)
    (hinv : ZInv s0 A p1) (hzout : A.zout = prior)
    (hlim : prior.length + out.length ≤ A.zout_limit)
    (hext : endB ≤ 8 * (A.zbuffer.length - 2))
    (hsf : endB < p1 + sfuel) :
    ∃ r, (∀ (bfuel fb : Nat) (a : stbi__zbuf), stbi__zreceive a 1 = (fb, A) →
        stbi__parse_zlib_go (bfuel + 1) sfuel a =
          (if fb ≠ 0 then some r else stbi__parse_zlib_go bfuel sfuel r)) ∧
      r.zout = prior ++ out ∧ ZInv s0 r endB ∧
      r.zbuffer = A.zbuffer ∧ r.zout_limit = A.zout_limit ∧
      r.z_expandable = A.z_expandable := by
  obtain ⟨t1, t2, t3⟩ := stbi__zreceive_spec s0 A p1 2 hinv (by omega)
  set A2 := (stbi__zreceive A 2).2 with hA2def
  cases hbody with
  | stored hb0 hb1 hol hlen hnlen hbytes =>
    have h2v : segVal s0 p1 2 = 0 := by
      rw [show (2 : Nat) = 1 + 1 from rfl, segVal_split, segVal_one, segVal_one,
        hb0, hb1]
      norm_num
    have hpt : stbi__zreceive A 2 = (0, A2) := by
      have heta : stbi__zreceive A 2 = ((stbi__zreceive A 2).1, A2) := rfl
      nth_rewrite 1 [heta]
      rw [t1, h2v]
    obtain ⟨r, hunc, hz, hi, hb, hl, he⟩ := parse_uncompressed_spec s0 prior out p1 A2
      t2 (by rw [t3.2.1, hzout]) hlen hnlen hbytes
      (by rw [t3.2.2.1]; exact hlim) (by rw [t3.1]; exact hext)
    refine ⟨r, ?_, hz, hi, ?_, ?_, ?_⟩
    · intro bfuel fb a h1
      exact parse_zlib_go_run0 bfuel sfuel a A A2 fb 0 r h1 hpt rfl hunc
    · rw [hb, t3.1]
    · rw [hl, t3.2.2.1]
    · rw [he, t3.2.2.2.1]
  | fixed _e hb0 hb1 hlz =>
    have h2v : segVal s0 p1 2 = 1 := by
      rw [show (2 : Nat) = 1 + 1 from rfl, segVal_split, segVal_one, segVal_one,
        hb0, hb1]
      norm_num
    have hpt : stbi__zreceive A 2 = (1, A2) := by
      have heta : stbi__zreceive A 2 = ((stbi__zreceive A 2).1, A2) := rfl
      nth_rewrite 1 [heta]
      rw [t1, h2v]
    obtain ⟨hzl_eq, hzl_spec⟩ := stbi__zbuild_huffman_spec fixedLitLens 288
      stbi__zdefault_length zdefault_length_corr fixedLitLens_le15 (by omega)
      fixedLitLens_kraft
    obtain ⟨hzd_eq, hzd_spec⟩ := stbi__zbuild_huffman_spec fixedDistLens 32
      stbi__zdefault_distance zdefault_distance_corr fixedDistLens_le15 (by omega)
      fixedDistLens_kraft
    obtain ⟨r, hpb, hz, hi, hb, hl, he⟩ := parse_huffman_block_spec s0
      fixedLitLens fixedDistLens 288 32 (by omega) (by omega) (by omega)
      fixedLitLens_le15 fixedDistLens_le15 fixedLitLens_kraft fixedDistLens_kraft
      prior (p1 + 2) out endB hlz sfuel
      { A2 with
          z_length := (zbFinal stbi__zdefault_length 288).2
          z_distance := (zbFinal stbi__zdefault_distance 32).2 }
      (ZInv_tables s0 A2 (p1 + 2) _ _ t2)
      (by show A2.zout = prior; rw [t3.2.1, hzout])
      hzl_spec hzd_spec
      (by show prior.length + out.length ≤ A2.zout_limit
          rw [t3.2.2.1]; exact hlim)
      (by omega)
    refine ⟨r, ?_, hz, hi, ?_, ?_, ?_⟩
    · intro bfuel fb a h1
      exact parse_zlib_go_run1 bfuel sfuel a A A2 fb 1
        (zbFinal stbi__zdefault_length 288).2 (zbFinal stbi__zdefault_distance 32).2
        r h1 hpt rfl hzl_eq hzd_eq hpb
    · rw [hb]
      show A2.zbuffer = A.zbuffer
      rw [t3.1]
    · rw [hl]
      show A2.zout_limit = A.zout_limit
      rw [t3.2.2.1]
    · rw [he]
      show A2.z_expandable = A.z_expandable
      rw [t3.2.2.2.1]
  | dyn _e hb0 hb1 hd =>
    have h2v : segVal s0 p1 2 = 2 := by
      rw [show (2 : Nat) = 1 + 1 from rfl, segVal_split, segVal_one, segVal_one,
        hb0, hb1]
      norm_num
    have hpt : stbi__zreceive A 2 = (2, A2) := by
      have heta : stbi__zreceive A 2 = ((stbi__zreceive A 2).1, A2) := rfl
      nth_rewrite 1 [heta]
      rw [t1, h2v]
    obtain ⟨h5v, d5v, c4v, C, L, p3, hs1, hs2, hs3, hl286, hd30, hClen, hCget, hCzero,
      hKC, hCL, hLlen, hKF, hKD, hLZ⟩ := hd
    obtain ⟨c, hcomp, hinvc, hbFc, hbDc, hcb, hcz, hclim, hcexp⟩ :=
      compute_huffman_codes_spec s0 (p1 + 2) h5v d5v c4v C L p3 A2 t2 hs1 hs2 hs3
        hl286 hd30 hClen hCget hCzero hKC hCL hLlen hKF hKD
    have hbound := CLAt_bound s0 C [] (p1 + 2 + 14 + 3 * (c4v + 4)) L p3 hCL
      (fun x hx => absurd hx (List.not_mem_nil x))
    have h15F : ∀ i, i < h5v + 257 → (L.take (h5v + 257)).getD i 0 ≤ 15 := by
      intro i hi
      rw [getD_take _ _ _ hi]
      have := getD_lt_of_mem_lt L i (by omega) hbound
      omega
    have h15D : ∀ i, i < d5v + 1 → (L.drop (h5v + 257)).getD i 0 ≤ 15 := by
      intro i hi
      rw [getD_drop]
      have := getD_lt_of_mem_lt L (h5v + 257 + i) (by omega) hbound
      omega
    have hple := CLAt_le s0 C [] (p1 + 2 + 14 + 3 * (c4v + 4)) L p3 hCL
    obtain ⟨r, hpb, hz, hi, hb, hl, he⟩ := parse_huffman_block_spec s0
      (L.take (h5v + 257)) (L.drop (h5v + 257)) (h5v + 257) (d5v + 1)
      (by omega) (by omega) (by omega) h15F h15D hKF hKD
      prior p3 out endB hLZ sfuel c hinvc
      (by rw [hcz, t3.2.1, hzout])
      hbFc hbDc
      (by rw [hclim, t3.2.2.1]; exact hlim)
      (by omega)
    refine ⟨r, ?_, hz, hi, ?_, ?_, ?_⟩
    · intro bfuel fb a h1
      exact parse_zlib_go_run2 bfuel sfuel a A A2 fb 2 c r h1 hpt rfl hcomp hpb
    · rw [hb, hcb, t3.1]
    · rw [hl, hclim, t3.2.2.1]
    · rw [he, hcexp, t3.2.2.2.1]

set_option maxHeartbeats 1600000 in
theorem parse_zlib_go_spec (s0 : Nat → Bool) :
    ∀ (prior : List Nat) (pos : Nat) (out : List Nat) (endPos : Nat),
      BlocksAt s0 prior pos out endPos →
      ∀ (bfuel sfuel : Nat) (a : stbi__zbuf),
        ZInv s0 a pos → a.zout = prior →
        prior.length + out.length ≤ a.zout_limit →
        endPos ≤ 8 * (a.zbuffer.length - 2) →
        endPos + 3 ≤ pos + 3 * bfuel →
        endPos < pos + sfuel →
        ∃ a', stbi__parse_zlib_go bfuel sfuel a = some a' ∧
          a'.zout = prior ++ out ∧ ZInv s0 a' endPos ∧
          a'.zbuffer = a.zbuffer ∧ a'.zout_limit = a.zout_limit ∧
          a'.z_expandable = a.z_expandable := by
  intro prior pos out endPos hbl
  induction hbl with
  | last prior pos out endPos hfin hbody =>
    intro bfuel sfuel a hinv hzout hlim hext hbf hsf
    have hblt := BlockBodyAt_lt s0 prior (pos + 1) out endPos hbody
    obtain ⟨bf, rfl⟩ : ∃ bf, bfuel = bf + 1 := ⟨bfuel - 1, by omega⟩
    obtain ⟨q1, q2, q3⟩ := stbi__zreceive_spec s0 a pos 1 hinv (by omega)
    set A := (stbi__zreceive a 1).2 with hAdef
    have hfbv : (stbi__zreceive a 1).1 = 1 := by
      rw [q1, segVal_one, hfin]
      rfl
    have hp1 : stbi__zreceive a 1 = (1, A) := by
      have heta : stbi__zreceive a 1 = ((stbi__zreceive a 1).1, A) := rfl
      nth_rewrite 1 [heta]
      rw [hfbv]
    obtain ⟨r, hrun, hz, hi, hb, hl, he⟩ := block_core s0 prior out (pos + 1) endPos
      hbody sfuel A q2 (by rw [q3.2.1, hzout]) (by rw [q3.2.2.1]; exact hlim)
      (by rw [q3.1]; exact hext) (by omega)
    rw [hrun bf 1 a hp1, if_pos (by omega)]
    refine ⟨r, rfl, hz, hi, ?_, ?_, ?_⟩
    · rw [hb, q3.1]
    · rw [hl, q3.2.2.1]
    · rw [he, q3.2.2.2.1]
  | more prior pos out p2 out2 endPos hfin hbody hrest ih =>
    intro bfuel sfuel a hinv hzout hlim hext hbf hsf
    have hblt := BlockBodyAt_lt s0 prior (pos + 1) out p2 hbody
    have hble := BlocksAt_le s0 (prior ++ out) p2 out2 endPos hrest
    obtain ⟨bf, rfl⟩ : ∃ bf, bfuel = bf + 1 := ⟨bfuel - 1, by omega⟩
    obtain ⟨q1, q2, q3⟩ := stbi__zreceive_spec s0 a pos 1 hinv (by omega)
    set A := (stbi__zreceive a 1).2 with hAdef
    have hfbv : (stbi__zreceive a 1).1 = 0 := by
      rw [q1, segVal_one, hfin]
      rfl
    have hp1 : stbi__zreceive a 1 = (0, A) := by
      have heta : stbi__zreceive a 1 = ((stbi__zreceive a 1).1, A) := rfl
      nth_rewrite 1 [heta]
      rw [hfbv]
    obtain ⟨r, hrun, hz, hi, hb, hl, he⟩ := block_core s0 prior out (pos + 1) p2
      hbody sfuel A q2 (by rw [q3.2.1, hzout])
      (by rw [q3.2.2.1]
          simp only [List.length_append] at hlim ⊢
          omega)
      (by rw [q3.1]; omega) (by omega)
    rw [hrun bf 0 a hp1, if_neg (by omega)]
    obtain ⟨a', k1, k2, k3, k4, k5, k6⟩ := ih bf sfuel r hi hz
      (by rw [hl, q3.2.2.1]
          simp only [List.length_append] at hlim ⊢
          omega)
      (by rw [hb, q3.1]; omega)
      (by omega) (by omega)
    refine ⟨a', k1, ?_, k3, ?_, ?_, ?_⟩
    · rw [k2, List.append_assoc]
    · rw [k4, hb, q3.1]
    · rw [k5, hl, q3.2.2.1]
    · rw [k6, he, q3.2.2.2.1]

end BlockLoopLemmas

/-! ## Claim theorems -/

/-- C6 (counterexample): decoding the layer depth sequence `[0,1,1,2,0]`
does not produce the parent indices `[-1,0,0,1,-1]` stated by the claim
(the fourth layer is parented at the last-created layer, index 2). -/
theorem C6_counterexample :
    (decodeLayerSeq [0, 1, 1, 2, 0]).layers.map (fun L => L.parent) ≠
      [-1, 0, 0, 1, -1] := by decide

/-- C6 (amended): decoding five Image-kind layer chunks whose depth fields
are `[0,1,1,2,0]` produces five layers whose parent indices are
`[-1,0,0,2,-1]`. -/
theorem C6_layer_parents :
    (decodeLayerSeq [0, 1, 1, 2, 0]).layers.map (fun L => L.parent) =
      [-1, 0, 0, 2, -1] := by decide

/-- C4 (counterexample): on the tag `{from=2, to=5, PingPong}` at current
index -1, `ASE_get_next_frame` returns 0, while the claim's next-frame
function (reset only when `to + value` falls below `from`) returns -2. -/
theorem C4_counterexample :
    ASE_get_next_frame ⟨2, 5, 2, []⟩ (-1) ≠ specNextFrameClaim ⟨2, 5, 2, []⟩ (-1) := by
  decide

/-- C4 (amended): `ASE_get_next_frame` computes the amended next-frame
function — identical to the claim's except that the negative-PingPong reset
to 0 happens exactly when the decremented value itself is below `from` —
and the three concrete examples of the claim hold. -/
theorem C4_next_frame :
    (∀ (tag : ASE_Tag) (frame : Int),
      ASE_get_next_frame tag frame = specNextFrameAmended tag frame) ∧
    ASE_get_next_frame ⟨2, 5, 0, []⟩ 5 = 2 ∧
    ASE_get_next_frame ⟨2, 5, 1, []⟩ 2 = 5 ∧
    ASE_get_next_frame ⟨3, 3, 2, []⟩ 3 = 0 := by
  refine ⟨fun tag frame => ?_, by decide, by decide, by decide⟩
  simp only [ASE_get_next_frame, specNextFrameAmended, ASE_LOOP_FORWARD,
    ASE_LOOP_REVERSE, ASE_LOOP_PINGPONG, Nat.cast_ofNat, Nat.cast_zero, Nat.cast_one]
  split_ifs <;> omega

/-- C2 (code evaluation at the failing input): applying the palette chunk
`from=5, to=7` with colors `[(1,2,3,4),(5,6,7,8),(9,10,11,12)]` to a zeroed
palette stores the swapped colors at indices 0..2 (the running color count),
leaves entries 5..7 zero, and sets the live color count to 3 — not to at
least 8 as the claim requires. -/
theorem C2_palette_eval :
    (ASE_Palette_read ⟨C2bytes, 0⟩ ASE_Palette.zero).1.ncolors = 3 ∧
    (ASE_Palette_read ⟨C2bytes, 0⟩ ASE_Palette.zero).1.colors.getD 0 ASE_Pixel32.zero =
      ⟨3, 2, 1, 4⟩ ∧
    (ASE_Palette_read ⟨C2bytes, 0⟩ ASE_Palette.zero).1.colors.getD 1 ASE_Pixel32.zero =
      ⟨7, 6, 5, 8⟩ ∧
    (ASE_Palette_read ⟨C2bytes, 0⟩ ASE_Palette.zero).1.colors.getD 2 ASE_Pixel32.zero =
      ⟨11, 10, 9, 12⟩ ∧
    (ASE_Palette_read ⟨C2bytes, 0⟩ ASE_Palette.zero).1.colors.getD 5 ASE_Pixel32.zero =
      ASE_Pixel32.zero ∧
    (ASE_Palette_read ⟨C2bytes, 0⟩ ASE_Palette.zero).1.colors.getD 6 ASE_Pixel32.zero =
      ASE_Pixel32.zero ∧
    (ASE_Palette_read ⟨C2bytes, 0⟩ ASE_Palette.zero).1.colors.getD 7 ASE_Pixel32.zero =
      ASE_Pixel32.zero := by decide

/-- C3 (code evaluation at the failing input): on a document whose header
magic is 0 and whose frame count is 1, the header reader reports failure,
yet `ASE__decode_main` returns success (its result is initialized to 1 and
never cleared; the header result is only asserted) and still constructs one
frame. -/
theorem C3_bad_magic_eval :
    (ASE_DOC_Header_read ⟨C3bytes, 0⟩).1 = false ∧
    (ASE_DOC_Header_read ⟨C3bytes, 0⟩).2.1.magic ≠ ASE_FILE_MAGIC ∧
    (ASE__decode_main C3bytes).2 = true ∧
    (ASE__decode_main C3bytes).1.frames.length = 1 := by decide

/-- C7: the resynchronization invariant.  For every byte source and every
builder behavior (the builder may move the cursor anywhere), the positions
at which the assembler reads chunk headers are exactly the canonical ones
determined by each chunk's start plus its declared size, and likewise for
frame headers; moreover the concrete chunk and frame steps of
`ASE__decode_main` leave the cursor at start-plus-declared-size. -/
theorem C7_resync_invariant :
    (∀ (buf : List Nat) (builder : Nat → Nat → Nat → Nat) (n p : Nat),
      ASE__chunkWalkTrace buf builder n p = chunkPosIter buf n p) ∧
    (∀ (buf : List Nat) (builder : Nat → Nat → Nat → Nat) (n p : Nat),
      ASE__frameWalkTrace buf builder n p = framePosIter buf n p) ∧
    (∀ (buf : List Nat) (st : ASE__DecodeState),
      (ASE__doChunk buf st).pos = st.pos + (ASE__read32 ⟨buf, st.pos⟩).1) ∧
    (∀ (buf : List Nat) (st : ASE__DecodeState),
      (ASE__frameStep buf st).pos =
        st.pos + (ASE_FrameHeader_read ⟨buf, st.pos⟩).1.size) := by
  refine ⟨?_, ?_, ?_, ?_⟩
  · intro buf builder n
    induction n with
    | zero => intro p; rfl
    | succ m ih => intro p; simp only [ASE__chunkWalkTrace, chunkPosIter, ih]
  · intro buf builder n
    induction n with
    | zero => intro p; rfl
    | succ m ih => intro p; simp only [ASE__frameWalkTrace, framePosIter, ih]
  · intro buf st; rfl
  · intro buf st; rfl

/-- C10: `ASE_free` hands every owned layer name, cel pixel buffer, tag
name, and each of the layer/cel/frame/tag arrays to the deallocator, leaves
the sprite with every field zeroed, and applying it again to the zeroed
sprite leaves the sprite state unchanged. -/
theorem C10_free_idempotent (s : ASE_Sprite) :
    (ASE_free s).2 = ASE_Sprite.zero ∧
    (∀ L ∈ s.layers, ASE_FreeEvent.layerName L.name ∈ (ASE_free s).1) ∧
    (∀ F ∈ s.frames, ∀ J ∈ F.cels, ASE_FreeEvent.celData J.data ∈ (ASE_free s).1) ∧
    (∀ F ∈ s.frames, ASE_FreeEvent.celsArray F.cels ∈ (ASE_free s).1) ∧
    (∀ T ∈ s.tags, ASE_FreeEvent.tagName T.name ∈ (ASE_free s).1) ∧
    ASE_FreeEvent.layersArray s.layers ∈ (ASE_free s).1 ∧
    ASE_FreeEvent.framesArray s.frames ∈ (ASE_free s).1 ∧
    ASE_FreeEvent.tagsArray s.tags ∈ (ASE_free s).1 ∧
    (ASE_free (ASE_free s).2).2 = (ASE_free s).2 := by
  refine ⟨rfl, ?_, ?_, ?_, ?_, ?_, ?_, ?_, rfl⟩
  · intro L hL
    exact List.mem_append_left _ (List.mem_append_left _ (List.mem_append_left _
      (List.mem_append_left _ (List.mem_append_left _ (List.mem_map.mpr ⟨L, hL, rfl⟩)))))
  · intro F hF J hJ
    have hfl : ASE_FreeEvent.celData J.data ∈
        (s.frames.map (fun I =>
          (I.cels.map (fun J => ASE_FreeEvent.celData J.data)) ++
            [ASE_FreeEvent.celsArray I.cels])).flatten :=
      List.mem_flatten.mpr ⟨_, List.mem_map.mpr ⟨F, hF, rfl⟩,
        List.mem_append_left _ (List.mem_map.mpr ⟨J, hJ, rfl⟩)⟩
    exact List.mem_append_left _ (List.mem_append_left _ (List.mem_append_left _
      (List.mem_append_right _ hfl)))
  · intro F hF
    have hfl : ASE_FreeEvent.celsArray F.cels ∈
        (s.frames.map (fun I =>
          (I.cels.map (fun J => ASE_FreeEvent.celData J.data)) ++
            [ASE_FreeEvent.celsArray I.cels])).flatten :=
      List.mem_flatten.mpr ⟨_, List.mem_map.mpr ⟨F, hF, rfl⟩,
        List.mem_append_right _ (List.mem_singleton_self _)⟩
    exact List.mem_append_left _ (List.mem_append_left _ (List.mem_append_left _
      (List.mem_append_right _ hfl)))
  · intro T hT
    exact List.mem_append_left _ (List.mem_append_right _ (List.mem_map.mpr ⟨T, hT, rfl⟩))
  · exact List.mem_append_left _ (List.mem_append_left _ (List.mem_append_left _
      (List.mem_append_left _ (List.mem_append_right _ (List.mem_singleton_self _)))))
  · exact List.mem_append_left _ (List.mem_append_left _
      (List.mem_append_right _ (List.mem_singleton_self _)))
  · exact List.mem_append_right _ (List.mem_singleton_self _)

/-- C10 witness: the properties instantiated on a concrete one-of-each
sprite. -/
theorem C10_free_idempotent_witness :
    (ASE_free C10sprite).2 = ASE_Sprite.zero ∧
    ASE_FreeEvent.layerName [65] ∈ (ASE_free C10sprite).1 ∧
    ASE_FreeEvent.celData (some [1, 2]) ∈ (ASE_free C10sprite).1 ∧
    ASE_FreeEvent.tagName [66] ∈ (ASE_free C10sprite).1 ∧
    (ASE_free (ASE_free C10sprite).2).2 = (ASE_free C10sprite).2 := by
  obtain ⟨h1, h2, h3, _, h5, _, _, _, h9⟩ := C10_free_idempotent C10sprite
  exact ⟨h1,
    h2 { ASE_Layer.zero with name := [65] } (by decide),
    h3 ⟨9, [{ ASE_Cel.zero with data := some [1, 2] }]⟩ (by decide)
      { ASE_Cel.zero with data := some [1, 2] } (by decide),
    h5 ⟨0, 1, 0, [66]⟩ (by decide), h9⟩

set_option maxHeartbeats 2000000 in
/-- C9: (a) after any sequence of palette chunk applications starting from
the zeroed document palette, the live color count never exceeds 256 (the
count lives in a `uint8_t`, so it stays below 256); and (b) reading a
document header whose magic and depth are valid and whose palette color
count field is zero normalizes the count to 256. -/
theorem C9_palette_count_bounds :
    (∀ (chunks : List ASE__ctx),
      (chunks.foldl (fun P c => (ASE_Palette_read c P).1) ASE_Palette.zero).ncolors ≤ 256) ∧
    (∀ (buf : List Nat) (pos : Nat), pos + 36 ≤ buf.length →
      u16At buf (pos + 4) = ASE_FILE_MAGIC →
      (u16At buf (pos + 12) = 32 ∨ u16At buf (pos + 12) = 16 ∨
        u16At buf (pos + 12) = 8) →
      u16At buf (pos + 32) = 0 →
      (ASE_DOC_Header_read ⟨buf, pos⟩).2.1.ncolors = 256) := by
  constructor
  · have key : ∀ (chunks : List ASE__ctx) (P : ASE_Palette), P.ncolors < 256 →
        (chunks.foldl (fun P c => (ASE_Palette_read c P).1) P).ncolors < 256 := by
      intro chunks
      induction chunks with
      | nil => intro P h; exact h
      | cons c cs ih =>
        intro P h
        exact ih _ (palette_read_ncolors_lt c P h)
    intro chunks
    exact Nat.le_of_lt (key chunks ASE_Palette.zero (by decide))
  · intro buf pos hlen hmagic hdepth hz
    have e1 := ASE__read32_full ⟨buf, pos⟩
      (by show pos + 4 ≤ buf.length; omega)
    have e2 := ASE__read16_full ⟨buf, pos + 4⟩
      (by show pos + 4 + 2 ≤ buf.length; omega)
    have e3 := ASE__read16_full ⟨buf, pos + 4 + 2⟩
      (by show pos + 4 + 2 + 2 ≤ buf.length; omega)
    have e4 := ASE__read16_full ⟨buf, pos + 4 + 2 + 2⟩
      (by show pos + 4 + 2 + 2 + 2 ≤ buf.length; omega)
    have e5 := ASE__read16_full ⟨buf, pos + 4 + 2 + 2 + 2⟩
      (by show pos + 4 + 2 + 2 + 2 + 2 ≤ buf.length; omega)
    have e6 := ASE__read16_full ⟨buf, pos + 4 + 2 + 2 + 2 + 2⟩
      (by show pos + 4 + 2 + 2 + 2 + 2 + 2 ≤ buf.length; omega)
    have e7 := ASE__read32_full ⟨buf, pos + 4 + 2 + 2 + 2 + 2 + 2⟩
      (by show pos + 4 + 2 + 2 + 2 + 2 + 2 + 4 ≤ buf.length; omega)
    have e8 := ASE__read16_full ⟨buf, pos + 4 + 2 + 2 + 2 + 2 + 2 + 4⟩
      (by show pos + 4 + 2 + 2 + 2 + 2 + 2 + 4 + 2 ≤ buf.length; omega)
    have e9 := ASE__read32_full ⟨buf, pos + 4 + 2 + 2 + 2 + 2 + 2 + 4 + 2⟩
      (by show pos + 4 + 2 + 2 + 2 + 2 + 2 + 4 + 2 + 4 ≤ buf.length; omega)
    have e10 := ASE__read32_full ⟨buf, pos + 4 + 2 + 2 + 2 + 2 + 2 + 4 + 2 + 4⟩
      (by show pos + 4 + 2 + 2 + 2 + 2 + 2 + 4 + 2 + 4 + 4 ≤ buf.length; omega)
    have e11 := ASE__read8_full ⟨buf, pos + 4 + 2 + 2 + 2 + 2 + 2 + 4 + 2 + 4 + 4⟩
      (by show pos + 4 + 2 + 2 + 2 + 2 + 2 + 4 + 2 + 4 + 4 + 1 ≤ buf.length; omega)
    have e12 := ASE__mem_skip_full ⟨buf, pos + 4 + 2 + 2 + 2 + 2 + 2 + 4 + 2 + 4 + 4 + 1⟩ 3
      (by show pos + 4 + 2 + 2 + 2 + 2 + 2 + 4 + 2 + 4 + 4 + 1 + 3 ≤ buf.length; omega)
    have e13 := ASE__read16_full ⟨buf, pos + 4 + 2 + 2 + 2 + 2 + 2 + 4 + 2 + 4 + 4 + 1 + 3⟩
      (by show pos + 4 + 2 + 2 + 2 + 2 + 2 + 4 + 2 + 4 + 4 + 1 + 3 + 2 ≤ buf.length; omega)
    have e14 := ASE__read8_full ⟨buf, pos + 4 + 2 + 2 + 2 + 2 + 2 + 4 + 2 + 4 + 4 + 1 + 3 + 2⟩
      (by show pos + 4 + 2 + 2 + 2 + 2 + 2 + 4 + 2 + 4 + 4 + 1 + 3 + 2 + 1 ≤ buf.length; omega)
    have e15 := ASE__read8_full ⟨buf, pos + 4 + 2 + 2 + 2 + 2 + 2 + 4 + 2 + 4 + 4 + 1 + 3 + 2 + 1⟩
      (by show pos + 4 + 2 + 2 + 2 + 2 + 2 + 4 + 2 + 4 + 4 + 1 + 3 + 2 + 1 + 1 ≤ buf.length; omega)
    rw [ASE_DOC_Header_read]
    rw [e1]; dsimp only
    rw [e2]; dsimp only
    rw [e3]; dsimp only
    rw [e4]; dsimp only
    rw [e5]; dsimp only
    rw [e6]; dsimp only
    rw [e7]; dsimp only
    rw [e8]; dsimp only
    rw [e9]; dsimp only
    rw [e10]; dsimp only
    rw [e11]; dsimp only
    rw [e12]; dsimp only
    rw [e13]; dsimp only
    rw [e14]; dsimp only
    rw [e15]; dsimp only
    have hd : pos + 4 + 2 + 2 + 2 + 2 = pos + 12 := by omega
    have hn : pos + 4 + 2 + 2 + 2 + 2 + 2 + 4 + 2 + 4 + 4 + 1 + 3 = pos + 32 := by omega
    rw [hd, hn]
    rcases hdepth with h | h | h <;>
      simp [hmagic, hz, h, ASE_FILE_MAGIC, ASE_DEPTH_RGBA, ASE_DEPTH_GRAYSCALE,
        ASE_DEPTH_INDEXED, apply_ite]

/-- C9 witness: one concrete palette application and one concrete header
with a zero color count. -/
theorem C9_palette_count_bounds_witness :
    (([⟨C2bytes, 0⟩] : List ASE__ctx).foldl
      (fun P c => (ASE_Palette_read c P).1) ASE_Palette.zero).ncolors ≤ 256 ∧
    (ASE_DOC_Header_read ⟨C9bytes, 0⟩).2.1.ncolors = 256 :=
  ⟨C9_palette_count_bounds.1 [⟨C2bytes, 0⟩],
   C9_palette_count_bounds.2 C9bytes 0 (by decide) (by decide)
     (Or.inl (by decide)) (by decide)⟩

/-- C1 (counterexample): decoding the layer depth sequence `[0,1,2,3,2]`,
the fifth layer (depth 2, below the running depth 3) is left with parent 0,
which differs from the ancestor reached by walking up the last-created
layer's parent chain `lastDepth - depth = 1` step (layer index 2). -/
theorem C1_counterexample :
    ((decodeLayerSeq [0, 1, 2, 3, 2]).layers.getD 4 ASE_Layer.zero).parent ≠
      specWalkAncestor (decodeLayerSeq [0, 1, 2, 3]).layers 3 1 := by decide

set_option maxHeartbeats 1000000 in
/-- C1 (amended): for every layer chunk of Image or Group kind whose depth
is nonzero and strictly less than the running last-seen depth,
`ASE_Layer_read` computes the walk-back ancestor internally but never
assigns it: the new layer's parent index remains its zero-initialized
value 0. -/
theorem C1_walkback_parent_stays_zero (buf : List Nat) (pos : Nat)
    (S : ASE_Sprite) (prev : Option ASE_Layer) (lvl : Int)
    (hlen : pos + 18 + u16At buf (pos + 16) ≤ buf.length)
    (htype : u16At buf (pos + 2) = ASE_FILE_LAYER_IMAGE ∨
      u16At buf (pos + 2) = ASE_FILE_LAYER_GROUP)
    (hchild : 0 < u16At buf (pos + 4))
    (hlt : (u16At buf (pos + 4) : Int) < lvl) :
    ((ASE_Layer_read ⟨buf, pos⟩ S prev lvl).layer).map (fun L => L.parent) =
      some 0 := by
  have e1 := ASE__read16_full ⟨buf, pos⟩
    (by show pos + 2 ≤ buf.length; omega)
  have e2 := ASE__read16_full ⟨buf, pos + 2⟩
    (by show pos + 2 + 2 ≤ buf.length; omega)
  have e3 := ASE__read16_full ⟨buf, pos + 2 + 2⟩
    (by show pos + 2 + 2 + 2 ≤ buf.length; omega)
  have e4 := ASE__read16_full ⟨buf, pos + 2 + 2 + 2⟩
    (by show pos + 2 + 2 + 2 + 2 ≤ buf.length; omega)
  have e5 := ASE__read16_full ⟨buf, pos + 2 + 2 + 2 + 2⟩
    (by show pos + 2 + 2 + 2 + 2 + 2 ≤ buf.length; omega)
  have e6 := ASE__read16_full ⟨buf, pos + 2 + 2 + 2 + 2 + 2⟩
    (by show pos + 2 + 2 + 2 + 2 + 2 + 2 ≤ buf.length; omega)
  have e7 := ASE__read8_full ⟨buf, pos + 2 + 2 + 2 + 2 + 2 + 2⟩
    (by show pos + 2 + 2 + 2 + 2 + 2 + 2 + 1 ≤ buf.length; omega)
  have e8 := ASE__mem_skip_full ⟨buf, pos + 2 + 2 + 2 + 2 + 2 + 2 + 1⟩ 3
    (by show pos + 2 + 2 + 2 + 2 + 2 + 2 + 1 + 3 ≤ buf.length; omega)
  rw [ASE_Layer_read, ASE_DOC_read_string]
  rw [e1]; dsimp only
  rw [e2]; dsimp only
  rw [e3]; dsimp only
  rw [e4]; dsimp only
  rw [e5]; dsimp only
  rw [e6]; dsimp only
  rw [e7]; dsimp only
  rw [e8]; dsimp only
  simp only [show pos + 2 + 2 = pos + 4 from by omega,
    show pos + 4 + 2 = pos + 6 from by omega,
    show pos + 6 + 2 = pos + 8 from by omega,
    show pos + 8 + 2 = pos + 10 from by omega,
    show pos + 10 + 2 = pos + 12 from by omega,
    show pos + 12 + 1 = pos + 13 from by omega,
    show pos + 13 + 3 = pos + 16 from by omega]
  have e9 := ASE__read16_full ⟨buf, pos + 16⟩
    (by show pos + 16 + 2 ≤ buf.length; omega)
  rw [e9]; dsimp only
  have e10 := ASE__read8Loop_full (u16At buf (pos + 16)) ⟨buf, pos + 16 + 2⟩
    (by show pos + 16 + 2 + u16At buf (pos + 16) ≤ buf.length; omega)
  rw [e10]; dsimp only
  have hc0 : ¬(u16At buf (pos + 4) = 0) := by omega
  have hc1 : ¬(lvl = (u16At buf (pos + 4) : Int)) := by omega
  have hc2 : ¬((u16At buf (pos + 4) : Int) > lvl) := by omega
  rcases htype with h | h <;>
    simp [h, ASE_FILE_LAYER_IMAGE, ASE_FILE_LAYER_GROUP, hc0, hc1, hc2,
      ASE_Layer.zero, apply_ite]

/-- C1 witness: the amended claim instantiated on a concrete depth-1 layer
chunk read at running depth 2. -/
theorem C1_walkback_parent_stays_zero_witness :
    ((ASE_Layer_read ⟨layerChunkBytes 1, 0⟩ ASE_Sprite.zero
      (some ASE_Layer.zero) 2).layer).map (fun L => L.parent) = some 0 :=
  C1_walkback_parent_stays_zero (layerChunkBytes 1) 0 ASE_Sprite.zero
    (some ASE_Layer.zero) 2 (by decide) (Or.inl (by decide)) (by decide) (by decide)

set_option maxHeartbeats 2000000 in
/-- C8: when a compressed cel chunk's zlib payload fails to decompress, the
chunk step still appends the cel to the current frame with no pixel data
(`data = none`, as zero-initialized by `ASE_DOC_AddCel`; the partially
decoded output buffer is freed, not retained), all other frames and the
rest of the decoder state are untouched, and the cursor is repositioned to
the chunk's start plus its declared size, so sibling cels, remaining
chunks, and subsequent frames decode normally. -/
theorem C8_failed_decompress_empty_cel (buf : List Nat) (st : ASE__DecodeState)
    (hlen : st.pos + u32At buf st.pos ≤ buf.length)
    (hsize : 26 ≤ u32At buf st.pos)
    (htype : u16At buf (st.pos + 4) = ASE_FILE_CHUNK_CEL)
    (hlayer : u16At buf (st.pos + 6) < st.sprite.layers.length)
    (himg : (st.sprite.layers.getD (u16At buf (st.pos + 6)) ASE_Layer.zero).type =
      ASE_FILE_LAYER_IMAGE)
    (hcel : u16At buf (st.pos + 13) = ASE_FILE_COMPRESSED_CEL)
    (hw : 0 < u16At buf (st.pos + 22)) (hh : 0 < u16At buf (st.pos + 24))
    (hdepth : st.sprite.depth = 32 ∨ st.sprite.depth = 16 ∨ st.sprite.depth = 8)
    (hfail : stbi_zlib_decode_buffer
      ((i16 (u16At buf (st.pos + 22)) * i16 (u16At buf (st.pos + 24)) *
        ((st.sprite.depth / 8 : Nat) : Int)).toNat)
      (((buf.drop (st.pos + 26)).take (u32At buf st.pos - 26)).map (· % 256)) = none) :
    ASE__doChunk buf st = { st with
      pos := st.pos + u32At buf st.pos
      sprite := { st.sprite with
        frames := st.sprite.frames.dropLast ++
          [{ (st.sprite.frames.getLast?).getD ⟨0, []⟩ with
             cels := ((st.sprite.frames.getLast?).getD ⟨0, []⟩).cels ++
               [{ ASE_Cel.zero with
                  layer := u16At buf (st.pos + 6)
                  x := i16 (u16At buf (st.pos + 8))
                  y := i16 (u16At buf (st.pos + 10))
                  opacity := byteAt buf (st.pos + 12)
                  w := i16 (u16At buf (st.pos + 22))
                  h := i16 (u16At buf (st.pos + 24)) }] }] } } := by
  have e1 := ASE__read32_full ⟨buf, st.pos⟩
    (by show st.pos + 4 ≤ buf.length; omega)
  have e2 := ASE__read16_full ⟨buf, st.pos + 4⟩
    (by show st.pos + 4 + 2 ≤ buf.length; omega)
  have e3 := ASE__read16_full ⟨buf, st.pos + 4 + 2⟩
    (by show st.pos + 4 + 2 + 2 ≤ buf.length; omega)
  rw [ASE__doChunk]
  rw [e1]; dsimp only
  rw [e2]; dsimp only
  rw [htype]
  rw [if_neg (show ¬(ASE_FILE_CHUNK_CEL = ASE_FILE_CHUNK_PALETTE) from by decide)]
  rw [if_neg (show ¬(ASE_FILE_CHUNK_CEL = ASE_FILE_CHUNK_LAYER) from by decide)]
  rw [if_pos (show ASE_FILE_CHUNK_CEL = ASE_FILE_CHUNK_CEL from rfl)]
  rw [ASE_Cel_read]
  rw [e3]; dsimp only
  simp only [show st.pos + 4 + 2 = st.pos + 6 from by omega]
  have e4 := ASE__read16_full ⟨buf, st.pos + 6 + 2⟩
    (by show st.pos + 6 + 2 + 2 ≤ buf.length; omega)
  rw [e4]; dsimp only
  simp only [show st.pos + 6 + 2 = st.pos + 8 from by omega]
  have e5 := ASE__read16_full ⟨buf, st.pos + 8 + 2⟩
    (by show st.pos + 8 + 2 + 2 ≤ buf.length; omega)
  rw [e5]; dsimp only
  simp only [show st.pos + 8 + 2 = st.pos + 10 from by omega]
  have e6 := ASE__read8_full ⟨buf, st.pos + 10 + 2⟩
    (by show st.pos + 10 + 2 + 1 ≤ buf.length; omega)
  rw [e6]; dsimp only
  simp only [show st.pos + 10 + 2 = st.pos + 12 from by omega]
  have e7 := ASE__read16_full ⟨buf, st.pos + 12 + 1⟩
    (by show st.pos + 12 + 1 + 2 ≤ buf.length; omega)
  rw [e7]; dsimp only
  simp only [show st.pos + 12 + 1 = st.pos + 13 from by omega]
  have e8 := ASE__mem_skip_full ⟨buf, st.pos + 13 + 2⟩ 7
    (by show st.pos + 13 + 2 + 7 ≤ buf.length; omega)
  rw [e8]; dsimp only
  simp only [show st.pos + 13 + 2 + 7 = st.pos + 22 from by omega]
  have e9 := ASE__read16_full ⟨buf, st.pos + 22⟩
    (by show st.pos + 22 + 2 ≤ buf.length; omega)
  rw [e9]; dsimp only
  have e10 := ASE__read16_full ⟨buf, st.pos + 22 + 2⟩
    (by show st.pos + 22 + 2 + 2 ≤ buf.length; omega)
  rw [e10]; dsimp only
  simp only [show st.pos + 22 + 2 = st.pos + 24 from by omega]
  have hlayer' : ¬(u16At buf (st.pos + 6) ≥ st.sprite.layers.length) := by omega
  have himg' : ¬((st.sprite.layers.getD (u16At buf (st.pos + 6)) ASE_Layer.zero).type ≠
      ASE_FILE_LAYER_IMAGE) := fun hne => hne himg
  rw [if_neg hlayer']
  rw [if_neg himg']
  rw [hcel]
  rw [if_neg (show ¬(ASE_FILE_COMPRESSED_CEL = ASE_FILE_RAW_CEL) from by decide)]
  rw [if_neg (show ¬(ASE_FILE_COMPRESSED_CEL = ASE_FILE_LINK_CEL) from by decide)]
  rw [if_pos (show ASE_FILE_COMPRESSED_CEL = ASE_FILE_COMPRESSED_CEL from rfl)]
  rw [if_pos (⟨hw, hh⟩ : u16At buf (st.pos + 22) > 0 ∧ u16At buf (st.pos + 24) > 0)]
  have e11 := ASE__read8Loop_full (u32At buf st.pos - 26) ⟨buf, st.pos + 26⟩
    (by show st.pos + 26 + (u32At buf st.pos - 26) ≤ buf.length; omega)
  rcases hdepth with h | h | h
  · rw [h] at hfail ⊢
    simp only [show (32 : Nat) / 8 = 4 from by norm_num, Nat.cast_ofNat] at hfail
    rw [if_pos (show (32 : Nat) = ASE_DEPTH_RGBA from by decide)]
    rw [ASE_DOC_read_compressed_rgba]
    dsimp only
    simp only [show st.pos + 24 + 2 = st.pos + 26 from by omega,
      show st.pos + u32At buf st.pos - (st.pos + 26) = u32At buf st.pos - 26
        from by omega]
    rw [e11]; dsimp only
    rw [hfail]
  · rw [h] at hfail ⊢
    simp only [show (16 : Nat) / 8 = 2 from by norm_num, Nat.cast_ofNat] at hfail
    rw [if_neg (show ¬((16 : Nat) = ASE_DEPTH_RGBA) from by decide)]
    rw [if_pos (show (16 : Nat) = ASE_DEPTH_GRAYSCALE from by decide)]
    rw [ASE_DOC_read_compressed_grayscale]
    dsimp only
    simp only [show st.pos + 24 + 2 = st.pos + 26 from by omega,
      show st.pos + u32At buf st.pos - (st.pos + 26) = u32At buf st.pos - 26
        from by omega]
    rw [e11]; dsimp only
    rw [hfail]
  · rw [h] at hfail ⊢
    simp only [show (8 : Nat) / 8 = 1 from by norm_num, Nat.cast_one, mul_one] at hfail
    rw [if_neg (show ¬((8 : Nat) = ASE_DEPTH_RGBA) from by decide)]
    rw [if_neg (show ¬((8 : Nat) = ASE_DEPTH_GRAYSCALE) from by decide)]
    rw [if_pos (show (8 : Nat) = ASE_DEPTH_INDEXED from by decide)]
    rw [ASE_DOC_read_compressed_indexed]
    dsimp only
    simp only [show st.pos + 24 + 2 = st.pos + 26 from by omega,
      show st.pos + u32At buf st.pos - (st.pos + 26) = u32At buf st.pos - 26
        from by omega]
    rw [e11]; dsimp only
    rw [hfail]

/-- C8 witness: the failing-decompression step on the concrete cel chunk
`C8bytes` in state `C8state`. -/
theorem C8_failed_decompress_empty_cel_witness :
    ASE__doChunk C8bytes C8state = { C8state with
      pos := C8state.pos + u32At C8bytes C8state.pos
      sprite := { C8state.sprite with
        frames := C8state.sprite.frames.dropLast ++
          [{ (C8state.sprite.frames.getLast?).getD ⟨0, []⟩ with
             cels := ((C8state.sprite.frames.getLast?).getD ⟨0, []⟩).cels ++
               [{ ASE_Cel.zero with
                  layer := u16At C8bytes (C8state.pos + 6)
                  x := i16 (u16At C8bytes (C8state.pos + 8))
                  y := i16 (u16At C8bytes (C8state.pos + 10))
                  opacity := byteAt C8bytes (C8state.pos + 12)
                  w := i16 (u16At C8bytes (C8state.pos + 22))
                  h := i16 (u16At C8bytes (C8state.pos + 24)) }] }] } } :=
  C8_failed_decompress_empty_cel C8bytes C8state (by decide) (by decide)
    (by decide) (by decide) (by decide) (by decide) (by decide) (by decide)
    (Or.inl (by decide)) (by decide)

end PaqAse
